import Mathlib

/-!
Companion: action scheduling and button state engine

A shallow embedding of `lib/Bank/Action.js` (class `BankAction`) and of the
push-state and reset parts of `lib/Bank/Controller.js` (class
`BankController`), followed by theorems about the delay scheduler,
cancellation, the button state machine, button reset, module deletion, the
button status, the action-set store (appending, removing and swapping sets,
editing the actions of a set, setting up a button, construction) and stepping
by an amount.

Modelling conventions

* JS objects used as dictionaries are association lists with string keys; a
  read sees the own properties of the object.  The members that a plain object
  inherits from `Object.prototype` (`constructor`, `toString`, ...) are not
  seen: a theorem about a read whose key the caller chooses carries the
  hypothesis that the key is not one of those names (`objectPrototypeKeys`).
  Page and bank (button) numbers are carried as the property-key strings they
  are coerced to (`1` and `"1"` address the same entry; `page + '_' + bank`
  performs the same coercion).
* JS numbers are either `NaN` or an exact integer.  This is what the code
  computes as long as the integers stay in the safe-integer range of a double,
  where `+` is exact and `parseInt(String(n)) = n`.  A string that `Number`
  reads as a number outside this model has no reading (`stringToNumber` is
  `none`), and a function that depends on it has no result there.  A theorem
  whose statement depends on the magnitude of a number carries the bound
  `2^53` as a hypothesis (`JsNumber.isSafe`).  Only `onBankStepDelta`, whose
  amount is not bounded by anything in the engine, is modelled with the
  rounding of `+` to the nearest double (`roundToDouble`).
* Calls into collaborators that are not part of the engine (module host,
  event bus listeners, trigger engine, ember+ service, socket clients) are
  recorded, in call order, in the `events` trace of the state.
* The host timer queue (`setTimeout` / `clearTimeout`) is the `pending` list of
  the state; a timer handle is a natural number that is never handed out twice.
-/

namespace Companion

/-! ## JavaScript values -/

/-- The JS values that the `delay` property of an action can hold. -/
inductive JsValue where
  | undefined
  | null
  | str (s : String)
  | num (n : Int)
  deriving DecidableEq, Repr

/-- A JS number: `NaN` or an integer. -/
inductive JsNumber where
  | nan
  | int (n : Int)
  deriving DecidableEq, Repr

namespace JsNumber

/-- JS `+` on numbers: `NaN` is absorbing.  The sum is the exact one, which is
the sum of the doubles as long as it stays within the integers that doubles
hold exactly (`isSafe`); above `2^53` the code rounds. -/
def add : JsNumber → JsNumber → JsNumber
  | int a, int b => int (a + b)
  | _, _ => nan

/-- Whether a number is `NaN` or an integer of magnitude below `2^53`: the
numbers on which the exact arithmetic and the exact `parseInt` of this model
are those of the code. -/
def isSafe : JsNumber → Bool
  | int a => decide (a.natAbs < 2 ^ 53)
  | nan => true

/-- JS `x > 0`: false for `NaN`. -/
def gtZero : JsNumber → Bool
  | int a => decide (0 < a)
  | nan => false

end JsNumber

/-- The characters `parseInt` skips in front of the number (ECMAScript
`StrWhiteSpaceChar`: white space and line terminators). -/
def isStrWhiteSpace (c : Char) : Bool :=
  let n := c.toNat
  n == 9 || n == 10 || n == 11 || n == 12 || n == 13 || n == 32 || n == 160 ||
  n == 0x1680 || (0x2000 ≤ n && n ≤ 0x200A) || n == 0x2028 || n == 0x2029 ||
  n == 0x202F || n == 0x205F || n == 0x3000 || n == 0xFEFF

/-- The value of a character as a digit (`0-9`, `a-z`, `A-Z`), if it is one. -/
def digitValue (c : Char) : Option Nat :=
  let n := c.toNat
  if 48 ≤ n ∧ n ≤ 57 then some (n - 48)
  else if 97 ≤ n ∧ n ≤ 122 then some (n - 97 + 10)
  else if 65 ≤ n ∧ n ≤ 90 then some (n - 65 + 10)
  else none

/-- The longest prefix of digits of the given radix, as digit values. -/
def takeDigits (radix : Nat) : List Char → List Nat
  | [] => []
  | c :: cs =>
    match digitValue c with
    | some d => if d < radix then d :: takeDigits radix cs else []
    | none => []

/-- Step 3 of `parseInt`: an optional sign in front. -/
def stripSign : List Char → Int × List Char
  | c :: cs =>
    if c.toNat = 45 then (-1, cs)
    else if c.toNat = 43 then (1, cs)
    else (1, c :: cs)
  | [] => (1, [])

/-- Step 5 of `parseInt` without a radix argument: `0x` / `0X` selects radix 16,
anything else radix 10. -/
def stripPrefix : List Char → Nat × List Char
  | c :: d :: cs =>
    if c.toNat = 48 ∧ (d.toNat = 120 ∨ d.toNat = 88) then (16, cs) else (10, c :: d :: cs)
  | cs => (10, cs)

/-- JS `parseInt(s)` on a string, without a radix argument.  The digits are
read exactly; the code rounds a value above `2^53` to the nearest double. -/
def parseIntString (s : String) : JsNumber :=
  let trimmed := s.data.dropWhile isStrWhiteSpace
  let signed := stripSign trimmed
  let based := stripPrefix signed.2
  let ds := takeDigits based.1 based.2
  if ds = [] then JsNumber.nan
  else JsNumber.int (signed.1 * (ds.foldl (fun acc d => acc * based.1 + d) 0 : Nat))

/-- JS `parseInt(v)`: the argument is converted to a string first, so
`undefined` and `null` give `NaN` and an integer gives itself.  This is what
the code gives for an integer of magnitude below `2^53`; from `10^21` on the
string of a number has an exponent (`1e+21`), of which the code reads the
leading digit only, and that is not modelled. -/
def parseInt : JsValue → JsNumber
  | JsValue.undefined => JsNumber.nan
  | JsValue.null => JsNumber.nan
  | JsValue.str s => parseIntString s
  | JsValue.num n => JsNumber.int n

/-! ## Dictionaries, sets and maps -/

/-- A JS object used as a dictionary: its own properties in insertion order. -/
abbrev JsObject (α : Type) := List (String × α)

instance instDecidableEqJsObject {α : Type} [DecidableEq α] : DecidableEq (JsObject α) :=
  inferInstanceAs (DecidableEq (List (String × α)))

namespace JsObject

/-- Property read `o[k]` among the own properties; `none` is `undefined`.  A
plain object also inherits the members of `Object.prototype`, which this read
does not see: where the key is chosen by the caller, the theorems exclude the
names of those members (`objectPrototypeKeys`). -/
def get {α : Type} (o : JsObject α) (k : String) : Option α :=
  match o with
  | [] => none
  | (k', v) :: rest => if k' = k then some v else get rest k

/-- Property write `o[k] = v`: an existing property keeps its place. -/
def set {α : Type} (o : JsObject α) (k : String) (v : α) : JsObject α :=
  match o with
  | [] => [(k, v)]
  | (k', v') :: rest => if k' = k then (k, v) :: rest else (k', v') :: set rest k v

end JsObject

/-- The names of the members of `Object.prototype` (ECMAScript with its annex
B, as in Node.js).  For a plain object `o` and such a name `k` that is not an
own key of `o`, the read `o[k]` gives the inherited member, a function or
object, which is truthy and not `undefined`. -/
def objectPrototypeKeys : List String :=
  ["constructor", "__defineGetter__", "__defineSetter__", "hasOwnProperty",
    "__lookupGetter__", "__lookupSetter__", "isPrototypeOf", "propertyIsEnumerable",
    "toString", "valueOf", "__proto__", "toLocaleString"]

/-- `Set.prototype.add`. -/
def setAdd (xs : List String) (x : String) : List String :=
  if x ∈ xs then xs else xs ++ [x]

/-- `Set.prototype.delete`. -/
def setDelete (xs : List String) (x : String) : List String :=
  xs.filter (fun y => y ≠ x)

/-- `Map.prototype.set` on a map from timer handles to group ids. -/
def mapSet (m : List (Nat × String)) (k : Nat) (v : String) : List (Nat × String) :=
  match m with
  | [] => [(k, v)]
  | (k', v') :: rest => if k' = k then (k, v) :: rest else (k', v') :: mapSet rest k v

/-- `Map.prototype.delete`. -/
def mapDelete (m : List (Nat × String)) (k : Nat) : List (Nat × String) :=
  m.filter (fun e => e.1 ≠ k)

/-! ## Data model -/

/-- One configured action of a button (`ActionInstance`). -/
structure Action where
  id : String
  instanceId : String
  action : String
  delay : JsValue
  deriving DecidableEq, Repr

/-- The `run_source` / `extras` object handed to `runMultipleActions`. -/
structure RunSource where
  deviceid : Option String
  page : String
  bank : String
  deriving DecidableEq, Repr

/-- The closure of one `setTimeout` callback created by `runMultipleActions`. -/
structure Timer where
  timer : Nat
  action : Action
  delay_time : JsNumber
  groupId : String
  run_source : Option RunSource
  deriving DecidableEq, Repr

/-- The style data of one button (`this.bank.get(page, bank)`); a missing entry
is `{}`, which reads as the default value of this structure. -/
structure BankConfig where
  style : Option String := none
  step_auto_progress : Bool := false
  relative_delay : Bool := false
  deriving DecidableEq, Repr

/-- Calls that leave the engine, in the order they are made. -/
inductive Event where
  | graphics_bank_invalidate (page : String) (bank : Option String)
  | bank_force_state (page bank : String) (pushed : Bool)
  | device_page_up (deviceid : Option String)
  | device_page_set (deviceid : Option String) (page : Nat)
  | device_page_down (deviceid : Option String)
  | system_bank_action_sets_step (page bank : String) (index : Nat)
  | io_bank_action_sets_step (page bank : String) (value : Option String)
  | triggers_onBankPress (page bank : String) (direction : Bool) (deviceid : Option String)
  | emberplus_updateBankState (page bank : String) (pushed : Bool) (deviceid : Option String)
  | actionRun (action : Action) (extras : Option RunSource)
  | missingInstance (action : Action)
  | actionDelete (action : Action)
  | db_setKey_bank_action_sets (value : JsObject (JsObject (JsObject (List Action))))
  | db_setKey_bank (value : JsObject (JsObject BankConfig))
  | graphics_invalidateBank (page bank : String)
  | feedback_resetBank
  | preview_updateWebButtonsPage (page : String)
  | io_bank_action_sets_list (page bank : String) (keys : List String)
  | io_action_instance_definitions_set (instanceId : String)
  | io_bank_action_sets_reload (page bank : String) (ids : List String)
  | actionUpdate (action : Action) (page bank : String)
  | answer (actions : Option (List Action))
  deriving DecidableEq, Repr

/-- The mutable state of `BankAction` and the part of `BankController` it uses. -/
structure State where
  actions_running : List String := []
  timers_running : List (Nat × String) := []
  bank_action_sets : JsObject (JsObject (JsObject (List Action))) := []
  bank_cycle_step : JsObject (JsObject (Option String)) := []
  config : JsObject (JsObject BankConfig) := []
  pushed : JsObject Bool := []
  children : List String := []
  pending : List Timer := []
  next_timer : Nat := 0
  events : List Event := []
  bank_status : JsObject Int := []
  instance_status : JsObject Int := []
  definitons : JsObject (List String) := []
  deriving DecidableEq, Repr

/-- `system.emit` / `io.emit` / a call into a collaborator: append to the trace. -/
def State.emit (s : State) (e : Event) : State :=
  { s with events := s.events ++ [e] }

/-! ## The delay scheduler -/

/-- The `this_delay` of `runMultipleActions`:
`parseInt(a.delay === undefined || a.delay === '' ? 0 : a.delay)`. -/
def this_delay (a : Action) : JsNumber :=
  parseInt (if a.delay = JsValue.undefined ∨ a.delay = JsValue.str "" then JsValue.num 0 else a.delay)

/-- The first loop of `runMultipleActions`, from the state
`(action_delay, effective_delays)` it has reached. -/
def effectiveDelaysLoop (relative_delay : Bool) :
    List Action → JsNumber → JsObject JsNumber → JsObject JsNumber
  | [], _, effective_delays => effective_delays
  | a :: rest, action_delay, effective_delays =>
    let action_delay' :=
      if relative_delay then action_delay.add (this_delay a) else this_delay a
    effectiveDelaysLoop relative_delay rest action_delay' (effective_delays.set a.id action_delay')

/-- The table `effective_delays` after the first loop of `runMultipleActions`. -/
def effective_delays (actions : List Action) (relative_delay : Bool) : JsObject JsNumber :=
  effectiveDelaysLoop relative_delay actions (JsNumber.int 0) []

/-- The `delay` of the second loop:
`effective_delays[a.id] === undefined ? 0 : effective_delays[a.id]`. -/
def delayOf (table : JsObject JsNumber) (a : Action) : JsNumber :=
  match table.get a.id with
  | none => JsNumber.int 0
  | some d => d

/-- `runAction(action, extras)`: hand the action to its module if the module
host has a child for it, otherwise only a debug line is written. -/
def runAction (s : State) (action : Action) (extras : Option RunSource) : State :=
  if action.instanceId ∈ s.children then s.emit (Event.actionRun action extras)
  else s.emit (Event.missingInstance action)

/-- `setTimeout(callback, delay_time)` for the callback closing over the given
action, group and source: a fresh handle is returned and queued. -/
def setTimeout (s : State) (action : Action) (delay_time : JsNumber) (groupId : String)
    (run_source : Option RunSource) : State × Nat :=
  ({ s with
      pending := s.pending ++
        [{ timer := s.next_timer, action := action, delay_time := delay_time,
           groupId := groupId, run_source := run_source }],
      next_timer := s.next_timer + 1 },
   s.next_timer)

/-- `clearTimeout(timer)`. -/
def clearTimeout (s : State) (timer : Nat) : State :=
  { s with pending := s.pending.filter (fun t => t.timer ≠ timer) }

/-- The second loop of `runMultipleActions`, carrying `has_delayed`. -/
def runActionsLoop (table : JsObject JsNumber) (groupId : String)
    (run_source : Option RunSource) : List Action → State → Bool → State × Bool
  | [], s, has_delayed => (s, has_delayed)
  | a :: rest, s, has_delayed =>
    let delay := delayOf table a
    if delay.gtZero then
      let r := setTimeout s a delay groupId run_source
      let s' := { r.1 with timers_running := mapSet r.1.timers_running r.2 groupId }
      runActionsLoop table groupId run_source rest s' true
    else
      runActionsLoop table groupId run_source rest (runAction s a run_source) has_delayed

/-- `runMultipleActions(actions, groupId, relative_delay, run_source)`. -/
def runMultipleActions (s : State) (actions : List Action) (groupId : String)
    (relative_delay : Bool) (run_source : Option RunSource) : State :=
  let table := effective_delays actions relative_delay
  let r := runActionsLoop table groupId run_source actions s false
  if r.2 then
    let s' := { r.1 with actions_running := setAdd r.1.actions_running groupId }
    match run_source with
    | some src => s'.emit (Event.graphics_bank_invalidate src.page (some src.bank))
    | none => s'
  else r.1

/-- The body of the timer callback created by `runMultipleActions`. -/
def timerCallback (s : State) (t : Timer) : State :=
  let s1 := runAction s t.action t.run_source
  let s2 := { s1 with timers_running := mapDelete s1.timers_running t.timer }
  let hasAnotherTimer := (s2.timers_running.map (fun e => e.2)).find? (fun v => v = t.groupId)
  if hasAnotherTimer.isNone then
    let s3 := { s2 with actions_running := setDelete s2.actions_running t.groupId }
    match t.run_source with
    | some src => s3.emit (Event.graphics_bank_invalidate src.page (some src.bank))
    | none => s3
  else s2

/-- The host fires the pending timer with the given handle: it leaves the
queue and its callback runs.  A handle that is not pending does nothing. -/
def fireTimer (s : State) (timer : Nat) : State :=
  match s.pending.find? (fun t => t.timer = timer) with
  | none => s
  | some t => timerCallback (clearTimeout s timer) t

/-! ## Cancellation -/

/-- The pieces of a string between occurrences of the separator
(`String.prototype.split` with a one-character separator), on characters. -/
def splitChars (sep : Char) : List Char → List (List Char)
  | [] => [[]]
  | c :: cs =>
    if c = sep then [] :: splitChars sep cs
    else
      match splitChars sep cs with
      | [] => [[c]]
      | piece :: pieces => (c :: piece) :: pieces

/-- JS `bid.split('_')`. -/
def splitUnderscore (bid : String) : List String :=
  (splitChars (Char.ofNat 95) bid.data).map String.mk

/-- The redraw `abortAll` emits for one key of `actions_running`:
`a = bid.split('_')`, then `graphics_bank_invalidate` with `a[0]`, `a[1]`. -/
def abortAllRedraw (bid : String) : Event :=
  let a := splitUnderscore bid
  Event.graphics_bank_invalidate (a.headD "") (a.tail.head?)

/-- `abortAll()`. -/
def abortAll (s : State) : State :=
  let s1 := (s.timers_running.map (fun e => e.1)).foldl clearTimeout s
  let s2 := { s1 with timers_running := [] }
  let actions_running := s2.actions_running
  let s3 := { s2 with actions_running := [] }
  actions_running.foldl (fun st bid => st.emit (abortAllRedraw bid)) s3

namespace BankController

/-- `BankController.get(page, bank)`: the style data of a button, `{}` when the
page or the button has none. -/
def get (s : State) (page bank : String) : BankConfig :=
  match s.config.get page with
  | none => {}
  | some banks =>
    match banks.get bank with
    | none => {}
    | some c => c

/-- `BankController.indicatePushed(page, bank, pushed, deviceId)`. -/
def indicatePushed (s : State) (page bank : String) (pushed : Bool)
    (deviceId : Option String) : State :=
  let s1 := { s with pushed := s.pushed.set (page ++ "_" ++ bank) pushed }
  let s2 := s1.emit (Event.graphics_bank_invalidate page (some bank))
  s2.emit (Event.emberplus_updateBankState page bank pushed deviceId)

/-- `BankController.isPushed(page, bank)`. -/
def isPushed (s : State) (page bank : String) : Bool :=
  match s.pushed.get (page ++ "_" ++ bank) with
  | none => false
  | some b => b

end BankController

/-- One step of the `timers_running.forEach` of `abortBank`: an entry of the
group is cleared and deleted, any other entry is left alone. -/
def abortBankVisit (bid : String) (s : State) (entry : Nat × String) : State :=
  if entry.2 = bid then
    let s1 := clearTimeout s entry.1
    { s1 with timers_running := mapDelete s1.timers_running entry.1 }
  else s

/-- `abortBank(page, bank, skip_up)`.  The `bank_force_state` signal is
delivered to the listener the bank controller registers in its constructor,
which calls `indicatePushed(page, bank, pushed)`. -/
def abortBank (s : State) (page bank : String) (skip_up : Bool) : State :=
  let bid := page ++ "_" ++ bank
  let s1 := { s with actions_running := setDelete s.actions_running bid }
  let s2 := s1.timers_running.foldl (abortBankVisit bid) s1
  if skip_up then
    BankController.indicatePushed (s2.emit (Event.bank_force_state page bank false))
      page bank false none
  else s2

/-! ## The button state machine -/

/-- The array index a property key denotes, if it is one: a canonical decimal
numeral below `2^32 - 1`. -/
def arrayIndex (k : String) : Option Nat :=
  match k.data with
  | [] => none
  | c :: cs =>
    if (c :: cs).all (fun d => 48 ≤ d.toNat && d.toNat ≤ 57) then
      if c.toNat = 48 ∧ cs ≠ [] then none
      else
        let n := (c :: cs).foldl (fun acc d => acc * 10 + (d.toNat - 48)) 0
        if n < 4294967295 then some n else none
    else none

/-- JS `Object.keys(o)`: array-index keys in ascending numeric order, then the
other keys in insertion order. -/
def objectKeys {α : Type} (o : JsObject α) : List String :=
  let ks := o.map (fun e => e.1)
  let indexed := ks.filterMap (fun k => (arrayIndex k).map (fun n => (n, k)))
  ((indexed.insertionSort (fun a b => a.1 ≤ b.1)).map (fun e => e.2)) ++
    ks.filter (fun k => (arrayIndex k).isNone)

/-- Lexicographic `≤` on strings by character code, the order of the default
comparator of `Array.prototype.sort` (which compares UTF-16 code units; the
two agree on the Basic Multilingual Plane). -/
def codeUnitsLe : List Char → List Char → Bool
  | [], _ => true
  | _ :: _, [] => false
  | a :: as, b :: bs =>
    if a.toNat < b.toNat then true
    else if b.toNat < a.toNat then false
    else codeUnitsLe as bs

/-- JS `steps.sort()` on an array of strings (no comparator). -/
def jsSort (steps : List String) : List String :=
  steps.insertionSort (fun a b => codeUnitsLe a.data b.data = true)

/-- JS `xs.findIndex(p)`, counting from the given index: `-1` when no element
satisfies the predicate. -/
def findIndexFrom {α : Type} (p : α → Bool) : List α → Nat → Int
  | [], _ => -1
  | x :: xs, i => if p x then (i : Int) else findIndexFrom p xs (i + 1)

/-- JS `xs[i]` for a number `i`; `none` is `undefined`. -/
def arrayGet {α : Type} (xs : List α) (i : Int) : Option α :=
  if 0 ≤ i then xs[i.toNat]? else none

/-- JS `i || 0` on a number that is not `NaN`: only `0` is falsy. -/
def orZero (i : Int) : Int :=
  if i = 0 then 0 else i

/-- `bank_set_step_change(page, bank, value)`; `none` when
`bank_action_sets[page][bank]` cannot be read (a `TypeError`). -/
def bank_set_step_change (s : State) (page bank : String) (value : Option String) :
    Option State :=
  match s.bank_action_sets.get page with
  | none => none
  | some banks =>
    match banks.get bank with
    | none => none
    | some sets =>
      let index := findIndexFrom (fun k => some k = value) (objectKeys sets) 0
      let s1 := s.emit (Event.system_bank_action_sets_step page bank
        (if index = -1 then 0 else index.toNat))
      some (s1.emit (Event.io_bank_action_sets_step page bank value))

/-- The `step` branch of `pressBank` (taken on a press edge): the selected
`action_set_id` and the state after the cursor update; `none` when a property
of `undefined` is read (a `TypeError`). -/
def pressBankStep (s : State) (bank_config : BankConfig) (page bank : String) :
    Option (State × Option String) :=
  match s.bank_cycle_step.get page with
  | none => none
  | some cursors =>
    let this_step : Option String := (cursors.get bank).join
    match s.bank_action_sets.get page with
    | none => none
    | some banks =>
      match banks.get bank with
      | none => none
      | some sets =>
        let steps := objectKeys sets
        if steps.length > 0 then
          let steps := jsSort steps
          let this_step_index := orZero (findIndexFrom (fun k => some k = this_step) steps 0)
          let action_set_id := arrayGet steps this_step_index
          if bank_config.step_auto_progress then
            let next_index : Int :=
              if this_step_index + 1 ≥ steps.length then 0 else this_step_index + 1
            let s1 := { s with
              bank_cycle_step :=
                s.bank_cycle_step.set page (cursors.set bank (arrayGet steps next_index)) }
            match bank_set_step_change s1 page bank (arrayGet steps next_index) with
            | none => none
            | some s2 => some (s2, action_set_id)
          else some (s, action_set_id)
        else some (s, none)

/-- The `press` branch of `pressBank`: the set is chosen only when the
direction differs from the current push state. -/
def pressBankPress (s : State) (page bank : String) (direction : Bool) : Option String :=
  let is_pushed := BankController.isPushed s page bank
  if is_pushed && !direction then some "up"
  else if !is_pushed && direction then some "down"
  else none

/-- The `action_set_id` chosen by the first part of `pressBank`, with the state
after that part. -/
def pressBankSelect (s : State) (bank_config : BankConfig) (page bank : String)
    (direction : Bool) : Option (State × Option String) :=
  if bank_config.style = some "step" ∧ direction = true then
    pressBankStep s bank_config page bank
  else if bank_config.style = some "press" then
    some (s, pressBankPress s page bank direction)
  else some (s, none)

/-- The last part of `pressBank`: the existence checks and the call of
`runMultipleActions` on the selected set. -/
def pressBankRun (s : State) (bank_config : BankConfig) (page bank : String)
    (deviceid : Option String) (action_set_id : Option String) : State :=
  match action_set_id with
  | none => s
  | some set_id =>
    if set_id = "" then s
    else
      match s.bank_action_sets.get page with
      | none => s
      | some banks =>
        match banks.get bank with
        | none => s
        | some sets =>
          match sets.get set_id with
          | none => s
          | some actions =>
            runMultipleActions s actions (page ++ "_" ++ bank) bank_config.relative_delay
              (some { deviceid := deviceid, page := page, bank := bank })

/-- `pressBank(page, bank, direction, deviceid)`; `none` when the call throws a
`TypeError`. -/
def pressBank (s : State) (page bank : String) (direction : Bool)
    (deviceid : Option String) : Option State :=
  let bank_config := BankController.get s page bank
  let s0 := s.emit (Event.triggers_onBankPress page bank direction deviceid)
  match pressBankSelect s0 bank_config page bank direction with
  | none => none
  | some (s1, action_set_id) =>
    if bank_config.style = some "pageup" then
      some (if direction then s1.emit (Event.device_page_up deviceid) else s1)
    else if bank_config.style = some "pagenum" then
      some (if direction then s1.emit (Event.device_page_set deviceid 1) else s1)
    else if bank_config.style = some "pagedown" then
      some (if direction then s1.emit (Event.device_page_down deviceid) else s1)
    else
      let s2 := BankController.indicatePushed s1 page bank direction deviceid
      some (pressBankRun s2 bank_config page bank deviceid action_set_id)

/-- The call `runAction(action, extras)` makes on its module host. -/
def runActionEvent (s : State) (action : Action) (extras : Option RunSource) : Event :=
  if action.instanceId ∈ s.children then Event.actionRun action extras
  else Event.missingInstance action

/-- The redraw `runMultipleActions` emits at its end when `run_source` is given. -/
def runSourceRedraw : Option RunSource → List Event
  | some src => [Event.graphics_bank_invalidate src.page (some src.bank)]
  | none => []

/-- The timers the second loop of `runMultipleActions` queues for a list of
actions when the next free handle is `next`: one per action with a positive
`delay`, in list order. -/
def scheduledTimers (table : JsObject JsNumber) (groupId : String)
    (run_source : Option RunSource) : List Action → Nat → List Timer
  | [], _ => []
  | a :: rest, next =>
    if (delayOf table a).gtZero then
      { timer := next, action := a, delay_time := delayOf table a, groupId := groupId,
        run_source := run_source } :: scheduledTimers table groupId run_source rest (next + 1)
    else scheduledTimers table groupId run_source rest next

/-- The part of `pressBank` that every press or release of a button without a
page-navigation style goes through: the trigger engine is told, then the push
state is recorded and redrawn. -/
def pressEdge (s : State) (page bank : String) (direction : Bool)
    (deviceid : Option String) : State :=
  BankController.indicatePushed
    (s.emit (Event.triggers_onBankPress page bank direction deviceid)) page bank direction
    deviceid

/-- A press or release of a button whose selected set exists: the edge is
recorded and `runMultipleActions` is called once, on that set. -/
def pressAndRun (s : State) (page bank : String) (direction : Bool)
    (deviceid : Option String) (actions : List Action) : State :=
  runMultipleActions (pressEdge s page bank direction deviceid) actions (page ++ "_" ++ bank)
    (BankController.get s page bank).relative_delay
    (some { deviceid := deviceid, page := page, bank := bank })

/-! ## Button status, reset and module deletion -/

/-- JS `delete o[k]`. -/
def JsObject.delete {α : Type} (o : JsObject α) (k : String) : JsObject α :=
  o.filter (fun e => e.1 ≠ k)

/-- Modelled from the spec: `getHealth(instanceId) -> severity | absent`, the
`instance.getInstanceStatus(instance_id)` of the sources, whose class
`InstanceStatus` is not among them.  The table `instance_status` of the state
holds the current severity level (`status[0]`: 0 ok, 1 warning, 2 error) of the
modules that have one; `none` is `undefined`. -/
def getInstanceStatus (s : State) (instance_id : String) : Option Int :=
  s.instance_status.get instance_id

/-- The `action_sets` of `checkBankStatus`:
`(this.bank_action_sets[page] || {})[bank] || {}`. -/
def actionSetsOrEmpty (s : State) (page bank : String) : JsObject (List Action) :=
  match s.bank_action_sets.get page with
  | none => []
  | some banks =>
    match banks.get bank with
    | none => []
    | some sets => sets

/-- The set `instance_ids` that the first loop of `checkBankStatus` collects:
the instances of the actions of every set, in `for ... in` order. -/
def referencedInstances (action_sets : JsObject (List Action)) : List String :=
  (objectKeys action_sets).foldl
    (fun ids set =>
      match action_sets.get set with
      | none => ids
      | some actions => actions.foldl (fun ids' action => setAdd ids' action.instanceId) ids)
    []

/-- The second loop of `checkBankStatus`: starting from 0, the status is raised
to the level of every instance that has a status above it. -/
def combinedStatus (s : State) (instance_ids : List String) : Int :=
  instance_ids.foldl
    (fun status instance_id =>
      match getInstanceStatus s instance_id with
      | none => status
      | some level => if status < level then level else status)
    0

/-- `checkBankStatus(page, bank)`. -/
def checkBankStatus (s : State) (page bank : String) : State :=
  let status := combinedStatus s (referencedInstances (actionSetsOrEmpty s page bank))
  if s.bank_status.get (page ++ "_" ++ bank) ≠ some status then
    ({ s with bank_status := s.bank_status.set (page ++ "_" ++ bank) status }).emit
      (Event.graphics_invalidateBank page bank)
  else s

/-- The severity an instance counts with: its level, or 0 (ok) when it has no
known status. -/
def severityOf (s : State) (instance_id : String) : Int :=
  match getInstanceStatus s instance_id with
  | none => 0
  | some level => level

/-- `doSave()` of `BankAction`: the action-set map is written to the database. -/
def doSave (s : State) : State :=
  s.emit (Event.db_setKey_bank_action_sets s.bank_action_sets)

/-- `unsubscribeBank(page, bank)`: `actionDelete` is called on the module of
every action of the button whose module is running. -/
def unsubscribeBank (s : State) (page bank : String) : State :=
  match s.bank_action_sets.get page with
  | none => s
  | some banks =>
    match banks.get bank with
    | none => s
    | some sets =>
      (objectKeys sets).foldl
        (fun st set =>
          match sets.get set with
          | none => st
          | some action_set =>
            action_set.foldl
              (fun st' action =>
                if action.instanceId ∈ st'.children then st'.emit (Event.actionDelete action)
                else st')
              st)
        s

/-- `BankAction.resetBank(page, bank)`. -/
def BankAction.resetBank (s : State) (page bank : String) : State :=
  let s1 := unsubscribeBank s page bank
  let banks : JsObject (JsObject (List Action)) :=
    match s1.bank_action_sets.get page with
    | none => []
    | some b => b
  doSave { s1 with bank_action_sets := s1.bank_action_sets.set page (banks.set bank []) }

/-- `BankController.resetBank(page, bank, invalidate, save)`.  The call
`this.action.resetBank()` passes no arguments, so both parameters of
`BankAction.resetBank` are `undefined`, which as a property key is
`"undefined"`. -/
def BankController.resetBank (s : State) (page bank : String) (invalidate save : Bool) :
    State :=
  let banks : JsObject BankConfig :=
    match s.config.get page with
    | none => []
    | some b => b
  let s1 := { s with config := s.config.set page (banks.set bank {}) }
  let s2 := BankAction.resetBank s1 "undefined" "undefined"
  let s3 := s2.emit Event.feedback_resetBank
  let s4 := checkBankStatus s3 page bank
  let s5 := if save then s4.emit (Event.db_setKey_bank s4.config) else s4
  if invalidate then
    (s5.emit (Event.graphics_bank_invalidate page (some bank))).emit
      (Event.preview_updateWebButtonsPage page)
  else s5

/-- The loop of `deleteInstance` over one action list, from index `i`: an
action of the instance is spliced out and the index stays (`i--` then `++i`),
any other action is stepped over.  Every round removes an action or advances
the index, so `actions.length` rounds of fuel always reach the end. -/
def deleteInstanceLoop (instanceId : String) :
    Nat → List Action → Nat → Bool → List Action × Bool
  | 0, actions, _, changed => (actions, changed)
  | fuel + 1, actions, i, changed =>
    match actions[i]? with
    | none => (actions, changed)
    | some action =>
      if action.instanceId = instanceId then
        deleteInstanceLoop instanceId fuel (actions.eraseIdx i) i true
      else deleteInstanceLoop instanceId fuel actions (i + 1) changed

/-- The callback `deleteInstance` hands to `iterateActionSets`, on the set
`bank_action_sets[page][bank][set]`. -/
def deleteInstanceVisit (instanceId : String) (s : State) (place : String × String × String) :
    State :=
  match s.bank_action_sets.get place.1 with
  | none => s
  | some banks =>
    match banks.get place.2.1 with
    | none => s
    | some sets =>
      match sets.get place.2.2 with
      | none => s
      | some actions =>
        let r := deleteInstanceLoop instanceId actions.length actions 0 false
        let s1 := { s with
          bank_action_sets :=
            s.bank_action_sets.set place.1 (banks.set place.2.1 (sets.set place.2.2 r.1)) }
        if r.2 then checkBankStatus s1 place.1 place.2.1 else s1

/-- The places `iterateActionSets` visits, in order: every set of every button
of every page. -/
def actionSetPlaces (bank_action_sets : JsObject (JsObject (JsObject (List Action)))) :
    List (String × String × String) :=
  (objectKeys bank_action_sets).flatMap fun page =>
    match bank_action_sets.get page with
    | none => []
    | some banks =>
      (objectKeys banks).flatMap fun bank =>
        match banks.get bank with
        | none => []
        | some sets => (objectKeys sets).map fun set => (page, bank, set)

/-- `deleteInstance(instanceId)`. -/
def deleteInstance (s : State) (instanceId : String) : State :=
  let s1 := (actionSetPlaces s.bank_action_sets).foldl (deleteInstanceVisit instanceId) s
  let s2 := { s1 with definitons := s1.definitons.delete instanceId }
  s2.emit (Event.io_action_instance_definitions_set instanceId)

/-- The action list `bank_action_sets[page][bank][set]`; `none` when the page,
the button or the set is missing. -/
def actionsAt (bank_action_sets : JsObject (JsObject (JsObject (List Action))))
    (page bank set : String) : Option (List Action) :=
  match bank_action_sets.get page with
  | none => none
  | some banks =>
    match banks.get bank with
    | none => none
    | some sets => sets.get set

/-! ## The action-set store: appending and removing step sets -/

/-- JS white space stripped from both ends of a string (`StrWhiteSpace`). -/
def trimWhiteSpace (cs : List Char) : List Char :=
  ((cs.dropWhile isStrWhiteSpace).reverse.dropWhile isStrWhiteSpace).reverse

/-- Whether a character is one of `0` to `9`. -/
def isDecimalDigit (c : Char) : Bool :=
  48 ≤ c.toNat && c.toNat ≤ 57

/-- Whether a character is a digit of the given radix. -/
def isDigitOf (radix : Nat) (c : Char) : Bool :=
  match digitValue c with
  | some d => decide (d < radix)
  | none => false

/-- The number a list of digits denotes in the given radix. -/
def digitsValue (radix : Nat) (cs : List Char) : Nat :=
  cs.foldl (fun acc c => acc * radix + (digitValue c).getD 0) 0

/-- The radix a non-decimal integer literal announces with its second
character (`x`, `o`, `b` in either case). -/
def radixOfPrefix (c : Char) : Option Nat :=
  if c.toNat = 120 ∨ c.toNat = 88 then some 16
  else if c.toNat = 111 ∨ c.toNat = 79 then some 8
  else if c.toNat = 98 ∨ c.toNat = 66 then some 2
  else none

/-- The reading of a trimmed, non-empty string as a non-decimal integer
literal (`0x1f`, `0o17`, `0b101`), if it is one. -/
def nonDecimalLiteral : List Char → Option Nat
  | z :: p :: d :: ds =>
    if z.toNat = 48 then
      match radixOfPrefix p with
      | some radix =>
        if (d :: ds).all (isDigitOf radix) then some (digitsValue radix (d :: ds)) else none
      | none => none
    else none
  | _ => none

/-- A string with an optional sign taken off. -/
def dropSign : List Char → List Char
  | c :: cs => if c.toNat = 45 ∨ c.toNat = 43 then cs else c :: cs
  | [] => []

/-- JS `Number(s)` on a string, within the model of numbers (`NaN` and the
integers): the empty or blank string is 0, an optionally signed run of decimal
digits and a non-decimal integer literal are the integers they denote, and a
string that, behind an optional sign, does not start like a numeral (with a
digit, a dot or `I` as in `Infinity`) is `NaN`.  Every other string (a numeral
with a fraction or an exponent, `Infinity`, a numeral followed by other
characters) is outside the model: the result is `none`. -/
def stringToNumber (s : String) : Option JsNumber :=
  match trimWhiteSpace s.data with
  | [] => some (JsNumber.int 0)
  | c :: cs =>
    if (c :: cs).all isDecimalDigit then some (JsNumber.int (digitsValue 10 (c :: cs)))
    else if c.toNat = 45 ∧ cs ≠ [] ∧ cs.all isDecimalDigit then
      some (JsNumber.int (-(digitsValue 10 cs : Int)))
    else if c.toNat = 43 ∧ cs ≠ [] ∧ cs.all isDecimalDigit then
      some (JsNumber.int (digitsValue 10 cs))
    else
      match nonDecimalLiteral (c :: cs) with
      | some n => some (JsNumber.int n)
      | none =>
        match dropSign (c :: cs) with
        | [] => some JsNumber.nan
        | d :: _ =>
          if isDecimalDigit d ∨ d.toNat = 46 ∨ d.toNat = 73 then none
          else some JsNumber.nan

/-- The decimal digits of a natural number, most significant first; `fuel`
bounds the number of digits and `n + 1` is always enough. -/
def decimalDigits : Nat → Nat → List Char
  | 0, _ => []
  | fuel + 1, n =>
    if n < 10 then [Char.ofNat (48 + n)]
    else decimalDigits fuel (n / 10) ++ [Char.ofNat (48 + n % 10)]

/-- JS conversion of an integer to a string, as in the template literal of
`bank_set_append`. -/
def intToString (n : Int) : String :=
  if n < 0 then String.mk (Char.ofNat 45 :: decimalDigits (n.natAbs + 1) n.natAbs)
  else String.mk (decimalDigits (n.natAbs + 1) n.natAbs)

/-- The `existingKeys` of `bank_set_append`:
`keys.map((k) => Number(k)).filter((k) => !isNaN(k))`; `none` when a key is
outside the model of numbers. -/
def numbersOfKeys : List String → Option (List Int)
  | [] => some []
  | k :: ks =>
    match stringToNumber k, numbersOfKeys ks with
    | some (JsNumber.int n), some ns => some (n :: ns)
    | some JsNumber.nan, some ns => some ns
    | _, _ => none

/-- JS `Math.max(...numbers)` on a non-empty list of integers. -/
def mathMax (n : Int) (ns : List Int) : Int :=
  ns.foldl (fun m k => if m < k then k else m) n

/-- The key `bank_set_append` gives the new set: `'0'` when there is no numeric
key, otherwise the largest numeric key plus one.  The sum and its decimal
numeral are exact, which is what `max + 1` and the template literal give for
ids of magnitude below `2^53`; at `2^53` the code's `max + 1` rounds back to
`max`. -/
def appendedKey : List Int → String
  | [] => "0"
  | n :: ns => intToString (mathMax n ns + 1)

/-- The two guards that open `bank_set_append`, `bank_set_remove` and
`bank_set_swap`: a missing page and a missing button get an empty object. -/
def ensureBank (m : JsObject (JsObject (JsObject (List Action)))) (page bank : String) :
    JsObject (JsObject (JsObject (List Action))) :=
  let m1 :=
    match m.get page with
    | none => m.set page []
    | some _ => m
  match m1.get page with
  | none => m1
  | some banks =>
    match banks.get bank with
    | none => m1.set page (banks.set bank [])
    | some _ => m1

/-- The assignment `bank_action_sets[page][bank] = sets` (also the effect of
changing the object `bank_action_sets[page][bank]` in place). -/
def putSets (m : JsObject (JsObject (JsObject (List Action)))) (page bank : String)
    (sets : JsObject (List Action)) : JsObject (JsObject (JsObject (List Action))) :=
  match m.get page with
  | none => m
  | some banks => m.set page (banks.set bank sets)

/-- The closing `io.emit('bank_action_sets_list', page, bank, Object.keys(...))`
of `bank_set_append` and `bank_set_remove`. -/
def emitSetsList (s : State) (page bank : String) : State :=
  s.emit (Event.io_bank_action_sets_list page bank (objectKeys (actionSetsOrEmpty s page bank)))

/-- `bank_set_append(page, bank)`; `none` when a set id of the button is
outside the model of numbers.  The new key is exact (`appendedKey`), as in the
code for ids of magnitude below `2^53`. -/
def bank_set_append (s : State) (page bank : String) : Option State :=
  let s1 := { s with bank_action_sets := ensureBank s.bank_action_sets page bank }
  let bank_config := BankController.get s1 page bank
  if bank_config.style = some "step" then
    let sets := actionSetsOrEmpty s1 page bank
    match numbersOfKeys (objectKeys sets) with
    | none => none
    | some existingKeys =>
      some (emitSetsList
        { s1 with
          bank_action_sets :=
            putSets s1.bank_action_sets page bank (sets.set (appendedKey existingKeys) []) }
        page bank)
  else some (emitSetsList s1 page bank)

/-- The cursor update of `bank_set_remove` after the set was deleted; `none`
when a property of `undefined` is read (a `TypeError`). -/
def bank_set_remove_cursor (s : State) (page bank id : String) (oldKeys : List String) :
    Option State :=
  let oldIndex := findIndexFrom (fun k => k = id) oldKeys 0
  let newIndex : Int := if oldIndex + 1 ≥ oldKeys.length then 0 else oldIndex + 1
  if newIndex ≠ oldIndex then
    match s.bank_cycle_step.get page with
    | none => none
    | some cursors =>
      let s1 := { s with
        bank_cycle_step := s.bank_cycle_step.set page (cursors.set bank (arrayGet oldKeys newIndex)) }
      match bank_set_step_change s1 page bank (arrayGet oldKeys newIndex) with
      | none => none
      | some s2 => some (s2.emit (Event.graphics_bank_invalidate page (some bank)))
  else some s

/-- `bank_set_remove(page, bank, id)`; `none` when the call throws a
`TypeError`. -/
def bank_set_remove (s : State) (page bank id : String) : Option State :=
  let s1 := { s with bank_action_sets := ensureBank s.bank_action_sets page bank }
  let bank_config := BankController.get s1 page bank
  if bank_config.style = some "step" then
    let sets := actionSetsOrEmpty s1 page bank
    let oldKeys := objectKeys sets
    if oldKeys.length > 1 then
      match bank_set_remove_cursor
          { s1 with bank_action_sets := putSets s1.bank_action_sets page bank (sets.delete id) }
          page bank id oldKeys with
      | none => none
      | some s2 => some (emitSetsList s2 page bank)
    else some (emitSetsList s1 page bank)
  else some (emitSetsList s1 page bank)

/-- The cursor of a button, `bank_cycle_step[page][bank]`. -/
def cursorOf (s : State) (page bank : String) : Option String :=
  match s.bank_cycle_step.get page with
  | none => none
  | some cursors => (cursors.get bank).join

/-! ## Swapping sets, editing actions, setting up a button -/

/-- `bank_set_swap(page, bank, id1, id2)`.  The guard `sets[id1] && sets[id2]`
is read on the own properties of the button's object (an existing set is an
array, which is truthy); for an id that is not a set of the button and names a
member of `Object.prototype` the code reads the inherited member, which is
truthy as well, so the theorems about ids that may be missing exclude those
names. -/
def bank_set_swap (s : State) (page bank id1 id2 : String) : State :=
  let s1 := { s with bank_action_sets := ensureBank s.bank_action_sets page bank }
  let sets := actionSetsOrEmpty s1 page bank
  let s2 :=
    match sets.get id1, sets.get id2 with
    | some set1, some set2 =>
      if (BankController.get s1 page bank).style = some "step" then
        { s1 with
          bank_action_sets :=
            putSets s1.bank_action_sets page bank ((sets.set id1 set2).set id2 set1) }
      else s1
    | _, _ => s1
  s2.emit (Event.io_bank_action_sets_reload page bank [id1, id2])

/-- JS `action_set.splice(new_index, 0, action_set.splice(old_index, 1)[0])` for
two array positions: the action at `old_index` is taken out and put in front
of what is then at `new_index` (at the end when `new_index` is beyond it).
`none` when there is no action at `old_index`: the array then receives an
`undefined` entry, which lists of actions do not have. -/
def spliceMove (action_set : List Action) (old_index new_index : Nat) : Option (List Action) :=
  match action_set[old_index]? with
  | none => none
  | some a =>
    let rest := action_set.eraseIdx old_index
    some (rest.take new_index ++ a :: rest.drop new_index)

/-- The handler of `bank_update_action_option_order`; `none` when the call
throws a `TypeError` or `old_index` is not a position of the list. -/
def bank_update_action_option_order (s : State) (page bank set : String)
    (old_index new_index : Nat) : Option State :=
  match s.bank_action_sets.get page with
  | none => none
  | some banks =>
    match banks.get bank with
    | none => some s
    | some sets =>
      match sets.get set with
      | none => some s
      | some action_set =>
        match spliceMove action_set old_index new_index with
        | none => none
        | some moved =>
          some (doSave
            { s with bank_action_sets := putSets s.bank_action_sets page bank (sets.set set moved) })

/-- The reply `answer(this.bank_action_sets[page][bank][set])` that closes the
handlers of `bank_action_add` and `bank_action_delete`, made when the client
gave a callback; `none` when the read throws a `TypeError`. -/
def answerActions (s : State) (page bank set : String) (answer : Bool) : Option State :=
  if answer then
    match s.bank_action_sets.get page with
    | none => none
    | some banks =>
      match banks.get bank with
      | none => none
      | some sets => some (s.emit (Event.answer (sets.get set)))
  else some s

/-- The handler of `bank_action_add`.  The id that `shortid.generate()` gives
the new action and the two parts of `action.split(/:/)` are parameters; the
new action has no `delay` property. -/
def bank_action_add (s : State) (page bank set id instanceId action : String) (answer : Bool) :
    Option State :=
  let s1 := { s with bank_action_sets := ensureBank s.bank_action_sets page bank }
  let sets := actionSetsOrEmpty s1 page bank
  match sets.get set with
  | none => some s1
  | some action_set =>
    let act : Action :=
      { id := id, instanceId := instanceId, action := action, delay := JsValue.undefined }
    let s2 := { s1 with
      bank_action_sets := putSets s1.bank_action_sets page bank (sets.set set (action_set ++ [act])) }
    let s3 := if act.instanceId ∈ s2.children then s2.emit (Event.actionUpdate act page bank) else s2
    match answerActions (doSave s3) page bank set answer with
    | none => none
    | some s4 => some (checkBankStatus s4 page bank)

/-- The loop of the handler of `bank_action_delete`: the first action with the
given id is reported to its module, if that is running, and taken out. -/
def deleteAction (s : State) (page bank set id : String) (sets : JsObject (List Action)) :
    State :=
  match sets.get set with
  | none => s
  | some action_set =>
    match action_set.find? (fun a => a.id = id) with
    | none => s
    | some a =>
      let s1 := if a.instanceId ∈ s.children then s.emit (Event.actionDelete a) else s
      { s1 with
        bank_action_sets :=
          putSets s1.bank_action_sets page bank
            (sets.set set (action_set.eraseP (fun a => a.id = id))) }

/-- The handler of `bank_action_delete`; `none` when the call throws a
`TypeError`. -/
def bank_action_delete (s : State) (page bank set id : String) (answer : Bool) :
    Option State :=
  match s.bank_action_sets.get page with
  | none => none
  | some banks =>
    let s1 :=
      match banks.get bank with
      | none => s
      | some sets => deleteAction s page bank set id sets
    match answerActions (doSave s1) page bank set answer with
    | none => none
    | some s2 => some (checkBankStatus s2 page bank)

/-- The object `setupBank` gives the button for its style. -/
def setupSets (style : Option String) : JsObject (List Action) :=
  if style = some "press" then [("down", []), ("up", [])]
  else if style = some "step" then [("0", [])]
  else []

/-- `setupBank(page, bank, style)`, where `style` is a string or `null`
(`none`); `none` when the call throws a `TypeError`. -/
def setupBank (s : State) (page bank : String) (style : Option String) : Option State :=
  match s.bank_cycle_step.get page with
  | none => none
  | some cursors =>
    let s1 := { s with bank_cycle_step := s.bank_cycle_step.set page (cursors.set bank (some "0")) }
    match bank_set_step_change s1 page bank (some "0") with
    | none => none
    | some s2 =>
      some (emitSetsList
        { s2 with bank_action_sets := putSets s2.bank_action_sets page bank (setupSets style) }
        page bank)

/-- The calls on the action sets of one button that follow
`setupBank(page, bank, style)`, made by the bank controller right after it
has stored `style` as the style of the button: sets are appended, removed and
swapped, actions are added, deleted and reordered.  The set ids that the
caller passes to look a set up are not names of members of `Object.prototype`
(for such a name the code reads the inherited member in place of a set). -/
inductive StoreReachable (page bank : String) (style : Option String) : State → Prop where
  | setup (s s' : State) (hstyle : (BankController.get s page bank).style = style)
      (h : setupBank s page bank style = some s') : StoreReachable page bank style s'
  | addSet (s s' : State) (hs : StoreReachable page bank style s)
      (h : bank_set_append s page bank = some s') : StoreReachable page bank style s'
  | removeSet (s s' : State) (id : String) (hs : StoreReachable page bank style s)
      (h : bank_set_remove s page bank id = some s') : StoreReachable page bank style s'
  | swapSets (s : State) (id1 id2 : String) (hid1 : id1 ∉ objectPrototypeKeys)
      (hid2 : id2 ∉ objectPrototypeKeys) (hs : StoreReachable page bank style s) :
      StoreReachable page bank style (bank_set_swap s page bank id1 id2)
  | addAction (s s' : State) (set id instanceId action : String) (answer : Bool)
      (hset : set ∉ objectPrototypeKeys) (hs : StoreReachable page bank style s)
      (h : bank_action_add s page bank set id instanceId action answer = some s') :
      StoreReachable page bank style s'
  | deleteAction (s s' : State) (set id : String) (answer : Bool)
      (hset : set ∉ objectPrototypeKeys) (hs : StoreReachable page bank style s)
      (h : bank_action_delete s page bank set id answer = some s') :
      StoreReachable page bank style s'
  | reorderActions (s s' : State) (set : String) (old_index new_index : Nat)
      (hset : set ∉ objectPrototypeKeys) (hs : StoreReachable page bank style s)
      (h : bank_update_action_option_order s page bank set old_index new_index = some s') :
      StoreReachable page bank style s'

/-! ## Construction -/

/-- The inner loop of the constructor of `BankAction`:
`bank_cycle_step[page][bank] = '0'` for the banks 1 to `MAX_BUTTONS`. -/
def constructorBanks (MAX_BUTTONS : Nat) : JsObject (Option String) :=
  (List.range MAX_BUTTONS).foldl
    (fun o (bank : Nat) => o.set (intToString ((bank : Int) + 1)) (some "0")) []

/-- The outer loop of the constructor of `BankAction`: `bank_cycle_step[page]`
for the pages 1 to 99. -/
def constructorPages (MAX_BUTTONS : Nat) : JsObject (JsObject (Option String)) :=
  (List.range 99).foldl
    (fun o (page : Nat) => o.set (intToString ((page : Int) + 1)) (constructorBanks MAX_BUTTONS)) []

/-- The constructor of `BankAction`: `bank_action_sets` is what the database
holds under the key `bank_action_sets` (the parameter `persisted`), and
`bank_cycle_step` gets an entry for every button of the pages 1 to 99.  The
global constant `MAX_BUTTONS` is a parameter. -/
def BankAction.constructor (persisted : JsObject (JsObject (JsObject (List Action))))
    (MAX_BUTTONS : Nat) : State :=
  { bank_action_sets := persisted, bank_cycle_step := constructorPages MAX_BUTTONS }

/-! ## Stepping by an amount -/

/-- The number of binary digits of a natural number; `fuel` bounds it, and the
number itself is always enough. -/
def bitLength : Nat → Nat → Nat
  | 0, _ => 0
  | fuel + 1, n => if n = 0 then 0 else bitLength fuel (n / 2) + 1

/-- The double nearest to an integer (IEEE 754 round to nearest, ties to
even), for integers below the overflow threshold `2^1024`: an integer of at
most 53 binary digits is a double, a longer one is rounded to 53 significant
digits.  JS `a + b` on two integer-valued doubles is `roundToDouble (a + b)`. -/
def roundToDouble (z : Int) : Int :=
  let digits := bitLength z.natAbs z.natAbs
  if digits ≤ 53 then z
  else
    let unit := 2 ^ (digits - 53)
    let q := z.natAbs / unit
    let r := z.natAbs % unit
    let q' := if 2 * r > unit ∨ (2 * r = unit ∧ q % 2 = 1) then q + 1 else q
    if z < 0 then -((q' * unit : Nat) : Int) else ((q' * unit : Nat) : Int)

/-- The loop `while (newIndex < 0) newIndex += all_steps.length` of
`onBankStepDelta`; `none` when it has not ended within `fuel` rounds. -/
def whileNegative (length : Nat) : Nat → Int → Option Int
  | 0, _ => none
  | fuel + 1, newIndex =>
    if newIndex < 0 then whileNegative length fuel (roundToDouble (newIndex + (length : Int)))
    else some newIndex

/-- `bank_set_next_step(page, bank, set)`, where `set` may be `undefined`
(`none`, as a property key `"undefined"`); `none` when the call throws a
`TypeError`. -/
def bank_set_next_step (s : State) (page bank : String) (set : Option String) : Option State :=
  let s1 := { s with bank_action_sets := ensureBank s.bank_action_sets page bank }
  match (actionSetsOrEmpty s1 page bank).get (set.getD "undefined") with
  | none => some s1
  | some _ =>
    if (BankController.get s1 page bank).style = some "step" then
      match s1.bank_cycle_step.get page with
      | none => none
      | some cursors =>
        let s2 := { s1 with bank_cycle_step := s1.bank_cycle_step.set page (cursors.set bank set) }
        match bank_set_step_change s2 page bank set with
        | none => none
        | some s3 => some (s3.emit (Event.graphics_bank_invalidate page (some bank)))
    else some s1

/-- The index `onBankStepDelta` counts from, `current === -1 ? 0 : current`:
the position of the cursor in the key list, 0 when it is not in the list. -/
def currentStep (all_steps : List String) (cursor : String) : Int :=
  let current := findIndexFrom (fun k => k = cursor) all_steps 0
  if current = -1 then 0 else current

/-- The body of `onBankStepDelta` behind its guard. -/
def onBankStepDeltaMove (fuel : Nat) (s : State) (page bank : String)
    (sets : JsObject (List Action)) (cursor : String) (amount : Int) : Option State :=
  let all_steps := objectKeys sets
  if all_steps.length > 0 then
    match whileNegative all_steps.length fuel
        (roundToDouble (currentStep all_steps cursor + amount)) with
    | none => none
    | some newIndex =>
      bank_set_next_step s page bank (arrayGet all_steps (Int.tmod newIndex all_steps.length))
  else some s

/-- `onBankStepDelta(page, bank, amount)` for a number `amount` that is an
integer; `none` when the loop of the function has not ended within `fuel`
rounds. -/
def onBankStepDelta (fuel : Nat) (s : State) (page bank : String) (amount : Int) :
    Option State :=
  match s.bank_action_sets.get page, s.bank_cycle_step.get page with
  | some banks, some cursors =>
    match banks.get bank, (cursors.get bank).join with
    | some sets, some cursor =>
      if cursor ≠ "" ∧ amount ≠ 0 then onBankStepDeltaMove fuel s page bank sets cursor amount
      else some s
    | _, _ => some s
  | _, _ => some s

/-- The key space of a style: a press button has exactly the sets `down` and
`up`; a step button has at least one set, and its set ids are distinct decimal
numerals of natural numbers. -/
def KeySpace (style : Option String) (sets : JsObject (List Action)) : Prop :=
  (style = some "press" → sets.map (fun e => e.1) = ["down", "up"]) ∧
    (style = some "step" →
      1 ≤ sets.length ∧ (sets.map (fun e => e.1)).Nodup ∧
        ∀ k ∈ sets.map (fun e => e.1), ∃ n : Nat, k = intToString (n : Int))

/-- The object `bank_action_sets[page][bank]` exists and is `sets`. -/
def ButtonSets (s : State) (page bank : String) (sets : JsObject (List Action)) : Prop :=
  ∃ banks, s.bank_action_sets.get page = some banks ∧ banks.get bank = some sets

/-! ## Timer firings and reachable states -/

/-- The timers that fire, in order, when the host fires the given handles one
after the other (a handle without a queued timer fires nothing). -/
def firedTimers : State → List Nat → List Timer
  | _, [] => []
  | s, timer :: rest =>
    (match s.pending.find? (fun t => t.timer = timer) with
      | none => []
      | some t => [t]) ++ firedTimers (fireTimer s timer) rest

/-- Well-formedness of the timer bookkeeping: `timers_running` is a map (its
handles are distinct), every queued timer is tracked in it under its group id,
every tracked handle has been handed out by `setTimeout`, and
`actions_running` is a set (its keys are distinct). -/
def WellFormed (s : State) : Prop :=
  (s.timers_running.map (fun e => e.1)).Nodup ∧
    (∀ t ∈ s.pending, (t.timer, t.groupId) ∈ s.timers_running) ∧
    (∀ e ∈ s.timers_running, e.1 < s.next_timer) ∧
    s.actions_running.Nodup

instance instDecidableWellFormed (s : State) : Decidable (WellFormed s) := by
  unfold WellFormed
  infer_instance

/-- The states the engine can be in: it starts with no timer and no marker,
and then runs action sets, sees timers fire, aborts and handles presses, each
to completion. -/
inductive Reachable : State → Prop where
  | start (s : State) (htimers : s.timers_running = []) (hpending : s.pending = [])
      (hrunning : s.actions_running = []) : Reachable s
  | run (s : State) (actions : List Action) (groupId : String) (relative_delay : Bool)
      (run_source : Option RunSource) (h : Reachable s) :
      Reachable (runMultipleActions s actions groupId relative_delay run_source)
  | fire (s : State) (timer : Nat) (h : Reachable s) : Reachable (fireTimer s timer)
  | abortOne (s : State) (page bank : String) (skip_up : Bool) (h : Reachable s) :
      Reachable (abortBank s page bank skip_up)
  | abortEvery (s : State) (h : Reachable s) : Reachable (abortAll s)
  | press (s s' : State) (page bank : String) (direction : Bool) (deviceid : Option String)
      (h : Reachable s) (hpress : pressBank s page bank direction deviceid = some s') :
      Reachable s'

/-- The bookkeeping invariant of the scheduler: a group key is marked in
`actions_running` exactly when some entry of `timers_running` is registered
under it. -/
def MarkersTracked (s : State) : Prop :=
  ∀ g : String, g ∈ s.actions_running ↔ ∃ e ∈ s.timers_running, e.2 = g

/-! ## Example data -/

/-- Action `A` of the example of the specification: declared delay 100. -/
def exA : Action := { id := "A", instanceId := "m", action := "go", delay := JsValue.num 100 }

/-- Action `B` of the example of the specification: declared delay 50. -/
def exB : Action := { id := "B", instanceId := "m", action := "go", delay := JsValue.num 50 }

/-- An action whose declared delay is the non-numeric string `"abc"`. -/
def exBad : Action := { id := "X", instanceId := "m", action := "go", delay := JsValue.str "abc" }

/-- An action without a `delay` property. -/
def exUndef : Action := { id := "U", instanceId := "m", action := "go", delay := JsValue.undefined }

/-- An action with declared delay 0 and the given id. -/
def exInline (id : String) : Action :=
  { id := id, instanceId := "m", action := "go", delay := JsValue.num 0 }

/-- The `run_source` of a press of button 2 on page 1. -/
def exSource : RunSource := { deviceid := none, page := "1", bank := "2" }

/-- Two delayed runs in flight: A:100 and B:50 for button `1_2`, A:100 for
button `1_3`. -/
def exRunning : State :=
  runMultipleActions
    (runMultipleActions { children := ["m"] } [exA, exB] "1_2" false (some exSource))
    [exA] "1_3" false (some { deviceid := none, page := "1", bank := "3" })

/-- The timer of A:100 in `exRunning`. -/
def exTimerA : Timer :=
  { timer := 0, action := exA, delay_time := JsNumber.int 100, groupId := "1_2",
    run_source := some exSource }

/-- The timer of B:50 in `exRunning`. -/
def exTimerB : Timer :=
  { timer := 1, action := exB, delay_time := JsNumber.int 50, groupId := "1_2",
    run_source := some exSource }

/-- A released press-style button 2 on page 1 whose "down" set holds one
immediate action and whose "up" set holds another. -/
def exPressButton : State :=
  { bank_action_sets := [("1", [("2", [("down", [exInline "d"]), ("up", [exInline "u"])])])],
    config := [("1", [("2", { style := some "press" })])],
    children := ["m"] }

/-- A step-style button 2 on page 1 with auto-progress and the eleven sets
`"0"` to `"10"` (ten appends after setup), set `i` holding one immediate action
with id `a<i>`; the cursor is at `"0"`. -/
def exElevenSteps : State :=
  { bank_action_sets :=
      [("1", [("2", [("0", [exInline "a0"]), ("1", [exInline "a1"]), ("2", [exInline "a2"]),
        ("3", [exInline "a3"]), ("4", [exInline "a4"]), ("5", [exInline "a5"]),
        ("6", [exInline "a6"]), ("7", [exInline "a7"]), ("8", [exInline "a8"]),
        ("9", [exInline "a9"]), ("10", [exInline "a10"])])])],
    bank_cycle_step := [("1", [("2", some "0")])],
    config := [("1", [("2", { style := some "step", step_auto_progress := true })])],
    children := ["m"] }

/-- A step-style button 2 on page 1 with auto-progress whose sets are `"1"` and
`"2"` (set `"0"` was removed) and whose cursor still holds `"0"`, as after a
restart. -/
def exStaleCursor : State :=
  { bank_action_sets := [("1", [("2", [("1", [exInline "a1"]), ("2", [exInline "a2"])])])],
    bank_cycle_step := [("1", [("2", some "0")])],
    config := [("1", [("2", { style := some "step", step_auto_progress := true })])],
    children := ["m"] }

/-- The example press-style button with A:100 in its "down" set, released. -/
def exDelayedButton : State :=
  { bank_action_sets := [("1", [("2", [("down", [exA]), ("up", [])])])],
    config := [("1", [("2", { style := some "press" })])],
    children := ["m"] }

/-- The button `exDelayedButton` after a press: the timer of A:100 is queued
for group `1_2`. -/
def exDelayedPressed : State :=
  pressAndRun exDelayedButton "1" "2" true none [exA]

/-- A press-style button 2 on page 1 whose "down" set holds an action of module
`m1` (ok) and whose "up" set holds actions of `m2` (warning) and of `m3` (no
known status). -/
def exStatusButton : State :=
  { bank_action_sets :=
      [("1", [("2", [("down", [{ exInline "d" with instanceId := "m1" }]),
        ("up", [{ exInline "u" with instanceId := "m2" },
          { exInline "v" with instanceId := "m3" }])])])],
    config := [("1", [("2", { style := some "press" })])],
    instance_status := [("m1", 0), ("m2", 1)] }

/-- Two buttons with actions of the modules `m1` and `m2`: button (1, 2) with
a "down" set m1, m2, m1 and an "up" set m1; button (3, 4) with a step set m2,
m1. -/
def exTwoModules : State :=
  { bank_action_sets :=
      [("1", [("2", [("down", [{ exInline "a" with instanceId := "m1" },
          { exInline "b" with instanceId := "m2" }, { exInline "c" with instanceId := "m1" }]),
        ("up", [{ exInline "d" with instanceId := "m1" }])])]),
       ("3", [("4", [("0", [{ exInline "e" with instanceId := "m2" },
          { exInline "f" with instanceId := "m1" }])])])],
    instance_status := [("m1", 2), ("m2", 0)] }

/-- A step-style button 2 on page 1 as `setupBank` leaves it: the one set `"0"`,
the cursor at `"0"`. -/
def exOneStep : State :=
  { bank_action_sets := [("1", [("2", [("0", [])])])],
    bank_cycle_step := [("1", [("2", some "0")])],
    config := [("1", [("2", { style := some "step", step_auto_progress := true })])] }

/-- A step-style button 2 on page 1 with the sets `"0"`, `"1"`, `"2"` and the
cursor at `"1"`. -/
def exThreeSteps : State :=
  { bank_action_sets :=
      [("1", [("2", [("0", [exInline "a0"]), ("1", [exInline "a1"]), ("2", [exInline "a2"])])])],
    bank_cycle_step := [("1", [("2", some "1")])],
    config := [("1", [("2", { style := some "step", step_auto_progress := true })])] }

/-- Three page-navigation buttons on page 1: button 1 pages up, button 2 goes
to the first page, button 3 pages down; button 1 also holds action sets. -/
def exPageButtons : State :=
  { bank_action_sets := [("1", [("1", [("down", [exInline "d"]), ("up", [exInline "u"])])])],
    config := [("1", [("1", { style := some "pageup" }), ("2", { style := some "pagenum" }),
      ("3", { style := some "pagedown" })])],
    children := ["m"] }

/-- A press button whose `down` set holds the actions `a`, `b`, `c`. -/
def exThreeActions : State :=
  { bank_action_sets :=
      [("1", [("2", [("down", [exInline "a", exInline "b", exInline "c"]), ("up", [])])])],
    config := [("1", [("2", { style := some "press" })])],
    children := ["m"] }

/-- The action the handler of `bank_action_add` builds for the id `n1` and the
action `m:go`. -/
def exAdded : Action :=
  { id := "n1", instanceId := "m", action := "go", delay := JsValue.undefined }

/-- The one-step example button after `setupBank` for the style `step`. -/
def exAfterSetup : State :=
  (setupBank exOneStep "1" "2" (some "step")).getD exOneStep

/-- The button of `exAfterSetup` after a set has been appended. -/
def exAfterAppend : State :=
  (bank_set_append exAfterSetup "1" "2").getD exAfterSetup

/-! ## Lemmas on dictionaries -/

theorem JsObject.get_set_self {α : Type} (o : JsObject α) (k : String) (v : α) :
    JsObject.get (JsObject.set o k v) k = some v := by
  induction o with
  | nil => simp [JsObject.set, JsObject.get]
  | cons e rest ih =>
    obtain ⟨k', v'⟩ := e
    by_cases h : k' = k
    · simp [JsObject.set, JsObject.get, h]
    · simp [JsObject.set, JsObject.get, h, ih]

theorem JsObject.get_set_other {α : Type} (o : JsObject α) (k k' : String) (v : α)
    (h : k ≠ k') : JsObject.get (JsObject.set o k v) k' = JsObject.get o k' := by
  induction o with
  | nil => simp [JsObject.set, JsObject.get, h]
  | cons e rest ih =>
    obtain ⟨k₀, v₀⟩ := e
    by_cases h₀ : k₀ = k
    · subst h₀
      simp [JsObject.set, JsObject.get, h]
    · by_cases h₁ : k₀ = k'
      · subst h₁
        simp [JsObject.set, JsObject.get, h₀]
      · simp [JsObject.set, JsObject.get, h₀, h₁, ih]

/-! ## Lemmas on the first loop of `runMultipleActions` -/

theorem this_delay_num (a : Action) (d : Int) (h : a.delay = JsValue.num d) :
    this_delay a = JsNumber.int d := by
  simp [this_delay, h, parseInt]

theorem this_delay_missing (a : Action)
    (h : a.delay = JsValue.undefined ∨ a.delay = JsValue.str "") :
    this_delay a = JsNumber.int 0 := by
  simp [this_delay, h, parseInt]

/-- Actions whose ids are not written by the rest of the loop keep their entry. -/
theorem effectiveDelaysLoop_get_of_not_mem (relative_delay : Bool) (actions : List Action)
    (acc : JsNumber) (table : JsObject JsNumber) (k : String)
    (hk : k ∉ actions.map (fun a => a.id)) :
    JsObject.get (effectiveDelaysLoop relative_delay actions acc table) k =
      JsObject.get table k := by
  induction actions generalizing acc table with
  | nil => rfl
  | cons a rest ih =>
    simp only [List.map_cons, List.mem_cons, not_or] at hk
    simp only [effectiveDelaysLoop]
    rw [ih _ _ hk.2]
    exact JsObject.get_set_other _ _ _ _ (fun h => hk.1 h.symm)

/-- The loop reads an action only through its id and its `this_delay`. -/
theorem effectiveDelaysLoop_congr (relative_delay : Bool) (xs ys : List Action)
    (acc : JsNumber) (table : JsObject JsNumber)
    (h : xs.map (fun a => (a.id, this_delay a)) = ys.map (fun a => (a.id, this_delay a))) :
    effectiveDelaysLoop relative_delay xs acc table =
      effectiveDelaysLoop relative_delay ys acc table := by
  induction xs generalizing ys acc table with
  | nil =>
    cases ys with
    | nil => rfl
    | cons y ys => simp at h
  | cons x xs ih =>
    cases ys with
    | nil => simp at h
    | cons y ys =>
      simp only [List.map_cons, List.cons.injEq, Prod.mk.injEq] at h
      obtain ⟨⟨hid, hdel⟩, hrest⟩ := h
      simp only [effectiveDelaysLoop, hid, hdel]
      exact ih ys _ _ hrest

/-- Relative mode on integer delays: the entry of the action at position `n`
is the running sum up to and including it. -/
theorem effectiveDelaysLoop_relative (actions : List Action) (delays : List Nat)
    (acc : Int) (table : JsObject JsNumber)
    (hids : (actions.map (fun a => a.id)).Nodup)
    (hdelays : actions.map (fun a => a.delay) = delays.map (fun (d : Nat) => JsValue.num (d : Int)))
    (n : Nat) (a : Action) (hn : actions[n]? = some a) :
    JsObject.get (effectiveDelaysLoop true actions (JsNumber.int acc) table) a.id =
      some (JsNumber.int (acc + ((delays.take (n + 1)).sum : Nat))) := by
  induction actions generalizing delays acc table n with
  | nil => simp at hn
  | cons x rest ih =>
    cases delays with
    | nil => simp at hdelays
    | cons d ds =>
      simp only [List.map_cons, List.cons.injEq] at hdelays
      simp only [List.map_cons, List.nodup_cons] at hids
      have hx : this_delay x = JsNumber.int d := this_delay_num x d hdelays.1
      simp only [effectiveDelaysLoop, hx, JsNumber.add, if_true]
      cases n with
      | zero =>
        simp only [List.getElem?_cons_zero, Option.some.injEq] at hn
        subst hn
        rw [effectiveDelaysLoop_get_of_not_mem _ _ _ _ _ hids.1, JsObject.get_set_self]
        simp
      | succ m =>
        simp only [List.getElem?_cons_succ] at hn
        rw [ih ds (acc + d) _ hids.2 hdelays.2 m hn]
        simp only [List.take_succ_cons, List.sum_cons, Nat.cast_add]
        congr 2
        ring

/-- Absolute mode: the entry of an action is its own `this_delay`. -/
theorem effectiveDelaysLoop_absolute (actions : List Action) (acc : JsNumber)
    (table : JsObject JsNumber) (hids : (actions.map (fun a => a.id)).Nodup)
    (a : Action) (ha : a ∈ actions) :
    JsObject.get (effectiveDelaysLoop false actions acc table) a.id = some (this_delay a) := by
  induction actions generalizing acc table with
  | nil => simp at ha
  | cons x rest ih =>
    simp only [List.map_cons, List.nodup_cons] at hids
    simp only [effectiveDelaysLoop, Bool.false_eq_true, if_false]
    rcases List.mem_cons.mp ha with h | h
    · subst h
      rw [effectiveDelaysLoop_get_of_not_mem _ _ _ _ _ hids.1, JsObject.get_set_self]
    · exact ih _ _ hids.2 h

/-! ## Lemmas on the second loop of `runMultipleActions` -/

theorem runAction_eq_emit (s : State) (action : Action) (extras : Option RunSource) :
    runAction s action extras = s.emit (runActionEvent s action extras) := by
  unfold runAction runActionEvent
  split <;> rfl

/-- What the second loop does to the trace, the timer queue and `has_delayed`,
and what it leaves alone. -/
theorem runActionsLoop_spec (table : JsObject JsNumber) (groupId : String)
    (run_source : Option RunSource) (actions : List Action) (s : State) (has_delayed : Bool) :
    (runActionsLoop table groupId run_source actions s has_delayed).1.events =
        s.events ++ (actions.filter (fun a => !(delayOf table a).gtZero)).map
          (fun a => runActionEvent s a run_source) ∧
      (runActionsLoop table groupId run_source actions s has_delayed).1.pending =
        s.pending ++ scheduledTimers table groupId run_source actions s.next_timer ∧
      (runActionsLoop table groupId run_source actions s has_delayed).2 =
        (has_delayed || actions.any (fun a => (delayOf table a).gtZero)) ∧
      (runActionsLoop table groupId run_source actions s has_delayed).1.children = s.children ∧
      (runActionsLoop table groupId run_source actions s has_delayed).1.actions_running =
        s.actions_running ∧
      (runActionsLoop table groupId run_source actions s has_delayed).1.pushed = s.pushed ∧
      (runActionsLoop table groupId run_source actions s has_delayed).1.config = s.config ∧
      (runActionsLoop table groupId run_source actions s has_delayed).1.bank_action_sets =
        s.bank_action_sets ∧
      (runActionsLoop table groupId run_source actions s has_delayed).1.bank_cycle_step =
        s.bank_cycle_step := by
  induction actions generalizing s has_delayed with
  | nil => simp [runActionsLoop, scheduledTimers]
  | cons a rest ih =>
    by_cases hpos : (delayOf table a).gtZero = true
    · simp only [runActionsLoop, hpos, if_true]
      obtain ⟨h1, h2, h3, h4, h5, h6, h7, h8, h9⟩ := ih
        { (setTimeout s a (delayOf table a) groupId run_source).1 with
          timers_running :=
            mapSet (setTimeout s a (delayOf table a) groupId run_source).1.timers_running
              (setTimeout s a (delayOf table a) groupId run_source).2 groupId } true
      refine ⟨?_, ?_, ?_, ?_, ?_, ?_, ?_, ?_, ?_⟩
      · rw [h1]
        simp [setTimeout, List.filter_cons, hpos, runActionEvent]
      · rw [h2]
        simp [setTimeout, scheduledTimers, hpos]
      · rw [h3]
        simp [hpos]
      · rw [h4]; rfl
      · rw [h5]; rfl
      · rw [h6]; rfl
      · rw [h7]; rfl
      · rw [h8]; rfl
      · rw [h9]; rfl
    · simp only [runActionsLoop, hpos, Bool.false_eq_true, if_false]
      obtain ⟨h1, h2, h3, h4, h5, h6, h7, h8, h9⟩ := ih (runAction s a run_source) has_delayed
      have hch : (runAction s a run_source).children = s.children := by
        rw [runAction_eq_emit]; rfl
      refine ⟨?_, ?_, ?_, ?_, ?_, ?_, ?_, ?_, ?_⟩
      · rw [h1]
        simp only [runActionEvent, hch]
        rw [runAction_eq_emit]
        simp [State.emit, List.filter_cons, hpos, runActionEvent]
      · rw [h2, runAction_eq_emit]
        simp [State.emit, scheduledTimers, hpos]
      · rw [h3]
        simp [hpos]
      · rw [h4, hch]
      · rw [h5, runAction_eq_emit]; rfl
      · rw [h6, runAction_eq_emit]; rfl
      · rw [h7, runAction_eq_emit]; rfl
      · rw [h8, runAction_eq_emit]; rfl
      · rw [h9, runAction_eq_emit]; rfl

/-- Every action with a positive `delay` gets a queued timer carrying it. -/
theorem scheduledTimers_mem (table : JsObject JsNumber) (groupId : String)
    (run_source : Option RunSource) (actions : List Action) (next : Nat) (a : Action)
    (ha : a ∈ actions) (hpos : (delayOf table a).gtZero = true) :
    ∃ t ∈ scheduledTimers table groupId run_source actions next,
      t.action = a ∧ t.delay_time = delayOf table a ∧ t.groupId = groupId := by
  induction actions generalizing next with
  | nil => simp at ha
  | cons x rest ih =>
    rcases List.mem_cons.mp ha with h | h
    · subst h
      exact ⟨{ timer := next, action := a, delay_time := delayOf table a, groupId := groupId,
               run_source := run_source }, by simp [scheduledTimers, hpos], rfl, rfl, rfl⟩
    · by_cases hx : (delayOf table x).gtZero = true
      · obtain ⟨t, ht, h1⟩ := ih (next + 1) h
        exact ⟨t, by simp [scheduledTimers, hx, ht], h1⟩
      · obtain ⟨t, ht, h1⟩ := ih next h
        exact ⟨t, by simp [scheduledTimers, hx, ht], h1⟩

/-- The timer queue after `runMultipleActions`. -/
theorem runMultipleActions_pending (s : State) (actions : List Action) (groupId : String)
    (relative_delay : Bool) (run_source : Option RunSource) :
    (runMultipleActions s actions groupId relative_delay run_source).pending =
      s.pending ++ scheduledTimers (effective_delays actions relative_delay) groupId run_source
        actions s.next_timer := by
  have h := (runActionsLoop_spec (effective_delays actions relative_delay) groupId run_source
    actions s false).2.1
  unfold runMultipleActions
  simp only
  split
  · cases run_source <;> simpa [State.emit] using h
  · exact h

/-- The trace after `runMultipleActions`. -/
theorem runMultipleActions_events (s : State) (actions : List Action) (groupId : String)
    (relative_delay : Bool) (run_source : Option RunSource) :
    (runMultipleActions s actions groupId relative_delay run_source).events =
      s.events ++
        (actions.filter
          (fun a => !(delayOf (effective_delays actions relative_delay) a).gtZero)).map
          (fun a => runActionEvent s a run_source) ++
        (if actions.any (fun a => (delayOf (effective_delays actions relative_delay) a).gtZero)
          then runSourceRedraw run_source else []) := by
  have h := runActionsLoop_spec (effective_delays actions relative_delay) groupId run_source
    actions s false
  obtain ⟨h1, -, h3, -⟩ := h
  simp only [Bool.false_or] at h3
  unfold runMultipleActions
  simp only [h3]
  split
  · cases run_source <;> simp [State.emit, h1, runSourceRedraw]
  · simp [h1]

/-- A non-numeric delay poisons the running value: the action's own entry is
`NaN` unless a later action with the same id overwrites it. -/
theorem effectiveDelaysLoop_nan_self (relative_delay : Bool) (pre post : List Action)
    (a : Action) (acc : JsNumber) (table : JsObject JsNumber)
    (hnan : this_delay a = JsNumber.nan) (hlast : a.id ∉ post.map (fun b => b.id)) :
    JsObject.get (effectiveDelaysLoop relative_delay (pre ++ a :: post) acc table) a.id =
      some JsNumber.nan := by
  induction pre generalizing acc table with
  | nil =>
    simp only [List.nil_append, effectiveDelaysLoop, hnan]
    rw [effectiveDelaysLoop_get_of_not_mem _ _ _ _ _ hlast, JsObject.get_set_self]
    cases relative_delay <;> cases acc <;> simp [JsNumber.add]
  | cons x rest ih =>
    simp only [List.cons_append, effectiveDelaysLoop]
    exact ih _ _

/-- In relative mode a running value of `NaN` stays `NaN`. -/
theorem effectiveDelaysLoop_relative_nan (actions : List Action) (table : JsObject JsNumber)
    (k : String) (hk : k ∈ actions.map (fun b => b.id)) :
    JsObject.get (effectiveDelaysLoop true actions JsNumber.nan table) k =
      some JsNumber.nan := by
  induction actions generalizing table with
  | nil => simp at hk
  | cons x rest ih =>
    simp only [effectiveDelaysLoop, if_true, JsNumber.add]
    by_cases hrest : k ∈ rest.map (fun b => b.id)
    · exact ih _ hrest
    · simp only [List.map_cons, List.mem_cons] at hk
      rcases hk with h | h
      · subst h
        rw [effectiveDelaysLoop_get_of_not_mem _ _ _ _ _ hrest, JsObject.get_set_self]
      · exact absurd h hrest

/-- In relative mode a non-numeric delay makes the entry of every later action
`NaN`. -/
theorem effectiveDelaysLoop_nan_later (pre post : List Action) (a : Action) (acc : JsNumber)
    (table : JsObject JsNumber) (hnan : this_delay a = JsNumber.nan) (k : String)
    (hk : k ∈ post.map (fun b => b.id)) :
    JsObject.get (effectiveDelaysLoop true (pre ++ a :: post) acc table) k =
      some JsNumber.nan := by
  induction pre generalizing acc table with
  | nil =>
    simp only [List.nil_append, effectiveDelaysLoop, hnan, if_true]
    have hadd : acc.add JsNumber.nan = JsNumber.nan := by cases acc <;> rfl
    rw [hadd]
    exact effectiveDelaysLoop_relative_nan _ _ _ hk
  | cons x rest ih =>
    simp only [List.cons_append, effectiveDelaysLoop]
    exact ih _ _

/-! ## The delay scheduler: effective delays and inline dispatch -/

/-- C1: in relative-delay mode, for an action list with pairwise distinct ids
and integer declared delays `>= 0` whose sum over the positions `0..n` stays
below `2^53` (where the sums of doubles are exact), the `delay` that
`runMultipleActions` uses for the action at position `n` is the sum of the
declared delays of the actions at positions `0..n`, a number that doubles hold
exactly; when that sum is positive, the timer queued for the action carries
exactly this delay. -/
theorem runMultipleActions_relative_delay (actions : List Action) (delays : List Nat)
    (hids : (actions.map (fun a => a.id)).Nodup)
    (hdelays :
      actions.map (fun a => a.delay) = delays.map (fun (d : Nat) => JsValue.num (d : Int)))
    (n : Nat) (a : Action) (hn : actions[n]? = some a)
    (hsafe : (delays.take (n + 1)).sum < 2 ^ 53) :
    delayOf (effective_delays actions true) a =
        JsNumber.int (Int.ofNat (delays.take (n + 1)).sum) ∧
      (delayOf (effective_delays actions true) a).isSafe = true ∧
      ∀ (s : State) (groupId : String) (run_source : Option RunSource),
        0 < (delays.take (n + 1)).sum →
        ∃ t ∈ (runMultipleActions s actions groupId true run_source).pending,
          t.action = a ∧ t.delay_time = JsNumber.int (Int.ofNat (delays.take (n + 1)).sum) ∧
            t.groupId = groupId := by
  have hget := effectiveDelaysLoop_relative actions delays 0 [] hids hdelays n a hn
  have hdelay : delayOf (effective_delays actions true) a =
      JsNumber.int (Int.ofNat (delays.take (n + 1)).sum) := by
    unfold delayOf effective_delays
    rw [hget]
    simp
  refine ⟨hdelay, ?_, ?_⟩
  · rw [hdelay]
    simp only [JsNumber.isSafe, Int.ofNat_eq_coe, Int.natAbs_ofNat, decide_eq_true_eq]
    exact hsafe
  intro s groupId run_source hpos
  have hmem : a ∈ actions := List.getElem?_mem hn
  have hgt : (delayOf (effective_delays actions true) a).gtZero = true := by
    rw [hdelay]
    simp only [JsNumber.gtZero, decide_eq_true_eq]
    exact Int.ofNat_lt.mpr hpos
  obtain ⟨t, ht, h1, h2, h3⟩ :=
    scheduledTimers_mem (effective_delays actions true) groupId run_source actions
      s.next_timer a hmem hgt
  refine ⟨t, ?_, h1, ?_, h3⟩
  · rw [runMultipleActions_pending]
    exact List.mem_append_right _ ht
  · rw [h2, hdelay]

/-- Witness of C1 on the example of the specification: A:100, B:50 gives B an
effective delay of 150. -/
theorem runMultipleActions_relative_delay_witness :
    delayOf (effective_delays [exA, exB] true) exB = JsNumber.int 150 ∧
      ∃ t ∈ (runMultipleActions {} [exA, exB] "1_2" true none).pending,
        t.action = exB ∧ t.delay_time = JsNumber.int 150 ∧ t.groupId = "1_2" :=
  ⟨(runMultipleActions_relative_delay [exA, exB] [100, 50] (by decide) (by decide) 1 exB
      (by decide) (by decide)).1,
    (runMultipleActions_relative_delay [exA, exB] [100, 50] (by decide) (by decide) 1 exB
      (by decide) (by decide)).2.2 {} "1_2" none (by decide)⟩

/-- C2: in absolute-delay mode, for an action list with pairwise distinct ids
and an action whose declared delay, as read by `parseInt`, is `NaN` or an
integer of magnitude below `2^53` (where that reading is the one of the
code), the `delay` that `runMultipleActions` uses for the action is its own
declared delay as read by `parseInt` (the integer itself for an integer
delay, which is then of magnitude below `2^53`), and it is the same in every
other such list that holds the action. -/
theorem runMultipleActions_absolute_delay (actions : List Action)
    (hids : (actions.map (fun a => a.id)).Nodup) (a : Action) (ha : a ∈ actions)
    (hsafe : (this_delay a).isSafe = true) :
    delayOf (effective_delays actions false) a = this_delay a ∧
      (∀ d : Int, a.delay = JsValue.num d →
        delayOf (effective_delays actions false) a = JsNumber.int d ∧ d.natAbs < 2 ^ 53) ∧
      (∀ others : List Action, (others.map (fun b => b.id)).Nodup → a ∈ others →
        delayOf (effective_delays others false) a =
          delayOf (effective_delays actions false) a) := by
  have key : ∀ l : List Action, (l.map (fun b => b.id)).Nodup → a ∈ l →
      delayOf (effective_delays l false) a = this_delay a := by
    intro l hl hal
    unfold delayOf effective_delays
    rw [effectiveDelaysLoop_absolute l _ _ hl a hal]
  refine ⟨key actions hids ha, ?_, ?_⟩
  · intro d hd
    rw [this_delay_num a d hd] at hsafe
    refine ⟨by rw [key actions hids ha, this_delay_num a d hd], ?_⟩
    simpa [JsNumber.isSafe] using hsafe
  · intro others ho hao
    rw [key actions hids ha, key others ho hao]

/-- Witness of C2 on the example of the specification: A:100, B:50 gives B an
effective delay of 50, also when B comes first. -/
theorem runMultipleActions_absolute_delay_witness :
    delayOf (effective_delays [exA, exB] false) exB = JsNumber.int 50 ∧
      delayOf (effective_delays [exB, exA] false) exB =
        delayOf (effective_delays [exA, exB] false) exB :=
  ⟨((runMultipleActions_absolute_delay [exA, exB] (by decide) exB (by decide)
      (by decide)).2.1 50 rfl).1,
    (runMultipleActions_absolute_delay [exA, exB] (by decide) exB (by decide) (by decide)).2.2
      [exB, exA] (by decide) (by decide)⟩

/-- C3 fails as stated: with A:100, X:"abc", B:50 in relative-delay mode the
non-numeric delay of X is read as `NaN`, and B gets the effective delay `NaN`,
whereas with X:0 it gets 150. -/
theorem nonnumeric_delay_counterexample :
    this_delay exBad = JsNumber.nan ∧
      delayOf (effective_delays [exA, exBad, exB] true) exB = JsNumber.nan ∧
      delayOf (effective_delays [exA, { exBad with delay := JsValue.num 0 }, exB] true) exB =
        JsNumber.int 150 ∧
      delayOf (effective_delays [exA, exBad, exB] true) exB ≠
        delayOf (effective_delays [exA, { exBad with delay := JsValue.num 0 }, exB] true) exB := by
  decide

/-- C3 as amended: in both delay modes a declared delay that is undefined or
the empty string is treated as 0 (the whole table of effective delays is the
one obtained with 0 in its place).  A declared delay that `parseInt` cannot read
gives `NaN` instead: the action's own effective delay is `NaN` in both modes
when no later action shares its id, and in relative-delay mode the effective
delay of every later action is `NaN` as well; `NaN` is not positive. -/
theorem declared_delay_missing_or_unreadable (pre post : List Action) (a : Action)
    (relative_delay : Bool) :
    ((a.delay = JsValue.undefined ∨ a.delay = JsValue.str "") →
        effective_delays (pre ++ a :: post) relative_delay =
          effective_delays (pre ++ { a with delay := JsValue.num 0 } :: post) relative_delay) ∧
      (this_delay a = JsNumber.nan → a.id ∉ post.map (fun b => b.id) →
        delayOf (effective_delays (pre ++ a :: post) relative_delay) a = JsNumber.nan) ∧
      (this_delay a = JsNumber.nan → relative_delay = true → ∀ b ∈ post,
        delayOf (effective_delays (pre ++ a :: post) relative_delay) b = JsNumber.nan) ∧
      JsNumber.nan.gtZero = false := by
  refine ⟨?_, ?_, ?_, rfl⟩
  · intro h
    unfold effective_delays
    apply effectiveDelaysLoop_congr
    have h0 : this_delay { a with delay := JsValue.num 0 } = JsNumber.int 0 :=
      this_delay_num _ 0 rfl
    simp [this_delay_missing a h, h0]
  · intro hnan hlast
    unfold delayOf effective_delays
    rw [effectiveDelaysLoop_nan_self relative_delay pre post a _ _ hnan hlast]
  · intro hnan hrel b hb
    subst hrel
    unfold delayOf effective_delays
    rw [effectiveDelaysLoop_nan_later pre post a _ _ hnan b.id (List.mem_map_of_mem _ hb)]

/-- Witness of the amended C3: an action without a delay behind A:100, and the
non-numeric delay `"abc"` between A:100 and B:50. -/
theorem declared_delay_missing_or_unreadable_witness :
    effective_delays ([exA] ++ exUndef :: [exB]) true =
        effective_delays ([exA] ++ { exUndef with delay := JsValue.num 0 } :: [exB]) true ∧
      delayOf (effective_delays ([exA] ++ exBad :: [exB]) false) exBad = JsNumber.nan ∧
      (∀ b ∈ [exB], delayOf (effective_delays ([exA] ++ exBad :: [exB]) true) b =
        JsNumber.nan) :=
  ⟨(declared_delay_missing_or_unreadable [exA] [exB] exUndef true).1 (Or.inl rfl),
    (declared_delay_missing_or_unreadable [exA] [exB] exBad false).2.1 (by decide) (by decide),
    (declared_delay_missing_or_unreadable [exA] [exB] exBad true).2.2.1 (by decide) rfl⟩

/-- C10: during a call of `runMultipleActions` exactly the actions whose
effective delay is not positive are dispatched (`runAction`), in list order;
the only other call the run makes is the closing redraw.  No action with a
positive effective delay is dispatched during the call. -/
theorem runMultipleActions_inline_dispatch (s : State) (actions : List Action)
    (groupId : String) (relative_delay : Bool) (run_source : Option RunSource) :
    (runMultipleActions s actions groupId relative_delay run_source).events =
        s.events ++
          (actions.filter
            (fun a => !(delayOf (effective_delays actions relative_delay) a).gtZero)).map
            (fun a => runActionEvent s a run_source) ++
          (if actions.any
              (fun a => (delayOf (effective_delays actions relative_delay) a).gtZero)
            then runSourceRedraw run_source else []) ∧
      ∀ a : Action, (delayOf (effective_delays actions relative_delay) a).gtZero = true →
        ∀ e ∈ (actions.filter
            (fun a => !(delayOf (effective_delays actions relative_delay) a).gtZero)).map
            (fun a => runActionEvent s a run_source) ++
          (if actions.any
              (fun a => (delayOf (effective_delays actions relative_delay) a).gtZero)
            then runSourceRedraw run_source else []),
          e ≠ runActionEvent s a run_source := by
  refine ⟨runMultipleActions_events s actions groupId relative_delay run_source, ?_⟩
  intro a hpos e he heq
  subst heq
  rcases List.mem_append.mp he with h | h
  · obtain ⟨b, hb, hbe⟩ := List.mem_map.mp h
    have hba : b = a := by
      unfold runActionEvent at hbe
      split at hbe <;> split at hbe <;> simp_all
    subst hba
    simp [List.mem_filter, hpos] at hb
  · split at h
    · cases run_source with
      | none => simp [runSourceRedraw] at h
      | some src =>
        simp only [runSourceRedraw, List.mem_singleton] at h
        unfold runActionEvent at h
        split at h <;> simp at h
    · simp at h

/-! ## Cancellation -/

/-- The handles `abortBank` clears while visiting the given map entries. -/
theorem abortBankVisit_foldl (bid : String) (entries : List (Nat × String)) (s : State) :
    entries.foldl (abortBankVisit bid) s =
      { s with
        timers_running := s.timers_running.filter
          (fun e => decide (e.1 ∉ (entries.filter (fun x => x.2 = bid)).map (fun x => x.1))),
        pending := s.pending.filter
          (fun t => decide (t.timer ∉ (entries.filter (fun x => x.2 = bid)).map (fun x => x.1))) } := by
  induction entries generalizing s with
  | nil => simp
  | cons x xs ih =>
    rw [List.foldl_cons, ih]
    by_cases hx : x.2 = bid
    · simp only [abortBankVisit, hx, if_true, clearTimeout, mapDelete, List.filter_filter,
        List.filter_cons, decide_True, List.map_cons, List.mem_cons, not_or]
      congr 1
      · apply List.filter_congr
        intro e _
        by_cases h1 : e.1 = x.1 <;> simp [h1]
      · apply List.filter_congr
        intro t _
        by_cases h1 : t.timer = x.1 <;> simp [h1]
    · simp [abortBankVisit, hx, List.filter_cons]

/-- In a map (distinct keys) the handles cleared by `abortBank` are those of
the entries of the group. -/
theorem mem_cleared_iff (bid : String) (m : List (Nat × String))
    (hmap : (m.map (fun e => e.1)).Nodup) (k : Nat) (g : String) (hmem : (k, g) ∈ m) :
    k ∈ (m.filter (fun x => x.2 = bid)).map (fun x => x.1) ↔ g = bid := by
  constructor
  · intro h
    obtain ⟨e, he, hk⟩ := List.mem_map.mp h
    have hem : e ∈ m := List.mem_of_mem_filter he
    have hbid : e.2 = bid := by simpa using (List.mem_filter.mp he).2
    have heq : e = (k, g) := List.inj_on_of_nodup_map hmap hem hmem hk
    rw [heq] at hbid
    exact hbid
  · intro h
    subst h
    exact List.mem_map.mpr ⟨(k, g), List.mem_filter.mpr ⟨hmem, by simp⟩, rfl⟩

/-- The state after the `forEach` of `abortBank`, for a well-formed map and a
timer queue whose entries are all tracked in it. -/
theorem abortBank_forEach (bid : String) (s : State)
    (hmap : (s.timers_running.map (fun e => e.1)).Nodup)
    (htracked : ∀ t ∈ s.pending, (t.timer, t.groupId) ∈ s.timers_running) :
    s.timers_running.foldl (abortBankVisit bid) s =
      { s with
        timers_running := s.timers_running.filter (fun e => e.2 ≠ bid),
        pending := s.pending.filter (fun t => t.groupId ≠ bid) } := by
  rw [abortBankVisit_foldl]
  congr 1
  · apply List.filter_congr
    intro e he
    have h := mem_cleared_iff bid s.timers_running hmap e.1 e.2 he
    by_cases hb : e.2 = bid <;> simp_all
  · apply List.filter_congr
    intro t ht
    have h := mem_cleared_iff bid s.timers_running hmap t.timer t.groupId (htracked t ht)
    by_cases hb : t.groupId = bid <;> simp_all

theorem clearTimeout_foldl (timers : List Nat) (s : State) :
    timers.foldl clearTimeout s =
      { s with pending := s.pending.filter (fun t => decide (t.timer ∉ timers)) } := by
  induction timers generalizing s with
  | nil => simp
  | cons k ks ih =>
    rw [List.foldl_cons, ih]
    simp only [clearTimeout, List.filter_filter, List.mem_cons, not_or]
    congr 1
    apply List.filter_congr
    intro t _
    by_cases h1 : t.timer = k <;> simp [h1]

theorem emit_foldl (keys : List String) (s : State) :
    keys.foldl (fun st bid => st.emit (abortAllRedraw bid)) s =
      { s with events := s.events ++ keys.map abortAllRedraw } := by
  induction keys generalizing s with
  | nil => simp
  | cons k ks ih =>
    rw [List.foldl_cons, ih]
    simp [State.emit]

/-! ## Timer firings and well-formed states -/

theorem timerCallback_pending (s : State) (t : Timer) :
    (timerCallback s t).pending = s.pending := by
  unfold timerCallback
  simp only [runAction_eq_emit]
  split
  · cases t.run_source <;> rfl
  · rfl

theorem timerCallback_timers_running (s : State) (t : Timer) :
    (timerCallback s t).timers_running = mapDelete s.timers_running t.timer := by
  unfold timerCallback
  simp only [runAction_eq_emit]
  split
  · cases t.run_source <;> rfl
  · rfl

theorem timerCallback_next_timer (s : State) (t : Timer) :
    (timerCallback s t).next_timer = s.next_timer := by
  unfold timerCallback
  simp only [runAction_eq_emit]
  split
  · cases t.run_source <;> rfl
  · rfl

/-- Firing a timer never queues one: the queue can only lose the fired timer. -/
theorem fireTimer_pending (s : State) (timer : Nat) :
    (fireTimer s timer).pending = s.pending ∨
      (fireTimer s timer).pending = s.pending.filter (fun t => t.timer ≠ timer) := by
  unfold fireTimer
  split
  · exact Or.inl rfl
  · right
    rw [timerCallback_pending]
    rfl

theorem fireTimer_pending_subset (s : State) (timer : Nat) (t : Timer)
    (ht : t ∈ (fireTimer s timer).pending) : t ∈ s.pending := by
  rcases fireTimer_pending s timer with h | h
  · rw [h] at ht
    exact ht
  · rw [h] at ht
    exact List.mem_of_mem_filter ht

/-- Only queued timers fire. -/
theorem firedTimers_subset (timers : List Nat) (s : State) (t : Timer)
    (ht : t ∈ firedTimers s timers) : t ∈ s.pending := by
  induction timers generalizing s with
  | nil => simp [firedTimers] at ht
  | cons k ks ih =>
    simp only [firedTimers, List.mem_append] at ht
    rcases ht with h | h
    · split at h
      · simp at h
      · rename_i t' hfind
        simp only [List.mem_singleton] at h
        subst h
        exact List.mem_of_find?_eq_some hfind
    · exact fireTimer_pending_subset s k t (ih _ h)

/-- With an empty queue nothing fires and the state does not change. -/
theorem fireTimer_foldl_of_pending_nil (timers : List Nat) (s : State)
    (h : s.pending = []) : timers.foldl fireTimer s = s := by
  induction timers with
  | nil => rfl
  | cons k ks ih =>
    have hk : fireTimer s k = s := by
      unfold fireTimer
      simp [h]
    rw [List.foldl_cons, hk, ih]

theorem mapSet_fresh (m : List (Nat × String)) (k : Nat) (v : String)
    (hk : k ∉ m.map (fun e => e.1)) : mapSet m k v = m ++ [(k, v)] := by
  induction m with
  | nil => rfl
  | cons e rest ih =>
    simp only [List.map_cons, List.mem_cons, not_or] at hk
    obtain ⟨k', v'⟩ := e
    have hne : ¬ k' = k := fun h => hk.1 h.symm
    simp [mapSet, hne, ih hk.2]

theorem setAdd_nodup (xs : List String) (x : String) (h : xs.Nodup) :
    (setAdd xs x).Nodup := by
  unfold setAdd
  split
  · exact h
  · rename_i hx
    exact List.Nodup.append h (by simp) (by simpa using hx)

theorem setDelete_nodup (xs : List String) (x : String) (h : xs.Nodup) :
    (setDelete xs x).Nodup :=
  h.sublist (List.filter_sublist _)

theorem timerCallback_actions_running (s : State) (t : Timer) :
    (timerCallback s t).actions_running = s.actions_running ∨
      (timerCallback s t).actions_running = setDelete s.actions_running t.groupId := by
  unfold timerCallback
  simp only [runAction_eq_emit]
  split
  · right
    cases t.run_source <;> rfl
  · exact Or.inl rfl

/-- Well-formedness only looks at the timer bookkeeping. -/
theorem WellFormed.of_same_timers (s s' : State) (h : WellFormed s)
    (h1 : s'.timers_running = s.timers_running) (h2 : s'.pending = s.pending)
    (h3 : s'.next_timer = s.next_timer) (h4 : s'.actions_running = s.actions_running) :
    WellFormed s' := by
  unfold WellFormed at *
  rw [h1, h2, h3, h4]
  exact h

theorem runActionsLoop_wellFormed (table : JsObject JsNumber) (groupId : String)
    (run_source : Option RunSource) (actions : List Action) (s : State) (has_delayed : Bool)
    (h : WellFormed s) :
    WellFormed (runActionsLoop table groupId run_source actions s has_delayed).1 := by
  induction actions generalizing s has_delayed with
  | nil => exact h
  | cons a rest ih =>
    by_cases hpos : (delayOf table a).gtZero = true
    · simp only [runActionsLoop, hpos, if_true]
      apply ih
      obtain ⟨hnodup, htracked, hbound, hset⟩ := h
      have hfresh : s.next_timer ∉ s.timers_running.map (fun e => e.1) := by
        intro hmem
        obtain ⟨e, he, hk⟩ := List.mem_map.mp hmem
        have := hbound e he
        omega
      refine ⟨?_, ?_, ?_, hset⟩
      · simp only [setTimeout, mapSet_fresh _ _ _ hfresh, List.map_append, List.map_cons,
          List.map_nil]
        exact List.Nodup.append hnodup (by simp) (by simpa using hfresh)
      · intro t ht
        simp only [setTimeout, mapSet_fresh _ _ _ hfresh, List.mem_append,
          List.mem_singleton] at ht ⊢
        rcases ht with ht | ht
        · exact Or.inl (htracked t ht)
        · subst ht
          exact Or.inr rfl
      · intro e he
        simp only [setTimeout, mapSet_fresh _ _ _ hfresh, List.mem_append,
          List.mem_singleton] at he ⊢
        rcases he with he | he
        · have := hbound e he
          omega
        · subst he
          simp
    · simp only [runActionsLoop, hpos, Bool.false_eq_true, if_false]
      apply ih
      rw [runAction_eq_emit]
      exact h

theorem runMultipleActions_wellFormed (s : State) (actions : List Action) (groupId : String)
    (relative_delay : Bool) (run_source : Option RunSource) (h : WellFormed s) :
    WellFormed (runMultipleActions s actions groupId relative_delay run_source) := by
  have hloop := runActionsLoop_wellFormed (effective_delays actions relative_delay) groupId
    run_source actions s false h
  unfold runMultipleActions
  simp only
  split
  · obtain ⟨h1, h2, h3, h4⟩ := hloop
    cases run_source <;> exact ⟨h1, h2, h3, setAdd_nodup _ _ h4⟩
  · exact hloop

theorem fireTimer_wellFormed (s : State) (timer : Nat) (h : WellFormed s) :
    WellFormed (fireTimer s timer) := by
  obtain ⟨hnodup, htracked, hbound, hset⟩ := h
  unfold fireTimer
  split
  · exact ⟨hnodup, htracked, hbound, hset⟩
  · rename_i t hfind
    have htimer : t.timer = timer := by
      simpa using List.find?_some hfind
    refine ⟨?_, ?_, ?_, ?_⟩
    · rw [timerCallback_timers_running]
      exact hnodup.sublist ((List.filter_sublist _).map _)
    · intro t' ht'
      rw [timerCallback_pending] at ht'
      rw [timerCallback_timers_running]
      simp only [clearTimeout, List.mem_filter, decide_eq_true_eq] at ht'
      simp only [clearTimeout, mapDelete, List.mem_filter, decide_eq_true_eq]
      exact ⟨htracked t' ht'.1, by rw [htimer]; exact ht'.2⟩
    · intro e he
      rw [timerCallback_timers_running] at he
      rw [timerCallback_next_timer]
      exact hbound e (List.mem_of_mem_filter he)
    · rcases timerCallback_actions_running (clearTimeout s timer) t with hr | hr
      · rw [hr]
        exact hset
      · rw [hr]
        exact setDelete_nodup _ _ hset

theorem abortBank_wellFormed (s : State) (page bank : String) (skip_up : Bool)
    (h : WellFormed s) : WellFormed (abortBank s page bank skip_up) := by
  obtain ⟨hnodup, htracked, hbound, hset⟩ := h
  have hfold := abortBank_forEach (page ++ "_" ++ bank)
    { s with actions_running := setDelete s.actions_running (page ++ "_" ++ bank) }
    hnodup htracked
  have hwf : WellFormed
      (List.foldl (abortBankVisit (page ++ "_" ++ bank))
        { s with actions_running := setDelete s.actions_running (page ++ "_" ++ bank) }
        s.timers_running) := by
    rw [hfold]
    refine ⟨?_, ?_, ?_, ?_⟩
    · exact hnodup.sublist ((List.filter_sublist _).map _)
    · intro t ht
      simp only [List.mem_filter, decide_eq_true_eq] at ht ⊢
      exact ⟨htracked t ht.1, by simpa using ht.2⟩
    · intro e he
      exact hbound e (List.mem_of_mem_filter he)
    · exact setDelete_nodup _ _ hset
  unfold abortBank
  cases skip_up
  · exact hwf
  · exact hwf

theorem abortAll_wellFormed (s : State) (h : WellFormed s) : WellFormed (abortAll s) := by
  obtain ⟨-, htracked, -, -⟩ := h
  unfold abortAll
  rw [clearTimeout_foldl, emit_foldl]
  refine ⟨by simp, ?_, by simp, by simp⟩
  intro t ht
  simp only [List.mem_filter, decide_eq_true_eq] at ht
  exact absurd (List.mem_map.mpr ⟨(t.timer, t.groupId), htracked t ht.1, rfl⟩) ht.2

theorem bank_set_step_change_timers (s s' : State) (page bank : String)
    (value : Option String) (h : bank_set_step_change s page bank value = some s') :
    s'.timers_running = s.timers_running ∧ s'.pending = s.pending ∧
      s'.next_timer = s.next_timer ∧ s'.actions_running = s.actions_running := by
  unfold bank_set_step_change at h
  split at h
  · simp at h
  · split at h
    · simp at h
    · simp only [Option.some.injEq] at h
      subst h
      exact ⟨rfl, rfl, rfl, rfl⟩

theorem pressBankStep_timers (s s' : State) (bank_config : BankConfig) (page bank : String)
    (id : Option String) (h : pressBankStep s bank_config page bank = some (s', id)) :
    s'.timers_running = s.timers_running ∧ s'.pending = s.pending ∧
      s'.next_timer = s.next_timer ∧ s'.actions_running = s.actions_running := by
  unfold pressBankStep at h
  split at h
  · simp at h
  · split at h
    · simp at h
    · split at h
      · simp at h
      · simp only at h
        split at h
        · split at h
          · split at h
            · simp at h
            · rename_i s2 hchange
              simp only [Option.some.injEq, Prod.mk.injEq] at h
              obtain ⟨h1, h2, h3, h4⟩ := bank_set_step_change_timers _ _ _ _ _ hchange
              rw [← h.1]
              exact ⟨h1, h2, h3, h4⟩
          · simp only [Option.some.injEq, Prod.mk.injEq] at h
            rw [← h.1]
            exact ⟨rfl, rfl, rfl, rfl⟩
        · simp only [Option.some.injEq, Prod.mk.injEq] at h
          rw [← h.1]
          exact ⟨rfl, rfl, rfl, rfl⟩

theorem pressBankSelect_timers (s s' : State) (bank_config : BankConfig) (page bank : String)
    (direction : Bool) (id : Option String)
    (h : pressBankSelect s bank_config page bank direction = some (s', id)) :
    s'.timers_running = s.timers_running ∧ s'.pending = s.pending ∧
      s'.next_timer = s.next_timer ∧ s'.actions_running = s.actions_running := by
  unfold pressBankSelect at h
  split at h
  · exact pressBankStep_timers _ _ _ _ _ _ h
  · split at h
    · simp only [Option.some.injEq, Prod.mk.injEq] at h
      rw [← h.1]
      exact ⟨rfl, rfl, rfl, rfl⟩
    · simp only [Option.some.injEq, Prod.mk.injEq] at h
      rw [← h.1]
      exact ⟨rfl, rfl, rfl, rfl⟩

theorem pressBankRun_wellFormed (s : State) (bank_config : BankConfig) (page bank : String)
    (deviceid : Option String) (action_set_id : Option String) (h : WellFormed s) :
    WellFormed (pressBankRun s bank_config page bank deviceid action_set_id) := by
  unfold pressBankRun
  split
  · exact h
  · split
    · exact h
    · split
      · exact h
      · split
        · exact h
        · split
          · exact h
          · exact runMultipleActions_wellFormed _ _ _ _ _ h

theorem pressBank_wellFormed (s s' : State) (page bank : String) (direction : Bool)
    (deviceid : Option String) (hpress : pressBank s page bank direction deviceid = some s')
    (h : WellFormed s) : WellFormed s' := by
  unfold pressBank at hpress
  simp only at hpress
  split at hpress
  · simp at hpress
  · rename_i s1 id hsel
    obtain ⟨h1, h2, h3, h4⟩ := pressBankSelect_timers _ _ _ _ _ _ _ hsel
    have hwf1 : WellFormed s1 := WellFormed.of_same_timers s s1 h h1 h2 h3 h4
    split at hpress
    · simp only [Option.some.injEq] at hpress
      rw [← hpress]
      cases direction <;> exact hwf1
    · split at hpress
      · simp only [Option.some.injEq] at hpress
        rw [← hpress]
        cases direction <;> exact hwf1
      · split at hpress
        · simp only [Option.some.injEq] at hpress
          rw [← hpress]
          cases direction <;> exact hwf1
        · simp only [Option.some.injEq] at hpress
          rw [← hpress]
          exact pressBankRun_wellFormed _ _ _ _ _ _ hwf1

/-- Every reachable state is well formed. -/
theorem Reachable.wellFormed (s : State) (h : Reachable s) : WellFormed s := by
  induction h with
  | start s htimers hpending hrunning =>
    unfold WellFormed
    rw [htimers, hpending, hrunning]
    simp
  | run s actions groupId relative_delay run_source _ ih =>
    exact runMultipleActions_wellFormed _ _ _ _ _ ih
  | fire s timer _ ih => exact fireTimer_wellFormed _ _ ih
  | abortOne s page bank skip_up _ ih => exact abortBank_wellFormed _ _ _ _ ih
  | abortEvery s _ ih => exact abortAll_wellFormed _ ih
  | press s s' page bank direction deviceid _ hpress ih =>
    exact pressBank_wellFormed _ _ _ _ _ _ hpress ih

/-- C4: after `abortBank(page, bank, skip_up)`, called in a well-formed state
(as every reachable state is), no entry of `timers_running` has the group id
`page_bank` and that key is not in `actions_running`; no timer of that group
is left in the timer queue, so whatever handles the host fires afterwards, no
timer of that button fires; the entries of `timers_running`, the markers in
`actions_running` and the queued timers of every other key are exactly the
ones from before the call. -/
theorem abortBank_cancels (s : State) (page bank : String) (skip_up : Bool)
    (hwf : WellFormed s) :
    (∀ e ∈ (abortBank s page bank skip_up).timers_running, e.2 ≠ page ++ "_" ++ bank) ∧
      page ++ "_" ++ bank ∉ (abortBank s page bank skip_up).actions_running ∧
      (∀ (timers : List Nat), ∀ t ∈ firedTimers (abortBank s page bank skip_up) timers,
        t.groupId ≠ page ++ "_" ++ bank) ∧
      (abortBank s page bank skip_up).timers_running =
        s.timers_running.filter (fun e => e.2 ≠ page ++ "_" ++ bank) ∧
      (abortBank s page bank skip_up).actions_running =
        s.actions_running.filter (fun k => k ≠ page ++ "_" ++ bank) ∧
      (abortBank s page bank skip_up).pending =
        s.pending.filter (fun t => t.groupId ≠ page ++ "_" ++ bank) := by
  have hfold := abortBank_forEach (page ++ "_" ++ bank)
    { s with actions_running := setDelete s.actions_running (page ++ "_" ++ bank) }
    hwf.1 hwf.2.1
  have h1 : (abortBank s page bank skip_up).timers_running =
      s.timers_running.filter (fun e => e.2 ≠ page ++ "_" ++ bank) := by
    unfold abortBank
    simp only [hfold]
    cases skip_up <;> simp [BankController.indicatePushed, State.emit]
  have h2 : (abortBank s page bank skip_up).actions_running =
      s.actions_running.filter (fun k => k ≠ page ++ "_" ++ bank) := by
    unfold abortBank
    simp only [hfold]
    cases skip_up <;> simp [BankController.indicatePushed, State.emit, setDelete]
  have h3 : (abortBank s page bank skip_up).pending =
      s.pending.filter (fun t => t.groupId ≠ page ++ "_" ++ bank) := by
    unfold abortBank
    simp only [hfold]
    cases skip_up <;> simp [BankController.indicatePushed, State.emit]
  refine ⟨?_, ?_, ?_, h1, h2, h3⟩
  · intro e he
    rw [h1] at he
    simpa using (List.mem_filter.mp he).2
  · rw [h2]
    simp [List.mem_filter]
  · intro timers t ht
    have hq := firedTimers_subset timers _ t ht
    rw [h3] at hq
    simpa using (List.mem_filter.mp hq).2

/-- C5: after `abortAll()`, called in a well-formed state (as every reachable
state is), `timers_running` and `actions_running` are both empty and so is the
timer queue, so whatever handles the host fires afterwards nothing happens;
the calls made by `abortAll` are exactly the redraws of the keys that were in
`actions_running`, in the order of the set, and each key occurs once in that
set. -/
theorem abortAll_clears (s : State) (hwf : WellFormed s) :
    (abortAll s).timers_running = [] ∧ (abortAll s).actions_running = [] ∧
      (abortAll s).pending = [] ∧
      (∀ timers : List Nat, timers.foldl fireTimer (abortAll s) = abortAll s) ∧
      (abortAll s).events = s.events ++ s.actions_running.map abortAllRedraw ∧
      (∀ bid ∈ s.actions_running, s.actions_running.count bid = 1) := by
  have hpending : (abortAll s).pending = [] := by
    unfold abortAll
    rw [clearTimeout_foldl, emit_foldl]
    simp only [List.filter_eq_nil_iff]
    intro t ht
    have hmem : t.timer ∈ s.timers_running.map (fun e => e.1) :=
      List.mem_map.mpr ⟨(t.timer, t.groupId), hwf.2.1 t ht, rfl⟩
    simpa using hmem
  refine ⟨?_, ?_, hpending, ?_, ?_, fun bid hbid => List.count_eq_one_of_mem hwf.2.2.2 hbid⟩
  · unfold abortAll
    rw [clearTimeout_foldl, emit_foldl]
  · unfold abortAll
    rw [clearTimeout_foldl, emit_foldl]
  · intro timers
    exact fireTimer_foldl_of_pending_nil timers _ hpending
  · unfold abortAll
    rw [clearTimeout_foldl, emit_foldl]

/-- Witness of C4 on two buttons with delayed runs in flight: aborting button
`1_2` (with forced release) leaves exactly the timer and the marker of button
`1_3`, and firing all three handles afterwards fires only the timer of
`1_3`. -/
theorem abortBank_cancels_witness :
    WellFormed exRunning ∧
      (abortBank exRunning "1" "2" true).timers_running = [(2, "1_3")] ∧
      (abortBank exRunning "1" "2" true).actions_running = ["1_3"] ∧
      (∀ t ∈ firedTimers (abortBank exRunning "1" "2" true) [0, 1, 2],
        t.groupId ≠ "1" ++ "_" ++ "2") :=
  ⟨by decide,
    (abortBank_cancels exRunning "1" "2" true (by decide)).2.2.2.1.trans (by decide),
    (abortBank_cancels exRunning "1" "2" true (by decide)).2.2.2.2.1.trans (by decide),
    (abortBank_cancels exRunning "1" "2" true (by decide)).2.2.1 [0, 1, 2]⟩

/-- Witness of C5 on two buttons with delayed runs in flight: one redraw for
`1_2`, one for `1_3`, and an empty timer queue. -/
theorem abortAll_clears_witness :
    WellFormed exRunning ∧
      (abortAll exRunning).events =
        exRunning.events ++ [Event.graphics_bank_invalidate "1" (some "2"),
          Event.graphics_bank_invalidate "1" (some "3")] ∧
      (abortAll exRunning).pending = [] :=
  ⟨by decide, (abortAll_clears exRunning (by decide)).2.2.2.2.1.trans (by decide),
    (abortAll_clears exRunning (by decide)).2.2.1⟩

/-! ## The button state machine -/

/-- What `runMultipleActions` leaves alone. -/
theorem runMultipleActions_frame (s : State) (actions : List Action) (groupId : String)
    (relative_delay : Bool) (run_source : Option RunSource) :
    (runMultipleActions s actions groupId relative_delay run_source).pushed = s.pushed ∧
      (runMultipleActions s actions groupId relative_delay run_source).config = s.config ∧
      (runMultipleActions s actions groupId relative_delay run_source).bank_action_sets =
        s.bank_action_sets ∧
      (runMultipleActions s actions groupId relative_delay run_source).bank_cycle_step =
        s.bank_cycle_step ∧
      (runMultipleActions s actions groupId relative_delay run_source).children =
        s.children := by
  obtain ⟨-, -, -, h4, -, h6, h7, h8, h9⟩ :=
    runActionsLoop_spec (effective_delays actions relative_delay) groupId run_source actions s
      false
  unfold runMultipleActions
  simp only
  split
  · cases run_source <;> exact ⟨h6, h7, h8, h9, h4⟩
  · exact ⟨h6, h7, h8, h9, h4⟩

theorem isPushed_pressEdge (s : State) (page bank : String) (direction : Bool)
    (deviceid : Option String) :
    BankController.isPushed (pressEdge s page bank direction deviceid) page bank = direction := by
  simp [BankController.isPushed, pressEdge, BankController.indicatePushed, State.emit,
    JsObject.get_set_self]

theorem isPushed_runMultipleActions (s : State) (actions : List Action) (groupId : String)
    (relative_delay : Bool) (run_source : Option RunSource) (page bank : String) :
    BankController.isPushed (runMultipleActions s actions groupId relative_delay run_source)
      page bank = BankController.isPushed s page bank := by
  unfold BankController.isPushed
  rw [(runMultipleActions_frame s actions groupId relative_delay run_source).1]

theorem get_runMultipleActions (s : State) (actions : List Action) (groupId : String)
    (relative_delay : Bool) (run_source : Option RunSource) (page bank : String) :
    BankController.get (runMultipleActions s actions groupId relative_delay run_source)
      page bank = BankController.get s page bank := by
  unfold BankController.get
  rw [(runMultipleActions_frame s actions groupId relative_delay run_source).2.1]

/-- `pressBank` on a press-style button, given the set the press branch picks:
the edge is recorded and the set, when it exists, is run. -/
theorem pressBank_press_style (s : State) (page bank : String) (direction : Bool)
    (deviceid : Option String)
    (hstyle : (BankController.get s page bank).style = some "press") :
    pressBank s page bank direction deviceid =
      some (pressBankRun (pressEdge s page bank direction deviceid)
        (BankController.get s page bank) page bank deviceid
        (pressBankPress s page bank direction)) := by
  unfold pressBank pressBankSelect
  simp only [hstyle]
  simp [pressEdge, pressBankPress, BankController.isPushed, State.emit]

theorem pressBankRun_found (s : State) (bank_config : BankConfig) (page bank : String)
    (deviceid : Option String) (set_id : String) (banks : JsObject (JsObject (List Action)))
    (sets : JsObject (List Action)) (actions : List Action) (hid : set_id ≠ "")
    (hpage : s.bank_action_sets.get page = some banks) (hbank : banks.get bank = some sets)
    (hset : sets.get set_id = some actions) :
    pressBankRun s bank_config page bank deviceid (some set_id) =
      runMultipleActions s actions (page ++ "_" ++ bank) bank_config.relative_delay
        (some { deviceid := deviceid, page := page, bank := bank }) := by
  simp [pressBankRun, hid, hpage, hbank, hset]

/-- C6: for a press-style button that is released and has its "down" and "up"
sets, a press edge selects "down", runs that set once and leaves the button
pushed; the release edge that follows selects "up", runs that set once and
leaves the button released. -/
theorem press_then_release (s : State) (page bank : String) (deviceid : Option String)
    (banks : JsObject (JsObject (List Action))) (sets : JsObject (List Action))
    (down up : List Action)
    (hstyle : (BankController.get s page bank).style = some "press")
    (hreleased : BankController.isPushed s page bank = false)
    (hpage : s.bank_action_sets.get page = some banks) (hbank : banks.get bank = some sets)
    (hdown : sets.get "down" = some down) (hup : sets.get "up" = some up) :
    pressBankPress s page bank true = some "down" ∧
      pressBank s page bank true deviceid =
        some (pressAndRun s page bank true deviceid down) ∧
      BankController.isPushed (pressAndRun s page bank true deviceid down) page bank = true ∧
      pressBankPress (pressAndRun s page bank true deviceid down) page bank false =
        some "up" ∧
      pressBank (pressAndRun s page bank true deviceid down) page bank false deviceid =
        some (pressAndRun (pressAndRun s page bank true deviceid down) page bank false
          deviceid up) ∧
      BankController.isPushed
        (pressAndRun (pressAndRun s page bank true deviceid down) page bank false deviceid up)
        page bank = false := by
  have hsel1 : pressBankPress s page bank true = some "down" := by
    simp [pressBankPress, hreleased]
  have hsets_edge : ∀ (st : State) (d : Bool),
      (pressEdge st page bank d deviceid).bank_action_sets = st.bank_action_sets :=
    fun _ _ => rfl
  have hcfg_edge : ∀ (st : State) (d : Bool),
      BankController.get (pressEdge st page bank d deviceid) page bank =
        BankController.get st page bank := fun _ _ => rfl
  have hpress : pressBank s page bank true deviceid =
      some (pressAndRun s page bank true deviceid down) := by
    rw [pressBank_press_style s page bank true deviceid hstyle, hsel1]
    rw [pressBankRun_found _ _ page bank deviceid "down" banks sets down (by decide)
      (by rw [hsets_edge]; exact hpage) hbank hdown]
    rfl
  have hpushed1 :
      BankController.isPushed (pressAndRun s page bank true deviceid down) page bank = true := by
    unfold pressAndRun
    rw [isPushed_runMultipleActions, isPushed_pressEdge]
  have hcfg1 : BankController.get (pressAndRun s page bank true deviceid down) page bank =
      BankController.get s page bank := by
    unfold pressAndRun
    rw [get_runMultipleActions, hcfg_edge]
  have hsel2 :
      pressBankPress (pressAndRun s page bank true deviceid down) page bank false =
        some "up" := by
    simp [pressBankPress, hpushed1]
  refine ⟨hsel1, hpress, hpushed1, hsel2, ?_, ?_⟩
  · rw [pressBank_press_style _ page bank false deviceid (by rw [hcfg1]; exact hstyle), hsel2]
    rw [pressBankRun_found _ _ page bank deviceid "up" banks sets up (by decide)
      (by
        rw [hsets_edge]
        unfold pressAndRun
        rw [(runMultipleActions_frame _ _ _ _ _).2.2.1, hsets_edge]
        exact hpage) hbank hup]
    rfl
  · unfold pressAndRun
    rw [isPushed_runMultipleActions, isPushed_pressEdge]

/-- Witness of C6: pressing and releasing the example button dispatches the
action of "down", then the action of "up". -/
theorem press_then_release_witness :
    pressBank exPressButton "1" "2" true none =
        some (pressAndRun exPressButton "1" "2" true none [exInline "d"]) ∧
      pressBank (pressAndRun exPressButton "1" "2" true none [exInline "d"]) "1" "2" false
          none =
        some (pressAndRun (pressAndRun exPressButton "1" "2" true none [exInline "d"]) "1" "2"
          false none [exInline "u"]) ∧
      (pressAndRun (pressAndRun exPressButton "1" "2" true none [exInline "d"]) "1" "2"
          false none [exInline "u"]).events =
        [Event.triggers_onBankPress "1" "2" true none,
          Event.graphics_bank_invalidate "1" (some "2"),
          Event.emberplus_updateBankState "1" "2" true none,
          Event.actionRun (exInline "d") (some exSource),
          Event.triggers_onBankPress "1" "2" false none,
          Event.graphics_bank_invalidate "1" (some "2"),
          Event.emberplus_updateBankState "1" "2" false none,
          Event.actionRun (exInline "u") (some exSource)] :=
  ⟨(press_then_release exPressButton "1" "2" none
      [("2", [("down", [exInline "d"]), ("up", [exInline "u"])])]
      [("down", [exInline "d"]), ("up", [exInline "u"])] [exInline "d"] [exInline "u"]
      (by decide) (by decide) (by decide) (by decide) (by decide) (by decide)).2.1,
    (press_then_release exPressButton "1" "2" none
      [("2", [("down", [exInline "d"]), ("up", [exInline "u"])])]
      [("down", [exInline "d"]), ("up", [exInline "u"])] [exInline "d"] [exInline "u"]
      (by decide) (by decide) (by decide) (by decide) (by decide) (by decide)).2.2.2.2.1,
    by decide⟩

/-- C7 fails as stated: on the example press-style button a second press edge
while the button is still pushed selects no set, and the action of "down" is
dispatched once, by the first press only. -/
theorem second_press_counterexample :
    (pressBank exPressButton "1" "2" true none).map
        (fun s1 => (BankController.isPushed s1 "1" "2", pressBankPress s1 "1" "2" true)) =
        some (true, none) ∧
      ((pressBank exPressButton "1" "2" true none).bind
        (fun s1 => pressBank s1 "1" "2" true none)).map (fun s2 => s2.events) =
        some [Event.triggers_onBankPress "1" "2" true none,
          Event.graphics_bank_invalidate "1" (some "2"),
          Event.emberplus_updateBankState "1" "2" true none,
          Event.actionRun (exInline "d") (some exSource),
          Event.triggers_onBankPress "1" "2" true none,
          Event.graphics_bank_invalidate "1" (some "2"),
          Event.emberplus_updateBankState "1" "2" true none] := by
  decide

/-- C7 as amended: for a press-style button, a press edge that arrives while
the button is still pushed selects no set; the call only tells the trigger
engine and records and redraws the push state, so nothing is dispatched and no
timer is queued. -/
theorem press_while_pushed (s : State) (page bank : String) (deviceid : Option String)
    (hstyle : (BankController.get s page bank).style = some "press")
    (hpushed : BankController.isPushed s page bank = true) :
    pressBankPress s page bank true = none ∧
      pressBank s page bank true deviceid = some (pressEdge s page bank true deviceid) ∧
      (pressEdge s page bank true deviceid).events =
        s.events ++ [Event.triggers_onBankPress page bank true deviceid,
          Event.graphics_bank_invalidate page (some bank),
          Event.emberplus_updateBankState page bank true deviceid] ∧
      (pressEdge s page bank true deviceid).pending = s.pending ∧
      (pressEdge s page bank true deviceid).timers_running = s.timers_running := by
  have hsel : pressBankPress s page bank true = none := by
    simp [pressBankPress, hpushed]
  refine ⟨hsel, ?_, ?_, rfl, rfl⟩
  · rw [pressBank_press_style s page bank true deviceid hstyle, hsel]
    rfl
  · simp [pressEdge, BankController.indicatePushed, State.emit]

/-- Witness of the amended C7: the example button after one press. -/
theorem press_while_pushed_witness :
    pressBank (pressAndRun exPressButton "1" "2" true none [exInline "d"]) "1" "2" true none =
      some (pressEdge (pressAndRun exPressButton "1" "2" true none [exInline "d"]) "1" "2"
        true none) :=
  (press_while_pushed (pressAndRun exPressButton "1" "2" true none [exInline "d"]) "1" "2" none
    (by decide) (by decide)).2.1

/-- C8 at its failing input: on the step-style button with the eleven sets
`"0"` to `"10"` and auto-progress, a press with the cursor at `"1"` selects set
`"1"` and moves the cursor to `"10"` (not to `"2"`), because `steps.sort()`
orders the ids as strings; three presses from cursor `"0"` dispatch the actions
of the sets `"0"`, `"1"`, `"10"`. -/
theorem pressBank_step_order_eleven_sets :
    jsSort (objectKeys
        [("0", ()), ("1", ()), ("2", ()), ("3", ()), ("4", ()), ("5", ()), ("6", ()),
          ("7", ()), ("8", ()), ("9", ()), ("10", ())]) =
        ["0", "1", "10", "2", "3", "4", "5", "6", "7", "8", "9"] ∧
      ((pressBank exElevenSteps "1" "2" true none).bind
        (fun s1 => pressBank s1 "1" "2" true none)).map (fun s2 => s2.bank_cycle_step) =
        some [("1", [("2", some "10")])] ∧
      (((pressBank exElevenSteps "1" "2" true none).bind
        (fun s1 => pressBank s1 "1" "2" true none)).bind
        (fun s2 => pressBank s2 "1" "2" true none)).map
        (fun s3 => s3.events.filter (fun e => e matches Event.actionRun _ _)) =
        some [Event.actionRun (exInline "a0") (some exSource),
          Event.actionRun (exInline "a1") (some exSource),
          Event.actionRun (exInline "a10") (some exSource)] := by
  decide

/-- C9 at its failing input: on the step-style button with sets `"1"` and `"2"`
whose cursor holds the missing id `"0"`, `findIndex` gives `-1`, which `|| 0`
leaves at `-1`; the press selects no set and dispatches nothing, and with
auto-progress on it only moves the cursor to the first id. -/
theorem pressBank_stale_cursor_selects_nothing :
    orZero (findIndexFrom (fun k => some k = some "0") (jsSort (objectKeys
        [("1", [exInline "a1"]), ("2", [exInline "a2"])])) 0) = -1 ∧
      (pressBankStep exStaleCursor (BankController.get exStaleCursor "1" "2") "1" "2").map
        (fun r => r.2) = some none ∧
      (pressBank exStaleCursor "1" "2" true none).map
        (fun s1 => (s1.events, s1.bank_cycle_step)) =
        some ([Event.triggers_onBankPress "1" "2" true none,
            Event.system_bank_action_sets_step "1" "2" 0,
            Event.io_bank_action_sets_step "1" "2" (some "1"),
            Event.graphics_bank_invalidate "1" (some "2"),
            Event.emberplus_updateBankState "1" "2" true none],
          [("1", [("2", some "1")])]) := by
  decide

/-! ## The delay scheduler: the in-flight marker -/

theorem mem_setAdd (xs : List String) (x : String) : x ∈ setAdd xs x := by
  unfold setAdd
  split
  · assumption
  · simp

theorem not_mem_setDelete (xs : List String) (x : String) : x ∉ setDelete xs x := by
  simp [setDelete, List.mem_filter]

/-- An action that is not delayed leaves `timers_running` alone. -/
theorem runActionsLoop_timers_running_of_none (table : JsObject JsNumber) (groupId : String)
    (run_source : Option RunSource) (actions : List Action) (s : State) (has_delayed : Bool)
    (hnone : actions.any (fun a => (delayOf table a).gtZero) = false) :
    (runActionsLoop table groupId run_source actions s has_delayed).1.timers_running =
      s.timers_running := by
  induction actions generalizing s has_delayed with
  | nil => rfl
  | cons a rest ih =>
    simp only [List.any_cons, Bool.or_eq_false_iff] at hnone
    simp only [runActionsLoop, hnone.1, Bool.false_eq_true, if_false]
    rw [ih _ _ hnone.2, runAction_eq_emit]
    rfl

theorem runActionEvent_ne_redraw (s : State) (a : Action) (run_source : Option RunSource)
    (page : String) (bank : Option String) :
    runActionEvent s a run_source ≠ Event.graphics_bank_invalidate page bank := by
  unfold runActionEvent
  split <;> simp

/-- C11: when `runMultipleActions` returns after a run in which at least one
action had an effective delay `> 0`, the group id is in `actions_running` and
the calls made are the inline dispatches followed by exactly one redraw, the
one for the run source (a run without run source has nothing to redraw); after
a run in which no action had an effective delay `> 0`, `actions_running` and
`timers_running` are unchanged and the calls made are the dispatches of the
actions only, none of which is a redraw. -/
theorem runMultipleActions_in_flight_marker (s : State) (actions : List Action)
    (groupId : String) (relative_delay : Bool) (run_source : Option RunSource) :
    (actions.any (fun a => (delayOf (effective_delays actions relative_delay) a).gtZero) = true →
        groupId ∈ (runMultipleActions s actions groupId relative_delay run_source).actions_running ∧
        (runMultipleActions s actions groupId relative_delay run_source).events =
          s.events ++
            (actions.filter
              (fun a => !(delayOf (effective_delays actions relative_delay) a).gtZero)).map
              (fun a => runActionEvent s a run_source) ++
            runSourceRedraw run_source ∧
        (∀ src : RunSource, run_source = some src →
          runSourceRedraw run_source = [Event.graphics_bank_invalidate src.page (some src.bank)])) ∧
      (actions.any (fun a => (delayOf (effective_delays actions relative_delay) a).gtZero) = false →
        (runMultipleActions s actions groupId relative_delay run_source).actions_running =
          s.actions_running ∧
        (runMultipleActions s actions groupId relative_delay run_source).timers_running =
          s.timers_running ∧
        (runMultipleActions s actions groupId relative_delay run_source).events =
          s.events ++ actions.map (fun a => runActionEvent s a run_source)) ∧
      (∀ (a : Action) (page : String) (bank : Option String),
        runActionEvent s a run_source ≠ Event.graphics_bank_invalidate page bank) := by
  have hev := runMultipleActions_events s actions groupId relative_delay run_source
  obtain ⟨-, -, h3, -, h5, -⟩ :=
    runActionsLoop_spec (effective_delays actions relative_delay) groupId run_source actions s
      false
  simp only [Bool.false_or] at h3
  refine ⟨?_, ?_, fun a page bank => runActionEvent_ne_redraw s a run_source page bank⟩
  · intro hany
    refine ⟨?_, ?_, ?_⟩
    · unfold runMultipleActions
      simp only [h3, hany, if_true]
      cases run_source <;> exact mem_setAdd _ _
    · rw [hev, hany]
      simp
    · intro src hsrc
      rw [hsrc]
      rfl
  · intro hnone
    refine ⟨?_, ?_, ?_⟩
    · unfold runMultipleActions
      simp only [h3, hnone, Bool.false_eq_true, if_false]
      exact h5
    · unfold runMultipleActions
      simp only [h3, hnone, Bool.false_eq_true, if_false]
      exact runActionsLoop_timers_running_of_none _ _ _ _ _ _ hnone
    · rw [hev, hnone]
      have hall : actions.filter
          (fun a => !(delayOf (effective_delays actions relative_delay) a).gtZero) = actions := by
        rw [List.filter_eq_self]
        intro a ha
        have := List.any_eq_false.mp hnone a ha
        simpa using this
      simp [hall]

/-- Witness of C11: the run A:100, B:50 for button `1_2` marks the button and
emits one redraw; a run of an immediate action changes neither table. -/
theorem runMultipleActions_in_flight_marker_witness :
    "1_2" ∈ (runMultipleActions {} [exA, exB] "1_2" false (some exSource)).actions_running ∧
      (runMultipleActions exRunning [exInline "d"] "1_4" false (some exSource)).timers_running =
        exRunning.timers_running :=
  ⟨((runMultipleActions_in_flight_marker {} [exA, exB] "1_2" false (some exSource)).1
      (by decide)).1,
    ((runMultipleActions_in_flight_marker exRunning [exInline "d"] "1_4" false
      (some exSource)).2.1 (by decide)).2.1⟩

/-- C12: when the host fires a queued timer, its action is dispatched and its
handle leaves `timers_running` and the queue; when no entry of the same group
is left in `timers_running`, the group's marker is deleted from
`actions_running` and the redraw for the run source is emitted after the
dispatch; when another entry of the group is left, `actions_running` is
unchanged and the dispatch is the only call. -/
theorem fireTimer_callback (s : State) (timer : Nat) (t : Timer)
    (hqueued : s.pending.find? (fun t => t.timer = timer) = some t) :
    (fireTimer s timer).timers_running = mapDelete s.timers_running t.timer ∧
      (∀ e ∈ (fireTimer s timer).timers_running, e.1 ≠ t.timer) ∧
      (fireTimer s timer).pending = s.pending.filter (fun t' => t'.timer ≠ timer) ∧
      ((∀ e ∈ mapDelete s.timers_running t.timer, e.2 ≠ t.groupId) →
        (fireTimer s timer).actions_running = setDelete s.actions_running t.groupId ∧
        t.groupId ∉ (fireTimer s timer).actions_running ∧
        (fireTimer s timer).events =
          s.events ++ [runActionEvent s t.action t.run_source] ++
            runSourceRedraw t.run_source) ∧
      ((∃ e ∈ mapDelete s.timers_running t.timer, e.2 = t.groupId) →
        (fireTimer s timer).actions_running = s.actions_running ∧
        (fireTimer s timer).events = s.events ++ [runActionEvent s t.action t.run_source]) := by
  have hfire : fireTimer s timer = timerCallback (clearTimeout s timer) t := by
    unfold fireTimer
    rw [hqueued]
  have htr : (fireTimer s timer).timers_running = mapDelete s.timers_running t.timer := by
    rw [hfire, timerCallback_timers_running]
    rfl
  refine ⟨htr, ?_, ?_, ?_, ?_⟩
  · intro e he
    rw [htr] at he
    simpa [mapDelete] using (List.mem_filter.mp he).2
  · rw [hfire, timerCallback_pending]
    rfl
  · intro hnone
    have hfind : ((mapDelete s.timers_running t.timer).map (fun e => e.2)).find?
        (fun v => v = t.groupId) = none := by
      rw [List.find?_eq_none]
      intro v hv
      obtain ⟨e, he, hev⟩ := List.mem_map.mp hv
      have := hnone e he
      simpa [← hev] using this
    have hstate : fireTimer s timer =
        (match t.run_source with
          | some src =>
            ({ ({ (runAction (clearTimeout s timer) t.action t.run_source) with
                  timers_running := mapDelete s.timers_running t.timer } : State) with
                actions_running := setDelete s.actions_running t.groupId } : State).emit
              (Event.graphics_bank_invalidate src.page (some src.bank))
          | none =>
            { ({ (runAction (clearTimeout s timer) t.action t.run_source) with
                  timers_running := mapDelete s.timers_running t.timer } : State) with
                actions_running := setDelete s.actions_running t.groupId }) := by
      rw [hfire]
      unfold timerCallback
      simp only [runAction_eq_emit, State.emit, clearTimeout, hfind, Option.isNone_none, if_true]
    refine ⟨?_, ?_, ?_⟩
    · rw [hstate]
      cases t.run_source <;> rfl
    · rw [hstate]
      cases t.run_source <;> exact not_mem_setDelete _ _
    · rw [hstate]
      cases t.run_source <;>
        simp [runAction_eq_emit, State.emit, clearTimeout, runActionEvent, runSourceRedraw]
  · intro hsome
    obtain ⟨e, he, heg⟩ := hsome
    have hfind : (((mapDelete s.timers_running t.timer).map (fun e => e.2)).find?
        (fun v => v = t.groupId)).isNone = false := by
      rw [Bool.eq_false_iff]
      intro hn
      rw [Option.isNone_iff_eq_none, List.find?_eq_none] at hn
      have := hn e.2 (List.mem_map.mpr ⟨e, he, rfl⟩)
      simp [heg] at this
    have hstate : fireTimer s timer =
        { (runAction (clearTimeout s timer) t.action t.run_source) with
          timers_running := mapDelete s.timers_running t.timer } := by
      rw [hfire]
      unfold timerCallback
      simp only [runAction_eq_emit, State.emit, clearTimeout, hfind, Bool.false_eq_true,
        if_false]
    refine ⟨?_, ?_⟩
    · rw [hstate, runAction_eq_emit]
      rfl
    · rw [hstate, runAction_eq_emit]
      simp [State.emit, clearTimeout, runActionEvent]

/-- Witness of C12: with A:100 and B:50 of button `1_2` in flight, the timer of
A fires first and the marker stays; when the timer of B fires after it, the
marker is cleared and the button redrawn. -/
theorem fireTimer_callback_witness :
    (fireTimer exRunning 0).actions_running = exRunning.actions_running ∧
      (fireTimer (fireTimer exRunning 0) 1).actions_running = ["1_3"] ∧
      (fireTimer (fireTimer exRunning 0) 1).events =
        (fireTimer exRunning 0).events ++
          [Event.actionRun exB (some exSource),
            Event.graphics_bank_invalidate "1" (some "2")] :=
  ⟨((fireTimer_callback exRunning 0 exTimerA (by decide)).2.2.2.2 (by decide)).1,
    (((fireTimer_callback (fireTimer exRunning 0) 1 exTimerB (by decide)).2.2.2.1 (by decide)).1).trans
      (by decide),
    (((fireTimer_callback (fireTimer exRunning 0) 1 exTimerB (by decide)).2.2.2.1 (by decide)).2.2).trans
      (by decide)⟩

/-! ## Button reset -/

/-- `unsubscribeBank` only makes calls: the state changes in its trace alone. -/
theorem unsubscribeBank_eq (s : State) (page bank : String) :
    ∃ evs : List Event, unsubscribeBank s page bank = { s with events := s.events ++ evs } := by
  have inner : ∀ (action_set : List Action) (st : State),
      ∃ evs : List Event,
        action_set.foldl
          (fun st' action =>
            if action.instanceId ∈ st'.children then st'.emit (Event.actionDelete action)
            else st') st = { st with events := st.events ++ evs } := by
    intro action_set
    induction action_set with
    | nil => exact fun st => ⟨[], by simp⟩
    | cons a rest ih =>
      intro st
      simp only [List.foldl_cons]
      by_cases hmem : a.instanceId ∈ st.children
      · obtain ⟨evs, hevs⟩ := ih (st.emit (Event.actionDelete a))
        refine ⟨Event.actionDelete a :: evs, ?_⟩
        simp only [hmem, if_true, hevs]
        simp [State.emit]
      · obtain ⟨evs, hevs⟩ := ih st
        exact ⟨evs, by simp only [hmem, if_false, hevs]⟩
  have outer : ∀ (sets : JsObject (List Action)) (keys : List String) (st : State),
      ∃ evs : List Event,
        keys.foldl
          (fun st set =>
            match sets.get set with
            | none => st
            | some action_set =>
              action_set.foldl
                (fun st' action =>
                  if action.instanceId ∈ st'.children then
                    st'.emit (Event.actionDelete action)
                  else st') st) st = { st with events := st.events ++ evs } := by
    intro sets keys
    induction keys with
    | nil => exact fun st => ⟨[], by simp⟩
    | cons k rest ih =>
      intro st
      simp only [List.foldl_cons]
      cases hk : sets.get k with
      | none => exact ih st
      | some action_set =>
        obtain ⟨evs1, h1⟩ := inner action_set st
        simp only [h1]
        obtain ⟨evs2, h2⟩ := ih { st with events := st.events ++ evs1 }
        exact ⟨evs1 ++ evs2, by rw [h2]; simp⟩
  unfold unsubscribeBank
  split
  · exact ⟨[], by simp⟩
  · split
    · exact ⟨[], by simp⟩
    · rename_i sets _
      exact outer sets (objectKeys sets) s

theorem checkBankStatus_frame (s : State) (page bank : String) :
    (checkBankStatus s page bank).timers_running = s.timers_running ∧
      (checkBankStatus s page bank).pending = s.pending ∧
      (checkBankStatus s page bank).actions_running = s.actions_running ∧
      (checkBankStatus s page bank).bank_action_sets = s.bank_action_sets ∧
      (checkBankStatus s page bank).bank_cycle_step = s.bank_cycle_step ∧
      (checkBankStatus s page bank).next_timer = s.next_timer := by
  unfold checkBankStatus
  simp only
  split <;> exact ⟨rfl, rfl, rfl, rfl, rfl, rfl⟩

theorem actionResetBank_frame (s : State) (page bank : String) :
    (BankAction.resetBank s page bank).timers_running = s.timers_running ∧
      (BankAction.resetBank s page bank).pending = s.pending ∧
      (BankAction.resetBank s page bank).actions_running = s.actions_running ∧
      (BankAction.resetBank s page bank).next_timer = s.next_timer := by
  obtain ⟨evs, h⟩ := unsubscribeBank_eq s page bank
  unfold BankAction.resetBank doSave
  simp only [h]
  exact ⟨rfl, rfl, rfl, rfl⟩

theorem controllerResetBank_frame (s : State) (page bank : String)
    (invalidate save : Bool) :
    (BankController.resetBank s page bank invalidate save).timers_running =
        s.timers_running ∧
      (BankController.resetBank s page bank invalidate save).pending = s.pending ∧
      (BankController.resetBank s page bank invalidate save).actions_running =
        s.actions_running ∧
      (BankController.resetBank s page bank invalidate save).next_timer = s.next_timer := by
  have a := fun st => actionResetBank_frame st "undefined" "undefined"
  have c := fun st => checkBankStatus_frame st page bank
  unfold BankController.resetBank
  cases invalidate <;> cases save <;> simp [State.emit, a, c]

/-- The queue after a firing depends on the queue before it only. -/
theorem fireTimer_pending_eq (s : State) (timer : Nat) :
    (fireTimer s timer).pending = s.pending.filter (fun t => t.timer ≠ timer) := by
  unfold fireTimer
  cases hfind : s.pending.find? (fun t => t.timer = timer) with
  | none =>
    simp only
    rw [List.find?_eq_none] at hfind
    symm
    rw [List.filter_eq_self]
    intro t ht
    simpa using hfind t ht
  | some t =>
    simp only
    rw [timerCallback_pending]
    rfl

/-- Which timers fire depends on the timer queue only. -/
theorem firedTimers_congr (timers : List Nat) (s s' : State) (h : s.pending = s'.pending) :
    firedTimers s timers = firedTimers s' timers := by
  induction timers generalizing s s' with
  | nil => rfl
  | cons k ks ih =>
    simp only [firedTimers, h]
    congr 1
    apply ih
    rw [fireTimer_pending_eq, fireTimer_pending_eq, h]

/-- C13 at its failing input: the bank controller's `resetBank(1, 2)` on the
example press-style button calls `this.action.resetBank()` without arguments,
so the sets "down" and "up" of button (1, 2) stay as they were and an empty
entry is written for page `undefined`, button `undefined` instead;
`BankAction.resetBank(1, 2)` itself, given the arguments, empties the entry. -/
theorem resetBank_keeps_action_sets :
    actionSetsOrEmpty (BankController.resetBank exPressButton "1" "2" true true) "1" "2" =
        [("down", [exInline "d"]), ("up", [exInline "u"])] ∧
      (BankController.resetBank exPressButton "1" "2" true true).bank_action_sets =
        [("1", [("2", [("down", [exInline "d"]), ("up", [exInline "u"])])]),
          ("undefined", [("undefined", [])])] ∧
      actionSetsOrEmpty (BankAction.resetBank exPressButton "1" "2") "1" "2" = [] := by
  decide

/-- C14 fails as stated: on the example button with the timer of A:100 queued
for group `1_2`, the bank controller's `resetBank(1, 2)` leaves the entry of
the timer in `timers_running`, and when the timer fires afterwards A is
dispatched. -/
theorem resetBank_timer_counterexample :
    exDelayedPressed.timers_running = [(0, "1_2")] ∧
      (BankController.resetBank exDelayedPressed "1" "2" true true).timers_running =
        [(0, "1_2")] ∧
      (firedTimers (BankController.resetBank exDelayedPressed "1" "2" true true) [0]).map
        (fun t => (t.action, t.groupId)) = [(exA, "1_2")] ∧
      Event.actionRun exA (some exSource) ∈
        (fireTimer (BankController.resetBank exDelayedPressed "1" "2" true true) 0).events := by
  decide

/-- C14 as amended: a reset of a button, by the bank controller's `resetBank`
or by `BankAction.resetBank`, does not touch `timers_running`,
`actions_running` or the timer queue: the timers that were pending for the
button stay tracked, and whatever handles the host fires afterwards, the same
timers fire as without the reset. -/
theorem resetBank_leaves_timers (s : State) (page bank : String) (invalidate save : Bool) :
    (BankController.resetBank s page bank invalidate save).timers_running =
        s.timers_running ∧
      (BankController.resetBank s page bank invalidate save).actions_running =
        s.actions_running ∧
      (BankController.resetBank s page bank invalidate save).pending = s.pending ∧
      (∀ timers : List Nat,
        firedTimers (BankController.resetBank s page bank invalidate save) timers =
          firedTimers s timers) ∧
      (BankAction.resetBank s page bank).timers_running = s.timers_running ∧
      (BankAction.resetBank s page bank).actions_running = s.actions_running ∧
      (BankAction.resetBank s page bank).pending = s.pending ∧
      (∀ timers : List Nat,
        firedTimers (BankAction.resetBank s page bank) timers = firedTimers s timers) := by
  obtain ⟨c1, c2, c3, -⟩ := controllerResetBank_frame s page bank invalidate save
  obtain ⟨a1, a2, a3, -⟩ := actionResetBank_frame s page bank
  exact ⟨c1, c3, c2, fun timers => firedTimers_congr timers _ _ c2, a1, a3, a2,
    fun timers => firedTimers_congr timers _ _ a2⟩

/-! ## Button status -/

theorem JsObject.mem_keys_of_get {α : Type} (o : JsObject α) (k : String) (v : α)
    (h : o.get k = some v) : k ∈ o.map (fun e => e.1) := by
  induction o with
  | nil => simp [JsObject.get] at h
  | cons e rest ih =>
    obtain ⟨k', v'⟩ := e
    by_cases hk : k' = k
    · simp [hk]
    · simp only [JsObject.get, hk, if_false] at h
      simp [ih h]

/-- `Object.keys` lists exactly the keys of the object. -/
theorem mem_objectKeys {α : Type} (o : JsObject α) (k : String) :
    k ∈ objectKeys o ↔ k ∈ o.map (fun e => e.1) := by
  unfold objectKeys
  simp only [List.mem_append, List.mem_map, List.mem_insertionSort, List.mem_filterMap,
    List.mem_filter, Option.map_eq_some', Option.isNone_iff_eq_none]
  constructor
  · rintro (⟨⟨n, k'⟩, ⟨k'', ⟨e, he, rfl⟩, n', -, hpair⟩, rfl⟩ | ⟨⟨e, he, rfl⟩, -⟩)
    · simp only [Prod.mk.injEq] at hpair
      exact ⟨e, he, hpair.2⟩
    · exact ⟨e, he, rfl⟩
  · rintro ⟨e, he, rfl⟩
    rcases Option.eq_none_or_eq_some (arrayIndex e.1) with hidx | ⟨n, hidx⟩
    · exact Or.inr ⟨⟨e, he, rfl⟩, hidx⟩
    · exact Or.inl ⟨(n, e.1), ⟨e.1, ⟨e, he, rfl⟩, n, hidx, rfl⟩, rfl⟩

theorem mem_setAdd_iff (xs : List String) (x y : String) :
    y ∈ setAdd xs x ↔ y ∈ xs ∨ y = x := by
  unfold setAdd
  split
  · constructor
    · exact Or.inl
    · rintro (h | h)
      · exact h
      · subst h
        assumption
  · simp

theorem mem_foldl_setAdd (actions : List Action) (ids : List String) (x : String) :
    x ∈ actions.foldl (fun ids' action => setAdd ids' action.instanceId) ids ↔
      x ∈ ids ∨ ∃ a ∈ actions, a.instanceId = x := by
  induction actions generalizing ids with
  | nil => simp
  | cons a rest ih =>
    simp only [List.foldl_cons, ih, mem_setAdd_iff, List.mem_cons, exists_eq_or_imp]
    constructor
    · rintro ((h | h) | h)
      · exact Or.inl h
      · exact Or.inr (Or.inl h.symm)
      · exact Or.inr (Or.inr h)
    · rintro (h | h | h)
      · exact Or.inl (Or.inl h)
      · exact Or.inl (Or.inr h.symm)
      · exact Or.inr h

/-- The instances `checkBankStatus` collects are those of the actions of the
sets of the button. -/
theorem mem_referencedInstances (action_sets : JsObject (List Action)) (x : String) :
    x ∈ referencedInstances action_sets ↔
      ∃ set actions, action_sets.get set = some actions ∧ ∃ a ∈ actions, a.instanceId = x := by
  have key : ∀ (keys : List String) (ids : List String),
      x ∈ keys.foldl
          (fun ids set =>
            match action_sets.get set with
            | none => ids
            | some actions =>
              actions.foldl (fun ids' action => setAdd ids' action.instanceId) ids) ids ↔
        x ∈ ids ∨ ∃ set ∈ keys, ∃ actions, action_sets.get set = some actions ∧
          ∃ a ∈ actions, a.instanceId = x := by
    intro keys
    induction keys with
    | nil => simp
    | cons k rest ih =>
      intro ids
      simp only [List.foldl_cons, ih, List.mem_cons, exists_eq_or_imp]
      rcases Option.eq_none_or_eq_some (action_sets.get k) with hk | ⟨actions, hk⟩
      · simp [hk]
      · simp only [hk, mem_foldl_setAdd, Option.some.injEq, exists_eq_left']
        constructor
        · rintro ((h | h) | h)
          · exact Or.inl h
          · exact Or.inr (Or.inl h)
          · exact Or.inr (Or.inr h)
        · rintro (h | h | h)
          · exact Or.inl (Or.inl h)
          · exact Or.inl (Or.inr h)
          · exact Or.inr h
  unfold referencedInstances
  rw [key]
  simp only [List.not_mem_nil, false_or]
  constructor
  · rintro ⟨set, -, actions, h1, h2⟩
    exact ⟨set, actions, h1, h2⟩
  · rintro ⟨set, actions, h1, h2⟩
    exact ⟨set, (mem_objectKeys _ _).mpr (JsObject.mem_keys_of_get _ _ _ h1), actions, h1, h2⟩

/-- The second loop of `checkBankStatus` from a status it has reached: the
result is at least that status and the level of every instance, and it is that
status or the level of one of the instances. -/
theorem combinedStatus_foldl (s : State) (ids : List String) (status : Int) :
    status ≤ ids.foldl
        (fun status instance_id =>
          match getInstanceStatus s instance_id with
          | none => status
          | some level => if status < level then level else status) status ∧
      (∀ id ∈ ids, ∀ level, getInstanceStatus s id = some level →
        level ≤ ids.foldl
          (fun status instance_id =>
            match getInstanceStatus s instance_id with
            | none => status
            | some level => if status < level then level else status) status) ∧
      (ids.foldl
          (fun status instance_id =>
            match getInstanceStatus s instance_id with
            | none => status
            | some level => if status < level then level else status) status = status ∨
        ∃ id ∈ ids, getInstanceStatus s id = some (ids.foldl
          (fun status instance_id =>
            match getInstanceStatus s instance_id with
            | none => status
            | some level => if status < level then level else status) status)) := by
  induction ids generalizing status with
  | nil => simp
  | cons x rest ih =>
    simp only [List.foldl_cons, List.mem_cons, forall_eq_or_imp, exists_eq_or_imp]
    cases hx : getInstanceStatus s x with
    | none =>
      obtain ⟨h1, h2, h3⟩ := ih status
      refine ⟨h1, ⟨by simp, h2⟩, ?_⟩
      rcases h3 with h | h
      · exact Or.inl h
      · exact Or.inr (Or.inr h)
    | some level =>
      by_cases hlt : status < level
      · simp only [hlt, if_true]
        obtain ⟨h1, h2, h3⟩ := ih level
        refine ⟨by omega, ⟨?_, h2⟩, ?_⟩
        · intro l hl
          simp only [Option.some.injEq] at hl
          omega
        · rcases h3 with h | h
          · exact Or.inr (Or.inl (by rw [h]))
          · exact Or.inr (Or.inr h)
      · simp only [hlt, if_false]
        obtain ⟨h1, h2, h3⟩ := ih status
        refine ⟨h1, ⟨?_, h2⟩, ?_⟩
        · intro l hl
          simp only [Option.some.injEq] at hl
          omega
        · rcases h3 with h | h
          · exact Or.inl h
          · exact Or.inr (Or.inr h)

/-- C20: the status `checkBankStatus(page, bank)` computes, and leaves in the
status cache, is the maximum severity over the instances referenced by the
actions of all sets of the button, an instance without known status counting
as 0: it is at least the severity of every such instance, and it is 0 or the
severity of one of them; for a button without actions it is 0. -/
theorem checkBankStatus_maximum (s : State) (page bank : String) :
    (checkBankStatus s page bank).bank_status.get (page ++ "_" ++ bank) =
        some (combinedStatus s (referencedInstances (actionSetsOrEmpty s page bank))) ∧
      (∀ set actions action, (actionSetsOrEmpty s page bank).get set = some actions →
        action ∈ actions →
        severityOf s action.instanceId ≤
          combinedStatus s (referencedInstances (actionSetsOrEmpty s page bank))) ∧
      (combinedStatus s (referencedInstances (actionSetsOrEmpty s page bank)) = 0 ∨
        ∃ set actions action, (actionSetsOrEmpty s page bank).get set = some actions ∧
          action ∈ actions ∧
          combinedStatus s (referencedInstances (actionSetsOrEmpty s page bank)) =
            severityOf s action.instanceId) ∧
      ((∀ set actions, (actionSetsOrEmpty s page bank).get set = some actions → actions = []) →
        combinedStatus s (referencedInstances (actionSetsOrEmpty s page bank)) = 0) := by
  obtain ⟨h1, h2, h3⟩ :=
    combinedStatus_foldl s (referencedInstances (actionSetsOrEmpty s page bank)) 0
  have hexists : combinedStatus s (referencedInstances (actionSetsOrEmpty s page bank)) = 0 ∨
      ∃ set actions action, (actionSetsOrEmpty s page bank).get set = some actions ∧
        action ∈ actions ∧
        combinedStatus s (referencedInstances (actionSetsOrEmpty s page bank)) =
          severityOf s action.instanceId := by
    rcases h3 with h | ⟨id, hid, hlevel⟩
    · exact Or.inl h
    · obtain ⟨set, actions, hset, a, ha, hinst⟩ := (mem_referencedInstances _ _).mp hid
      refine Or.inr ⟨set, actions, a, hset, ha, ?_⟩
      unfold severityOf
      rw [hinst, hlevel]
      rfl
  refine ⟨?_, ?_, hexists, ?_⟩
  · unfold checkBankStatus
    simp only
    split
    · simp [State.emit, JsObject.get_set_self]
    · rename_i hcached
      simpa using hcached
  · intro set actions action hset haction
    have hmem : action.instanceId ∈ referencedInstances (actionSetsOrEmpty s page bank) :=
      (mem_referencedInstances _ _).mpr ⟨set, actions, hset, action, haction, rfl⟩
    unfold severityOf
    cases hlevel : getInstanceStatus s action.instanceId with
    | none => exact h1
    | some level => exact h2 _ hmem level hlevel
  · intro hempty
    rcases hexists with h | ⟨set, actions, action, hset, haction, -⟩
    · exact h
    · rw [hempty set actions hset] at haction
      simp at haction

/-- Witness of C20: on the example button, whose sets reference a module that
is ok, one with a warning and one without known status, the status is 1
(warning), although "down" alone references the ok module only. -/
theorem checkBankStatus_maximum_witness :
    combinedStatus exStatusButton (referencedInstances (actionSetsOrEmpty exStatusButton "1" "2")) =
        1 ∧
      (checkBankStatus exStatusButton "1" "2").bank_status.get ("1" ++ "_" ++ "2") = some 1 ∧
      severityOf exStatusButton "m2" ≤
        combinedStatus exStatusButton
          (referencedInstances (actionSetsOrEmpty exStatusButton "1" "2")) ∧
      combinedStatus {} (referencedInstances (actionSetsOrEmpty {} "1" "2")) = 0 :=
  ⟨by decide,
    (checkBankStatus_maximum exStatusButton "1" "2").1.trans (by decide),
    (checkBankStatus_maximum exStatusButton "1" "2").2.1 "up"
      [{ exInline "u" with instanceId := "m2" }, { exInline "v" with instanceId := "m3" }]
      { exInline "u" with instanceId := "m2" } (by decide) (by decide),
    (checkBankStatus_maximum {} "1" "2").2.2.2 (by
      intro set actions h
      simp [actionSetsOrEmpty, JsObject.get] at h)⟩

/-! ## Module deletion -/

/-- The loop of `deleteInstance` with the index at the end of `pre`: with fuel
for the rest of the list it returns the list without the actions of the
instance behind `pre`, and reports whether it removed one. -/
theorem deleteInstanceLoop_eq (instanceId : String) (suf pre : List Action) (fuel : Nat)
    (changed : Bool) (hfuel : suf.length ≤ fuel) :
    deleteInstanceLoop instanceId fuel (pre ++ suf) pre.length changed =
      (pre ++ suf.filter (fun a => a.instanceId ≠ instanceId),
        changed || suf.any (fun a => a.instanceId = instanceId)) := by
  induction suf generalizing pre fuel changed with
  | nil =>
    cases fuel with
    | zero => simp [deleteInstanceLoop]
    | succ n => simp [deleteInstanceLoop]
  | cons a rest ih =>
    cases fuel with
    | zero => simp at hfuel
    | succ n =>
      simp only [List.length_cons, Nat.add_le_add_iff_right] at hfuel
      have hget : (pre ++ a :: rest)[pre.length]? = some a := by
        rw [List.getElem?_append_right (Nat.le_refl _)]
        simp
      simp only [deleteInstanceLoop, hget]
      by_cases ha : a.instanceId = instanceId
      · have herase : (pre ++ a :: rest).eraseIdx pre.length = pre ++ rest := by
          rw [List.eraseIdx_append_of_length_le (Nat.le_refl _)]
          simp
        simp only [ha, if_true, herase]
        rw [ih pre n true hfuel]
        simp [List.filter_cons, ha]
      · have hsplit : pre ++ a :: rest = (pre ++ [a]) ++ rest := by simp
        have hlen : pre.length + 1 = (pre ++ [a]).length := by simp
        simp only [ha, if_false]
        rw [hsplit, hlen, ih (pre ++ [a]) n changed hfuel]
        simp [List.filter_cons, ha]

/-- The whole loop of `deleteInstance` on one action list. -/
theorem deleteInstanceLoop_filter (instanceId : String) (actions : List Action) :
    deleteInstanceLoop instanceId actions.length actions 0 false =
      (actions.filter (fun a => a.instanceId ≠ instanceId),
        actions.any (fun a => a.instanceId = instanceId)) := by
  have h := deleteInstanceLoop_eq instanceId actions [] actions.length false (Nat.le_refl _)
  simpa using h

theorem actionsAt_set_self (m : JsObject (JsObject (JsObject (List Action))))
    (banks : JsObject (JsObject (List Action))) (sets : JsObject (List Action))
    (page bank set : String) (v : List Action) :
    actionsAt (m.set page (banks.set bank (sets.set set v))) page bank set = some v := by
  simp [actionsAt, JsObject.get_set_self]

theorem actionsAt_set_other (m : JsObject (JsObject (JsObject (List Action))))
    (banks : JsObject (JsObject (List Action))) (sets : JsObject (List Action))
    (page bank set page' bank' set' : String) (v : List Action)
    (hpage : m.get page = some banks) (hbank : banks.get bank = some sets)
    (hne : (page', bank', set') ≠ (page, bank, set)) :
    actionsAt (m.set page (banks.set bank (sets.set set v))) page' bank' set' =
      actionsAt m page' bank' set' := by
  unfold actionsAt
  by_cases hp : page = page'
  · subst hp
    rw [JsObject.get_set_self, hpage]
    simp only
    by_cases hb : bank = bank'
    · subst hb
      rw [JsObject.get_set_self, hbank]
      simp only
      have hk : set ≠ set' := by
        intro h
        subst h
        exact hne rfl
      exact JsObject.get_set_other _ _ _ _ hk
    · rw [JsObject.get_set_other _ _ _ _ hb]
  · rw [JsObject.get_set_other _ _ _ _ hp]

theorem checkBankStatus_bank_action_sets (s : State) (page bank : String) :
    (checkBankStatus s page bank).bank_action_sets = s.bank_action_sets :=
  (checkBankStatus_frame s page bank).2.2.2.1

/-- One visit of `deleteInstance`: the visited list loses the actions of the
instance, every other list is left alone. -/
theorem deleteInstanceVisit_actionsAt (instanceId : String) (s : State)
    (place : String × String × String) (page bank set : String) :
    actionsAt (deleteInstanceVisit instanceId s place).bank_action_sets page bank set =
      if (page, bank, set) = place then
        (actionsAt s.bank_action_sets page bank set).map
          (fun actions => actions.filter (fun a => a.instanceId ≠ instanceId))
      else actionsAt s.bank_action_sets page bank set := by
  obtain ⟨p, b, k⟩ := place
  unfold deleteInstanceVisit
  simp only
  rcases Option.eq_none_or_eq_some (s.bank_action_sets.get p) with hp | ⟨banks, hp⟩
  · simp only [hp]
    split
    · rename_i heq
      simp only [Prod.mk.injEq] at heq
      obtain ⟨rfl, rfl, rfl⟩ := heq
      simp [actionsAt, hp]
    · rfl
  · rcases Option.eq_none_or_eq_some (banks.get b) with hb | ⟨sets, hb⟩
    · simp only [hp, hb]
      split
      · rename_i heq
        simp only [Prod.mk.injEq] at heq
        obtain ⟨rfl, rfl, rfl⟩ := heq
        simp [actionsAt, hp, hb]
      · rfl
    · rcases Option.eq_none_or_eq_some (sets.get k) with hk | ⟨actions, hk⟩
      · simp only [hp, hb, hk]
        split
        · rename_i heq
          simp only [Prod.mk.injEq] at heq
          obtain ⟨rfl, rfl, rfl⟩ := heq
          simp [actionsAt, hp, hb, hk]
        · rfl
      · simp only [hp, hb, hk, deleteInstanceLoop_filter]
        have hsets : ∀ st : State,
            (if actions.any (fun a => a.instanceId = instanceId) = true then
              checkBankStatus st p b else st).bank_action_sets = st.bank_action_sets := by
          intro st
          split
          · exact checkBankStatus_bank_action_sets _ _ _
          · rfl
        rw [hsets]
        simp only
        split
        · rename_i heq
          simp only [Prod.mk.injEq] at heq
          obtain ⟨rfl, rfl, rfl⟩ := heq
          rw [actionsAt_set_self]
          simp [actionsAt, hp, hb, hk]
        · rename_i hne
          exact actionsAt_set_other _ _ _ _ _ _ _ _ _ _ hp hb hne

/-- The visits of `deleteInstance` over a list of places. -/
theorem deleteInstanceVisit_foldl (instanceId : String)
    (places : List (String × String × String)) (s : State) (page bank set : String) :
    actionsAt (places.foldl (deleteInstanceVisit instanceId) s).bank_action_sets page bank set =
      if (page, bank, set) ∈ places then
        (actionsAt s.bank_action_sets page bank set).map
          (fun actions => actions.filter (fun a => a.instanceId ≠ instanceId))
      else actionsAt s.bank_action_sets page bank set := by
  induction places generalizing s with
  | nil => simp
  | cons place rest ih =>
    rw [List.foldl_cons, ih, deleteInstanceVisit_actionsAt]
    by_cases h1 : (page, bank, set) = place <;> by_cases h2 : (page, bank, set) ∈ rest
    · subst h1
      simp [h2, Option.map_map, Function.comp_def, List.filter_filter]
    · subst h1
      simp [h2]
    · have h3 : (page, bank, set) ∈ place :: rest := List.mem_cons_of_mem _ h2
      simp [h1, h2, h3]
    · have h3 : (page, bank, set) ∉ place :: rest := by
        simp only [List.mem_cons, not_or]
        exact ⟨h1, h2⟩
      simp [h1, h2, h3]

/-- `iterateActionSets` visits every action list there is. -/
theorem mem_actionSetPlaces (m : JsObject (JsObject (JsObject (List Action))))
    (page bank set : String) (actions : List Action)
    (h : actionsAt m page bank set = some actions) :
    (page, bank, set) ∈ actionSetPlaces m := by
  unfold actionsAt at h
  rcases Option.eq_none_or_eq_some (m.get page) with hp | ⟨banks, hp⟩
  · simp [hp] at h
  · rcases Option.eq_none_or_eq_some (banks.get bank) with hb | ⟨sets, hb⟩
    · simp [hp, hb] at h
    · simp only [hp, hb] at h
      unfold actionSetPlaces
      rw [List.mem_flatMap]
      refine ⟨page, (mem_objectKeys _ _).mpr (JsObject.mem_keys_of_get _ _ _ hp), ?_⟩
      simp only [hp]
      rw [List.mem_flatMap]
      refine ⟨bank, (mem_objectKeys _ _).mpr (JsObject.mem_keys_of_get _ _ _ hb), ?_⟩
      simp only [hb, List.mem_map]
      exact ⟨set, (mem_objectKeys _ _).mpr (JsObject.mem_keys_of_get _ _ _ h), rfl⟩

/-- C15: after `deleteInstance(instanceId)` every action list of every page
and button is the list it was before without the actions of the instance: no
action of the instance is left in any set, and the actions of the other
instances are all there in their original order; no list appears or
disappears. -/
theorem deleteInstance_cascades (s : State) (instanceId : String) (page bank set : String) :
    actionsAt (deleteInstance s instanceId).bank_action_sets page bank set =
        (actionsAt s.bank_action_sets page bank set).map
          (fun actions => actions.filter (fun a => a.instanceId ≠ instanceId)) ∧
      (∀ actions, actionsAt (deleteInstance s instanceId).bank_action_sets page bank set =
          some actions → ∀ a ∈ actions, a.instanceId ≠ instanceId) ∧
      (∀ before, actionsAt s.bank_action_sets page bank set = some before →
        ∃ after, actionsAt (deleteInstance s instanceId).bank_action_sets page bank set =
            some after ∧
          after.Sublist before ∧
          ∀ a ∈ before, a.instanceId ≠ instanceId → a ∈ after) := by
  have hmap : actionsAt (deleteInstance s instanceId).bank_action_sets page bank set =
      (actionsAt s.bank_action_sets page bank set).map
        (fun actions => actions.filter (fun a => a.instanceId ≠ instanceId)) := by
    have hfold := deleteInstanceVisit_foldl instanceId (actionSetPlaces s.bank_action_sets) s
      page bank set
    have hsets : (deleteInstance s instanceId).bank_action_sets =
        ((actionSetPlaces s.bank_action_sets).foldl (deleteInstanceVisit instanceId)
          s).bank_action_sets := rfl
    rw [hsets, hfold]
    split
    · rfl
    · rename_i hnot
      rcases Option.eq_none_or_eq_some (actionsAt s.bank_action_sets page bank set) with
        hn | ⟨actions, hsome⟩
      · simp [hn]
      · exact absurd (mem_actionSetPlaces _ _ _ _ _ hsome) hnot
  refine ⟨hmap, ?_, ?_⟩
  · intro actions hafter a ha
    rw [hmap] at hafter
    rcases Option.eq_none_or_eq_some (actionsAt s.bank_action_sets page bank set) with
      hn | ⟨before, hsome⟩
    · simp [hn] at hafter
    · simp only [hsome, Option.map_some', Option.some.injEq] at hafter
      subst hafter
      simpa using (List.mem_filter.mp ha).2
  · intro before hbefore
    refine ⟨before.filter (fun a => a.instanceId ≠ instanceId), ?_, List.filter_sublist _, ?_⟩
    · rw [hmap, hbefore]
      rfl
    · intro a ha hne
      exact List.mem_filter.mpr ⟨ha, by simpa using hne⟩

/-- Witness of C15: deleting module `m1` from the two example buttons leaves
the action of `m2` in "down" of button (1, 2), empties its "up" set and leaves
the action of `m2` in the step set of button (3, 4). -/
theorem deleteInstance_cascades_witness :
    (deleteInstance exTwoModules "m1").bank_action_sets =
        [("1", [("2", [("down", [{ exInline "b" with instanceId := "m2" }]), ("up", [])])]),
          ("3", [("4", [("0", [{ exInline "e" with instanceId := "m2" }])])])] ∧
      (∀ a ∈ [{ exInline "b" with instanceId := "m2" }], a.instanceId ≠ "m1") ∧
      (∃ after, actionsAt (deleteInstance exTwoModules "m1").bank_action_sets "3" "4" "0" =
          some after ∧
        after.Sublist [{ exInline "e" with instanceId := "m2" },
          { exInline "f" with instanceId := "m1" }] ∧
        ∀ a ∈ [{ exInline "e" with instanceId := "m2" },
          { exInline "f" with instanceId := "m1" }], a.instanceId ≠ "m1" → a ∈ after) :=
  ⟨by decide,
    (deleteInstance_cascades exTwoModules "m1" "1" "2" "down").2.1
      [{ exInline "b" with instanceId := "m2" }] (by decide),
    (deleteInstance_cascades exTwoModules "m1" "3" "4" "0").2.2
      [{ exInline "e" with instanceId := "m2" }, { exInline "f" with instanceId := "m1" }]
      (by decide)⟩

/-! ## The action-set store: lemmas -/

theorem ensureBank_of_exists (m : JsObject (JsObject (JsObject (List Action))))
    (banks : JsObject (JsObject (List Action))) (sets : JsObject (List Action))
    (page bank : String) (hpage : m.get page = some banks) (hbank : banks.get bank = some sets) :
    ensureBank m page bank = m := by
  simp [ensureBank, hpage, hbank]

theorem actionSetsOrEmpty_of_exists (s : State) (banks : JsObject (JsObject (List Action)))
    (sets : JsObject (List Action)) (page bank : String)
    (hpage : s.bank_action_sets.get page = some banks) (hbank : banks.get bank = some sets) :
    actionSetsOrEmpty s page bank = sets := by
  simp [actionSetsOrEmpty, hpage, hbank]

/-- `Object.keys` is a rearrangement of the keys of the object. -/
theorem objectKeys_perm {α : Type} (o : JsObject α) :
    (objectKeys o).Perm (o.map (fun e => e.1)) := by
  unfold objectKeys
  have hsorted : List.Perm
      (((List.filterMap (fun k => (arrayIndex k).map (fun n => (n, k)))
        (o.map (fun e => e.1))).insertionSort (fun a b => a.1 ≤ b.1)).map (fun e => e.2))
      ((o.map (fun e => e.1)).filter (fun k => (arrayIndex k).isSome)) := by
    refine ((List.perm_insertionSort _ _).map _).trans ?_
    apply List.Perm.of_eq
    generalize o.map (fun e => e.1) = ks
    induction ks with
    | nil => rfl
    | cons k rest ih =>
      rcases Option.eq_none_or_eq_some (arrayIndex k) with h | ⟨n, h⟩
      · simp [List.filterMap_cons, List.filter_cons, h, ih]
      · simp [List.filterMap_cons, List.filter_cons, h, ih]
  refine (List.Perm.append hsorted (List.Perm.refl _)).trans ?_
  have hpart := List.filter_append_perm (fun k => (arrayIndex k).isSome) (o.map (fun e => e.1))
  have hneg : (o.map (fun e => e.1)).filter (fun k => (arrayIndex k).isNone) =
      (o.map (fun e => e.1)).filter (fun k => !(arrayIndex k).isSome) := by
    apply List.filter_congr
    intro k _
    cases arrayIndex k <;> rfl
  rw [hneg]
  exact hpart

theorem objectKeys_length {α : Type} (o : JsObject α) : (objectKeys o).length = o.length := by
  rw [(objectKeys_perm o).length_eq, List.length_map]

theorem objectKeys_nodup {α : Type} (o : JsObject α) (h : (o.map (fun e => e.1)).Nodup) :
    (objectKeys o).Nodup :=
  (objectKeys_perm o).nodup_iff.mpr h

/-- Deleting a key of an object with distinct keys removes at most one
property. -/
theorem JsObject.length_delete {α : Type} (o : JsObject α) (k : String)
    (h : (o.map (fun e => e.1)).Nodup) : o.length ≤ (o.delete k).length + 1 := by
  unfold JsObject.delete
  induction o with
  | nil => simp
  | cons e rest ih =>
    simp only [List.map_cons, List.nodup_cons] at h
    by_cases hk : e.1 = k
    · have hrest : rest.filter (fun e' => decide (e'.1 ≠ k)) = rest := by
        rw [List.filter_eq_self]
        intro e' he'
        have : e'.1 ≠ k := by
          intro heq
          apply h.1
          rw [hk, ← heq]
          exact List.mem_map_of_mem _ he'
        exact decide_eq_true this
      rw [List.filter_cons_of_neg (by simpa using hk), hrest]
      simp
    · rw [List.filter_cons_of_pos (by simpa using hk)]
      have := ih h.2
      simp only [List.length_cons]
      omega

theorem JsObject.mem_keys_delete {α : Type} (o : JsObject α) (k k' : String) :
    k' ∈ (o.delete k).map (fun e => e.1) ↔ k' ∈ o.map (fun e => e.1) ∧ k' ≠ k := by
  simp only [JsObject.delete, List.mem_map, List.mem_filter, decide_eq_true_eq]
  constructor
  · rintro ⟨e, ⟨he, hne⟩, rfl⟩
    exact ⟨⟨e, he, rfl⟩, hne⟩
  · rintro ⟨⟨e, he, rfl⟩, hne⟩
    exact ⟨e, ⟨he, hne⟩, rfl⟩

theorem actionSetsOrEmpty_putSets (s : State) (banks : JsObject (JsObject (List Action)))
    (page bank : String) (v : JsObject (List Action))
    (hpage : s.bank_action_sets.get page = some banks) :
    actionSetsOrEmpty { s with bank_action_sets := putSets s.bank_action_sets page bank v } page
      bank = v := by
  simp [actionSetsOrEmpty, putSets, hpage, JsObject.get_set_self]

theorem bank_set_step_change_of_exists (s : State)
    (banks : JsObject (JsObject (List Action))) (sets : JsObject (List Action))
    (page bank : String) (value : Option String)
    (hpage : s.bank_action_sets.get page = some banks) (hbank : banks.get bank = some sets) :
    bank_set_step_change s page bank value =
      some ((s.emit (Event.system_bank_action_sets_step page bank
        (if findIndexFrom (fun k => some k = value) (objectKeys sets) 0 = -1 then 0
          else (findIndexFrom (fun k => some k = value) (objectKeys sets) 0).toNat))).emit
        (Event.io_bank_action_sets_step page bank value)) := by
  simp [bank_set_step_change, hpage, hbank]

/-- What `bank_set_remove` does on a step-style button with more than one
set when the cursors of the page exist: the set is deleted, the cursor is
overwritten, the step and the set list are announced. -/
theorem bank_set_remove_many (s : State) (banks : JsObject (JsObject (List Action)))
    (sets : JsObject (List Action)) (cursors : JsObject (Option String))
    (page bank id : String)
    (hstyle : (BankController.get s page bank).style = some "step")
    (hpage : s.bank_action_sets.get page = some banks) (hbank : banks.get bank = some sets)
    (hlen : 1 < sets.length) (hcursors : s.bank_cycle_step.get page = some cursors)
    (hmove : (if findIndexFrom (fun k => k = id) (objectKeys sets) 0 + 1 ≥
          ((objectKeys sets).length : Int) then (0 : Int)
        else findIndexFrom (fun k => k = id) (objectKeys sets) 0 + 1) ≠
      findIndexFrom (fun k => k = id) (objectKeys sets) 0) :
    ∃ s', bank_set_remove s page bank id = some s' ∧
      actionSetsOrEmpty s' page bank = sets.delete id ∧
      cursorOf s' page bank =
        arrayGet (objectKeys sets)
          (if findIndexFrom (fun k => k = id) (objectKeys sets) 0 + 1 ≥
              ((objectKeys sets).length : Int) then (0 : Int)
            else findIndexFrom (fun k => k = id) (objectKeys sets) 0 + 1) := by
  have hens := ensureBank_of_exists s.bank_action_sets banks sets page bank hpage hbank
  have hsets := actionSetsOrEmpty_of_exists s banks sets page bank hpage hbank
  have hkeys : 1 < (objectKeys sets).length := by
    rw [objectKeys_length]
    exact hlen
  have hchange := bank_set_step_change_of_exists
    { s with
      bank_action_sets := putSets s.bank_action_sets page bank (sets.delete id),
      bank_cycle_step := s.bank_cycle_step.set page
        (cursors.set bank (arrayGet (objectKeys sets)
          (if findIndexFrom (fun k => k = id) (objectKeys sets) 0 + 1 ≥
              ((objectKeys sets).length : Int) then (0 : Int)
            else findIndexFrom (fun k => k = id) (objectKeys sets) 0 + 1))) }
    (banks.set bank (sets.delete id)) (sets.delete id) page bank
    (arrayGet (objectKeys sets)
      (if findIndexFrom (fun k => k = id) (objectKeys sets) 0 + 1 ≥
          ((objectKeys sets).length : Int) then (0 : Int)
        else findIndexFrom (fun k => k = id) (objectKeys sets) 0 + 1))
    (by simp [putSets, hpage, JsObject.get_set_self]) (JsObject.get_set_self _ _ _)
  have heta : ({ s with bank_action_sets := s.bank_action_sets } : State) = s := rfl
  unfold bank_set_remove
  simp only [hens, heta, hstyle, if_true, hsets, hkeys, gt_iff_lt]
  unfold bank_set_remove_cursor
  simp only [hmove, ne_eq, not_false_eq_true, if_true, hcursors, hchange]
  refine ⟨_, rfl, ?_, ?_⟩
  · simp [emitSetsList, State.emit, actionSetsOrEmpty, putSets, hpage, JsObject.get_set_self]
  · simp [emitSetsList, State.emit, cursorOf, JsObject.get_set_self]

/-- What `bank_set_remove` does on a step-style button with at most one set:
only the set list is announced. -/
theorem bank_set_remove_few (s : State) (banks : JsObject (JsObject (List Action)))
    (sets : JsObject (List Action)) (page bank id : String)
    (hstyle : (BankController.get s page bank).style = some "step")
    (hpage : s.bank_action_sets.get page = some banks) (hbank : banks.get bank = some sets)
    (hlen : sets.length ≤ 1) :
    bank_set_remove s page bank id = some (emitSetsList s page bank) := by
  have hens := ensureBank_of_exists s.bank_action_sets banks sets page bank hpage hbank
  have hsets := actionSetsOrEmpty_of_exists s banks sets page bank hpage hbank
  have hkeys : ¬ 1 < (objectKeys sets).length := by
    rw [objectKeys_length]
    omega
  have heta : ({ s with bank_action_sets := s.bank_action_sets } : State) = s := rfl
  unfold bank_set_remove
  simp only [hens, heta, hstyle, if_true, hsets, hkeys, gt_iff_lt, if_false]

theorem bank_set_step_change_sets (s s' : State) (page bank : String) (value : Option String)
    (h : bank_set_step_change s page bank value = some s') :
    s'.bank_action_sets = s.bank_action_sets ∧ s'.bank_cycle_step = s.bank_cycle_step := by
  unfold bank_set_step_change at h
  split at h
  · simp at h
  · split at h
    · simp at h
    · simp only [Option.some.injEq] at h
      subst h
      exact ⟨rfl, rfl⟩

theorem bank_set_remove_cursor_sets (s s' : State) (page bank id : String)
    (oldKeys : List String) (h : bank_set_remove_cursor s page bank id oldKeys = some s') :
    s'.bank_action_sets = s.bank_action_sets := by
  unfold bank_set_remove_cursor at h
  simp only at h
  generalize (if findIndexFrom (fun k => decide (k = id)) oldKeys 0 + 1 ≥ (oldKeys.length : Int)
    then (0 : Int) else findIndexFrom (fun k => decide (k = id)) oldKeys 0 + 1) = newIndex at h
  by_cases hne : newIndex ≠ findIndexFrom (fun k => decide (k = id)) oldKeys 0
  · rw [if_pos hne] at h
    split at h
    · simp at h
    · split at h
      · simp at h
      · rename_i s2 hchange
        simp only [Option.some.injEq] at h
        subst h
        exact (bank_set_step_change_sets _ _ _ _ _ hchange).1
  · rw [if_neg hne] at h
    simp only [Option.some.injEq] at h
    subst h
    rfl

/-- Whenever `bank_set_remove` returns on a step-style button with more than
one set, the sets of the button are the old ones without the given id. -/
theorem bank_set_remove_sets (s s' : State) (banks : JsObject (JsObject (List Action)))
    (sets : JsObject (List Action)) (page bank id : String)
    (hstyle : (BankController.get s page bank).style = some "step")
    (hpage : s.bank_action_sets.get page = some banks) (hbank : banks.get bank = some sets)
    (hlen : 1 < sets.length) (h : bank_set_remove s page bank id = some s') :
    actionSetsOrEmpty s' page bank = sets.delete id := by
  have hens := ensureBank_of_exists s.bank_action_sets banks sets page bank hpage hbank
  have hsets := actionSetsOrEmpty_of_exists s banks sets page bank hpage hbank
  have hkeys : 1 < (objectKeys sets).length := by
    rw [objectKeys_length]
    exact hlen
  have heta : ({ s with bank_action_sets := s.bank_action_sets } : State) = s := rfl
  unfold bank_set_remove at h
  simp only [hens, heta, hstyle, if_true, hsets, hkeys, gt_iff_lt] at h
  split at h
  · simp at h
  · rename_i s2 hcursor
    simp only [Option.some.injEq] at h
    subst h
    have hs2 := bank_set_remove_cursor_sets _ _ _ _ _ _ hcursor
    simp only at hs2
    simp [emitSetsList, State.emit, actionSetsOrEmpty, hs2, putSets, hpage,
      JsObject.get_set_self]

/-- C19: `bank_set_remove` on a step-style button that has exactly one set
changes neither the set map nor the cursor (it only announces the unchanged
set list); and a step-style button that has at least one set still has at
least one after any `bank_set_remove` that returns. -/
theorem bank_set_remove_last_set (s : State) (banks : JsObject (JsObject (List Action)))
    (sets : JsObject (List Action)) (page bank id : String)
    (hstyle : (BankController.get s page bank).style = some "step")
    (hpage : s.bank_action_sets.get page = some banks) (hbank : banks.get bank = some sets)
    (hkeys : (sets.map (fun e => e.1)).Nodup) (hlen : 1 ≤ sets.length) :
    (sets.length = 1 →
        bank_set_remove s page bank id = some (emitSetsList s page bank) ∧
        (emitSetsList s page bank).bank_action_sets = s.bank_action_sets ∧
        (emitSetsList s page bank).bank_cycle_step = s.bank_cycle_step ∧
        (emitSetsList s page bank).events =
          s.events ++ [Event.io_bank_action_sets_list page bank (objectKeys sets)]) ∧
      (∀ s', bank_set_remove s page bank id = some s' →
        1 ≤ (actionSetsOrEmpty s' page bank).length) := by
  have hsets := actionSetsOrEmpty_of_exists s banks sets page bank hpage hbank
  refine ⟨?_, ?_⟩
  · intro hone
    refine ⟨bank_set_remove_few s banks sets page bank id hstyle hpage hbank (by omega),
      rfl, rfl, ?_⟩
    simp [emitSetsList, State.emit, hsets]
  · intro s' hs'
    by_cases hmany : 1 < sets.length
    · rw [bank_set_remove_sets s s' banks sets page bank id hstyle hpage hbank hmany hs']
      have := JsObject.length_delete sets id hkeys
      omega
    · rw [bank_set_remove_few s banks sets page bank id hstyle hpage hbank (by omega)] at hs'
      simp only [Option.some.injEq] at hs'
      subst hs'
      have : actionSetsOrEmpty (emitSetsList s page bank) page bank = sets := hsets
      rw [this]
      exact hlen

/-- Witness of C19: removing the only set `"0"` of the example step button
leaves its sets and its cursor as they were. -/
theorem bank_set_remove_last_set_witness :
    bank_set_remove exOneStep "1" "2" "0" = some (emitSetsList exOneStep "1" "2") ∧
      (emitSetsList exOneStep "1" "2").bank_action_sets = exOneStep.bank_action_sets ∧
      (∀ s', bank_set_remove exThreeSteps "1" "2" "1" = some s' →
        1 ≤ (actionSetsOrEmpty s' "1" "2").length) :=
  ⟨((bank_set_remove_last_set exOneStep [("2", [("0", [])])] [("0", [])] "1" "2" "0"
      (by decide) (by decide) (by decide) (by decide) (by decide)).1 (by decide)).1,
    ((bank_set_remove_last_set exOneStep [("2", [("0", [])])] [("0", [])] "1" "2" "0"
      (by decide) (by decide) (by decide) (by decide) (by decide)).1 (by decide)).2.1,
    (bank_set_remove_last_set exThreeSteps
      [("2", [("0", [exInline "a0"]), ("1", [exInline "a1"]), ("2", [exInline "a2"])])]
      [("0", [exInline "a0"]), ("1", [exInline "a1"]), ("2", [exInline "a2"])] "1" "2" "1"
      (by decide) (by decide) (by decide) (by decide) (by decide)).2⟩

theorem findIndexFrom_append (id : String) (pre post : List String) (i : Nat)
    (hpre : id ∉ pre) :
    findIndexFrom (fun k => decide (k = id)) (pre ++ id :: post) i = ((i + pre.length : Nat) : Int) := by
  induction pre generalizing i with
  | nil => simp [findIndexFrom]
  | cons x rest ih =>
    simp only [List.mem_cons, not_or] at hpre
    have hx : ¬ x = id := fun h => hpre.1 h.symm
    have hstep : findIndexFrom (fun k => decide (k = id)) (x :: rest ++ id :: post) i =
        findIndexFrom (fun k => decide (k = id)) (rest ++ id :: post) (i + 1) := by
      simp [findIndexFrom, hx]
    rw [hstep, ih (i + 1) hpre.2]
    simp only [List.length_cons]
    congr 1
    omega

/-- On an object whose keys are all array indices, `Object.keys` is in
ascending numeric order. -/
theorem objectKeys_sorted {α : Type} (o : JsObject α)
    (hidx : ∀ k ∈ o.map (fun e => e.1), arrayIndex k ≠ none) :
    List.Pairwise (fun a b => (arrayIndex a).getD 0 ≤ (arrayIndex b).getD 0) (objectKeys o) := by
  haveI : IsTotal (Nat × String) (fun a b => a.1 ≤ b.1) := ⟨fun a b => Nat.le_total a.1 b.1⟩
  haveI : IsTrans (Nat × String) (fun a b => a.1 ≤ b.1) :=
    ⟨fun a b c hab hbc => Nat.le_trans hab hbc⟩
  have hrest : (o.map (fun e => e.1)).filter (fun k => (arrayIndex k).isNone) = [] := by
    rw [List.filter_eq_nil_iff]
    intro k hk
    have := hidx k hk
    cases h : arrayIndex k with
    | none => exact absurd h this
    | some n => simp
  have hsorted := List.sorted_insertionSort (fun a b : Nat × String => a.1 ≤ b.1)
    (List.filterMap (fun k => (arrayIndex k).map (fun n => (n, k))) (o.map (fun e => e.1)))
  unfold objectKeys
  simp only [hrest, List.append_nil]
  rw [List.pairwise_map]
  refine List.Pairwise.imp_of_mem ?_ hsorted
  intro a b ha hb hab
  have hval : ∀ e : Nat × String,
      e ∈ (List.filterMap (fun k => (arrayIndex k).map (fun n => (n, k)))
        (o.map (fun e => e.1))).insertionSort (fun a b => a.1 ≤ b.1) →
      (arrayIndex e.2).getD 0 = e.1 := by
    intro e he
    rw [List.mem_insertionSort, List.mem_filterMap] at he
    obtain ⟨k, -, hk⟩ := he
    rcases Option.eq_none_or_eq_some (arrayIndex k) with h | ⟨n, h⟩
    · simp [h] at hk
    · simp only [h, Option.map_some', Option.some.injEq] at hk
      subst hk
      simp [h]
  rw [hval a ha, hval b hb]
  exact hab

/-- C18: for a step-style button with at least two sets whose ids are array
indices and whose cursor references the set id `X`, `bank_set_remove(page,
bank, X)` returns with the set `X` deleted and the other sets untouched, and
with the cursor at the id that follows `X` in the key order of the old sets,
which is ascending, or at the first id when `X` was the last; that id is the
id of a set that still exists. -/
theorem bank_set_remove_cursored (s : State) (banks : JsObject (JsObject (List Action)))
    (sets : JsObject (List Action)) (page bank X : String)
    (hstyle : (BankController.get s page bank).style = some "step")
    (hpage : s.bank_action_sets.get page = some banks) (hbank : banks.get bank = some sets)
    (hkeys : (sets.map (fun e => e.1)).Nodup) (hlen : 2 ≤ sets.length)
    (hidx : ∀ k ∈ sets.map (fun e => e.1), arrayIndex k ≠ none)
    (hcursor : cursorOf s page bank = some X) (hX : X ∈ sets.map (fun e => e.1)) :
    ∃ s' pre post, bank_set_remove s page bank X = some s' ∧
      actionSetsOrEmpty s' page bank = sets.delete X ∧
      X ∉ (actionSetsOrEmpty s' page bank).map (fun e => e.1) ∧
      objectKeys sets = pre ++ X :: post ∧
      List.Pairwise (fun a b => (arrayIndex a).getD 0 ≤ (arrayIndex b).getD 0)
        (objectKeys sets) ∧
      cursorOf s' page bank = (post ++ pre).head? ∧
      ∃ next, cursorOf s' page bank = some next ∧
        next ∈ (actionSetsOrEmpty s' page bank).map (fun e => e.1) := by
  have hmem : X ∈ objectKeys sets := (mem_objectKeys sets X).mpr hX
  obtain ⟨pre, post, hsplit⟩ := List.append_of_mem hmem
  have hnodup : (pre ++ X :: post).Nodup := by
    rw [← hsplit]
    exact objectKeys_nodup sets hkeys
  have hpre : X ∉ pre := by
    intro h
    have hdisj := (List.nodup_append.mp hnodup).2.2
    exact hdisj h (List.mem_cons_self _ _)
  have hpost : X ∉ post := by
    have := (List.nodup_append.mp hnodup).2.1
    exact (List.nodup_cons.mp this).1
  have hlength : (objectKeys sets).length = pre.length + 1 + post.length := by
    rw [hsplit]
    simp
    omega
  have hlen2 : 2 ≤ pre.length + 1 + post.length := by
    rw [← hlength, objectKeys_length]
    exact hlen
  obtain ⟨cursors, hcursors⟩ : ∃ cursors, s.bank_cycle_step.get page = some cursors := by
    unfold cursorOf at hcursor
    rcases Option.eq_none_or_eq_some (s.bank_cycle_step.get page) with h | ⟨c, h⟩
    · simp [h] at hcursor
    · exact ⟨c, h⟩
  have hindex : findIndexFrom (fun k => decide (k = X)) (objectKeys sets) 0 =
      (pre.length : Int) := by
    rw [hsplit, findIndexFrom_append X pre post 0 hpre]
    simp
  have hnew : (if findIndexFrom (fun k => decide (k = X)) (objectKeys sets) 0 + 1 ≥
        ((objectKeys sets).length : Int) then (0 : Int)
      else findIndexFrom (fun k => decide (k = X)) (objectKeys sets) 0 + 1) =
      if post = [] then (0 : Int) else (pre.length : Int) + 1 := by
    rw [hindex, hlength]
    cases post with
    | nil => simp
    | cons y ys =>
      simp only [List.length_cons, reduceCtorEq, if_false]
      rw [if_neg]
      push_cast
      omega
  have hmove : (if findIndexFrom (fun k => decide (k = X)) (objectKeys sets) 0 + 1 ≥
        ((objectKeys sets).length : Int) then (0 : Int)
      else findIndexFrom (fun k => decide (k = X)) (objectKeys sets) 0 + 1) ≠
      findIndexFrom (fun k => decide (k = X)) (objectKeys sets) 0 := by
    rw [hnew, hindex]
    cases post with
    | nil =>
      simp only [List.length_nil] at hlen2
      simp only [if_true]
      omega
    | cons y ys =>
      simp only [reduceCtorEq, if_false]
      omega
  obtain ⟨s', hs', hsets', hcur'⟩ := bank_set_remove_many s banks sets cursors page bank X
    hstyle hpage hbank (by omega) hcursors hmove
  have hhead : arrayGet (objectKeys sets) (if post = [] then (0 : Int) else (pre.length : Int) + 1) =
      (post ++ pre).head? := by
    rw [hsplit]
    cases post with
    | nil =>
      cases pre with
      | nil => simp at hlen2
      | cons x xs => simp [arrayGet]
    | cons y ys =>
      simp only [reduceCtorEq, if_false, arrayGet]
      have h0 : (0 : Int) ≤ (pre.length : Int) + 1 := by omega
      have htn : ((pre.length : Int) + 1).toNat = pre.length + 1 := by omega
      rw [if_pos h0, htn, List.getElem?_append_right (by omega)]
      simp
  have hcur : cursorOf s' page bank = (post ++ pre).head? := by
    rw [hcur', hnew, hhead]
  obtain ⟨next, hnext⟩ : ∃ next, (post ++ pre).head? = some next := by
    cases post with
    | nil =>
      cases pre with
      | nil => simp at hlen2
      | cons x xs => exact ⟨x, rfl⟩
    | cons y ys => exact ⟨y, rfl⟩
  have hnextmem : next ∈ post ++ pre := List.mem_of_mem_head? hnext
  have hnextne : next ≠ X := by
    intro h
    subst h
    rcases List.mem_append.mp hnextmem with h | h
    · exact hpost h
    · exact hpre h
  have hnextkeys : next ∈ sets.map (fun e => e.1) := by
    rw [← mem_objectKeys, hsplit]
    rcases List.mem_append.mp hnextmem with h | h
    · exact List.mem_append_right _ (List.mem_cons_of_mem _ h)
    · exact List.mem_append_left _ h
  refine ⟨s', pre, post, hs', hsets', ?_, hsplit, objectKeys_sorted sets hidx, hcur, next,
    hcur.trans hnext, ?_⟩
  · rw [hsets', JsObject.mem_keys_delete]
    exact fun h => h.2 rfl
  · rw [hsets', JsObject.mem_keys_delete]
    exact ⟨hnextkeys, hnextne⟩

/-- Witness of C18: on the example button with sets `"0"`, `"1"`, `"2"` and the
cursor at `"1"`, removing `"1"` leaves the sets `"0"` and `"2"` and the cursor
at `"2"`. -/
theorem bank_set_remove_cursored_witness :
    ∃ s' pre post, bank_set_remove exThreeSteps "1" "2" "1" = some s' ∧
      actionSetsOrEmpty s' "1" "2" =
        JsObject.delete [("0", [exInline "a0"]), ("1", [exInline "a1"]), ("2", [exInline "a2"])]
          "1" ∧
      "1" ∉ (actionSetsOrEmpty s' "1" "2").map (fun e => e.1) ∧
      objectKeys [("0", [exInline "a0"]), ("1", [exInline "a1"]), ("2", [exInline "a2"])] =
        pre ++ "1" :: post ∧
      List.Pairwise (fun a b => (arrayIndex a).getD 0 ≤ (arrayIndex b).getD 0)
        (objectKeys [("0", [exInline "a0"]), ("1", [exInline "a1"]), ("2", [exInline "a2"])]) ∧
      cursorOf s' "1" "2" = (post ++ pre).head? ∧
      ∃ next, cursorOf s' "1" "2" = some next ∧
        next ∈ (actionSetsOrEmpty s' "1" "2").map (fun e => e.1) :=
  bank_set_remove_cursored exThreeSteps
    [("2", [("0", [exInline "a0"]), ("1", [exInline "a1"]), ("2", [exInline "a2"])])]
    [("0", [exInline "a0"]), ("1", [exInline "a1"]), ("2", [exInline "a2"])] "1" "2" "1"
    (by decide) (by decide) (by decide) (by decide) (by decide) (by decide) (by decide)
    (by decide)

/-! ## Numeric set ids -/

theorem digit_char_facts (d : Nat) (hd : d < 10) :
    digitValue (Char.ofNat (48 + d)) = some d ∧ isDecimalDigit (Char.ofNat (48 + d)) = true ∧
      isStrWhiteSpace (Char.ofNat (48 + d)) = false := by
  interval_cases d <;> decide

theorem decimalDigits_all (fuel n : Nat) :
    ∀ c ∈ decimalDigits fuel n, isDecimalDigit c = true ∧ isStrWhiteSpace c = false := by
  induction fuel generalizing n with
  | zero => simp [decimalDigits]
  | succ f ih =>
    intro c hc
    unfold decimalDigits at hc
    split at hc
    · rename_i hlt
      simp only [List.mem_singleton] at hc
      subst hc
      exact (digit_char_facts n hlt).2
    · simp only [List.mem_append, List.mem_singleton] at hc
      rcases hc with h | h
      · exact ih _ c h
      · subst h
        exact (digit_char_facts (n % 10) (Nat.mod_lt _ (by decide))).2

theorem decimalDigits_ne_nil (fuel n : Nat) : decimalDigits (fuel + 1) n ≠ [] := by
  unfold decimalDigits
  split <;> simp

theorem digitsValue_append (radix : Nat) (cs : List Char) (c : Char) :
    digitsValue radix (cs ++ [c]) = digitsValue radix cs * radix + (digitValue c).getD 0 := by
  simp [digitsValue, List.foldl_append]

/-- Reading back the decimal digits of a number gives the number. -/
theorem digitsValue_decimalDigits (fuel n : Nat) (h : n < fuel) :
    digitsValue 10 (decimalDigits fuel n) = n := by
  induction fuel generalizing n with
  | zero => omega
  | succ f ih =>
    unfold decimalDigits
    split
    · rename_i hlt
      simp [digitsValue, (digit_char_facts n hlt).1]
    · rename_i hge
      rw [digitsValue_append, ih (n / 10) (by omega),
        (digit_char_facts (n % 10) (Nat.mod_lt _ (by decide))).1]
      simp only [Option.getD_some]
      omega

theorem dropWhile_of_head {α : Type} (p : α → Bool) (c : α) (cs : List α)
    (h : p c = false) : (c :: cs).dropWhile p = c :: cs := by
  simp [List.dropWhile, h]

/-- A string without white space is its own trimmed form. -/
theorem trimWhiteSpace_of_none (cs : List Char) (h : ∀ c ∈ cs, isStrWhiteSpace c = false) :
    trimWhiteSpace cs = cs := by
  have hdrop : ∀ l : List Char, (∀ c ∈ l, isStrWhiteSpace c = false) →
      l.dropWhile isStrWhiteSpace = l := by
    intro l hl
    cases l with
    | nil => rfl
    | cons c rest => exact dropWhile_of_head _ _ _ (hl c (List.mem_cons_self _ _))
  unfold trimWhiteSpace
  rw [hdrop cs h, hdrop cs.reverse (fun c hc => h c (List.mem_reverse.mp hc)),
    List.reverse_reverse]

/-- `Number` reads the string of an integer back as that integer. -/
theorem stringToNumber_intToString (n : Int) :
    stringToNumber (intToString n) = some (JsNumber.int n) := by
  have hall := decimalDigits_all (n.natAbs + 1) n.natAbs
  have hval := digitsValue_decimalDigits (n.natAbs + 1) n.natAbs (Nat.lt_succ_self _)
  have hne := decimalDigits_ne_nil n.natAbs n.natAbs
  unfold intToString
  by_cases hneg : n < 0
  · simp only [hneg, if_true]
    have htrim : trimWhiteSpace (Char.ofNat 45 :: decimalDigits (n.natAbs + 1) n.natAbs) =
        Char.ofNat 45 :: decimalDigits (n.natAbs + 1) n.natAbs := by
      apply trimWhiteSpace_of_none
      intro c hc
      rcases List.mem_cons.mp hc with h | h
      · subst h
        decide
      · exact (hall c h).2
    have hdigits : (decimalDigits (n.natAbs + 1) n.natAbs).all isDecimalDigit = true := by
      rw [List.all_eq_true]
      exact fun c hc => (hall c hc).1
    unfold stringToNumber
    simp only [htrim]
    have hfirst : ¬ ((Char.ofNat 45 :: decimalDigits (n.natAbs + 1) n.natAbs).all
        isDecimalDigit = true) := by
      simp only [List.all_cons, Bool.and_eq_true, not_and]
      intro h
      exact absurd h (by decide)
    have hminus : (Char.ofNat 45).toNat = 45 := by decide
    rw [if_neg hfirst, if_pos ⟨hminus, hne, hdigits⟩, hval]
    congr 2
    omega
  · simp only [hneg, if_false]
    have htrim : trimWhiteSpace (decimalDigits (n.natAbs + 1) n.natAbs) =
        decimalDigits (n.natAbs + 1) n.natAbs :=
      trimWhiteSpace_of_none _ (fun c hc => (hall c hc).2)
    unfold stringToNumber
    simp only [htrim]
    rcases hlist : decimalDigits (n.natAbs + 1) n.natAbs with _ | ⟨c, cs⟩
    · exact absurd hlist hne
    · have hdigits : (c :: cs).all isDecimalDigit = true := by
        rw [List.all_eq_true]
        intro x hx
        rw [← hlist] at hx
        exact (hall x hx).1
      simp only
      rw [if_pos hdigits, ← hlist, hval]
      congr 2
      omega

/-- The numbers among the keys are the values of the keys that are numeric. -/
theorem mem_numbersOfKeys (keys : List String) (ns : List Int)
    (h : numbersOfKeys keys = some ns) (n : Int) :
    n ∈ ns ↔ ∃ k ∈ keys, stringToNumber k = some (JsNumber.int n) := by
  induction keys generalizing ns with
  | nil =>
    simp only [numbersOfKeys, Option.some.injEq] at h
    subst h
    simp
  | cons k rest ih =>
    unfold numbersOfKeys at h
    rcases Option.eq_none_or_eq_some (numbersOfKeys rest) with hr | ⟨ms, hr⟩
    · rw [hr] at h
      split at h <;> simp_all
    · rw [hr] at h
      rcases Option.eq_none_or_eq_some (stringToNumber k) with hk | ⟨v, hk⟩
      · rw [hk] at h
        simp at h
      · rw [hk] at h
        cases v with
        | nan =>
          simp only [Option.some.injEq] at h
          subst h
          rw [ih ms hr]
          simp [hk]
        | int m =>
          simp only [Option.some.injEq] at h
          subst h
          simp only [List.mem_cons, ih ms hr, exists_eq_or_imp, hk, Option.some.injEq,
            JsNumber.int.injEq]
          constructor
          · rintro (h | h)
            · exact Or.inl h.symm
            · exact Or.inr h
          · rintro (h | h)
            · exact Or.inl h.symm
            · exact Or.inr h

/-- `Math.max` of a non-empty list is one of its elements and bounds them all. -/
theorem mathMax_spec (n : Int) (ns : List Int) :
    mathMax n ns ∈ n :: ns ∧ ∀ m ∈ n :: ns, m ≤ mathMax n ns := by
  induction ns generalizing n with
  | nil => simp [mathMax]
  | cons k rest ih =>
    have hstep : mathMax n (k :: rest) = mathMax (if n < k then k else n) rest := rfl
    rw [hstep]
    by_cases hlt : n < k
    · simp only [hlt, if_true]
      obtain ⟨h1, h2⟩ := ih k
      refine ⟨List.mem_cons_of_mem _ h1, ?_⟩
      intro m hm
      have hbase := h2 k (List.mem_cons_self _ _)
      rcases List.mem_cons.mp hm with h | h
      · subst h
        omega
      · exact h2 m h
    · simp only [hlt, if_false]
      obtain ⟨h1, h2⟩ := ih n
      refine ⟨?_, ?_⟩
      · rcases List.mem_cons.mp h1 with h | h
        · rw [h]
          exact List.mem_cons_self _ _
        · exact List.mem_cons_of_mem _ (List.mem_cons_of_mem _ h)
      · intro m hm
        have hbase := h2 n (List.mem_cons_self _ _)
        rcases List.mem_cons.mp hm with h | h
        · subst h
          exact hbase
        · rcases List.mem_cons.mp h with h' | h'
          · subst h'
            omega
          · exact h2 m (List.mem_cons_of_mem _ h')

/-- The key `bank_set_append` picks is not a key of the button, and as a
number it is above every numeric key. -/
theorem appendedKey_fresh (keys : List String) (ns : List Int)
    (h : numbersOfKeys keys = some ns) :
    appendedKey ns ∉ keys ∧
      ∃ m, stringToNumber (appendedKey ns) = some (JsNumber.int m) ∧
        ∀ k ∈ keys, ∀ n, stringToNumber k = some (JsNumber.int n) → n < m := by
  cases ns with
  | nil =>
    have hnone : ∀ k ∈ keys, ∀ n, stringToNumber k ≠ some (JsNumber.int n) := by
      intro k hk n hn
      have := (mem_numbersOfKeys keys [] h n).mpr ⟨k, hk, hn⟩
      simp at this
    refine ⟨?_, 0, by decide, ?_⟩
    · intro hmem
      exact hnone "0" hmem 0 (by decide)
    · intro k hk n hn
      exact absurd hn (hnone k hk n)
  | cons n ns =>
    obtain ⟨-, hmax⟩ := mathMax_spec n ns
    have hround := stringToNumber_intToString (mathMax n ns + 1)
    have hbound : ∀ k ∈ keys, ∀ m, stringToNumber k = some (JsNumber.int m) →
        m < mathMax n ns + 1 := by
      intro k hk m hm
      have := hmax m ((mem_numbersOfKeys keys (n :: ns) h m).mpr ⟨k, hk, hm⟩)
      omega
    refine ⟨?_, mathMax n ns + 1, hround, hbound⟩
    intro hmem
    have := hbound _ hmem _ hround
    omega

/-! ## Appending a step set -/

/-- Writing a property that is not there appends it. -/
theorem JsObject.set_of_not_mem {α : Type} (o : JsObject α) (k : String) (v : α)
    (h : k ∉ o.map (fun e => e.1)) : o.set k v = o ++ [(k, v)] := by
  induction o with
  | nil => rfl
  | cons e rest ih =>
    simp only [List.map_cons, List.mem_cons, not_or] at h
    obtain ⟨k', v'⟩ := e
    have hne : ¬ k' = k := fun hk => h.1 hk.symm
    simp [JsObject.set, hne, ih h.2]

/-- The guards of `bank_set_append` add no set to any button. -/
theorem actionSetsOrEmpty_ensureBank (s : State) (page bank page' bank' : String) :
    actionSetsOrEmpty { s with bank_action_sets := ensureBank s.bank_action_sets page bank }
      page' bank' = actionSetsOrEmpty s page' bank' := by
  unfold actionSetsOrEmpty ensureBank
  simp only
  rcases Option.eq_none_or_eq_some (s.bank_action_sets.get page) with hp | ⟨banks, hp⟩
  · simp only [hp, JsObject.get_set_self, JsObject.get]
    by_cases hpp : page = page'
    · subst hpp
      simp only [JsObject.get_set_self, hp]
      by_cases hbb : bank = bank'
      · subst hbb
        simp [JsObject.set, JsObject.get]
      · simp [JsObject.set, JsObject.get, hbb]
    · rw [JsObject.get_set_other _ _ _ _ hpp, JsObject.get_set_other _ _ _ _ hpp]
  · simp only [hp]
    rcases Option.eq_none_or_eq_some (banks.get bank) with hb | ⟨sets, hb⟩
    · simp only [hb]
      by_cases hpp : page = page'
      · subst hpp
        simp only [JsObject.get_set_self, hp]
        by_cases hbb : bank = bank'
        · subst hbb
          simp [JsObject.get_set_self, hb]
        · rw [JsObject.get_set_other _ _ _ _ hbb]
      · rw [JsObject.get_set_other _ _ _ _ hpp]
    · simp only [hb]

/-- After the guards the page has an object. -/
theorem ensureBank_get_page (m : JsObject (JsObject (JsObject (List Action))))
    (page bank : String) : ∃ banks, (ensureBank m page bank).get page = some banks := by
  unfold ensureBank
  simp only
  rcases Option.eq_none_or_eq_some (m.get page) with hp | ⟨banks, hp⟩
  · simp only [hp, JsObject.get_set_self, JsObject.get]
    exact ⟨_, rfl⟩
  · simp only [hp]
    rcases Option.eq_none_or_eq_some (banks.get bank) with hb | ⟨sets, hb⟩
    · simp only [hb]
      exact ⟨_, JsObject.get_set_self _ _ _⟩
    · simp only [hb]
      exact ⟨banks, hp⟩

/-- Assigning the sets of one button leaves the sets of every other button. -/
theorem actionSetsOrEmpty_putSets_other (s : State) (m : JsObject (JsObject (JsObject (List Action))))
    (banks : JsObject (JsObject (List Action))) (page bank page' bank' : String)
    (v : JsObject (List Action)) (hpage : m.get page = some banks)
    (hne : (page', bank') ≠ (page, bank)) :
    actionSetsOrEmpty { s with bank_action_sets := putSets m page bank v } page' bank' =
      actionSetsOrEmpty { s with bank_action_sets := m } page' bank' := by
  unfold actionSetsOrEmpty putSets
  simp only [hpage]
  by_cases hpp : page = page'
  · subst hpp
    have hbb : bank ≠ bank' := by
      intro h
      subst h
      exact hne rfl
    rw [JsObject.get_set_self, hpage]
    simp only
    rw [JsObject.get_set_other _ _ _ _ hbb]
  · rw [JsObject.get_set_other _ _ _ _ hpp]

/-- `bank_set_append` on a step-style button whose set ids are within the
model of numbers. -/
theorem bank_set_append_step (s : State) (page bank : String) (ns : List Int)
    (hstyle : (BankController.get s page bank).style = some "step")
    (hnum : numbersOfKeys (objectKeys (actionSetsOrEmpty s page bank)) = some ns) :
    ∃ s', bank_set_append s page bank = some s' ∧
      actionSetsOrEmpty s' page bank =
        actionSetsOrEmpty s page bank ++ [(appendedKey ns, [])] ∧
      (∀ page' bank', (page', bank') ≠ (page, bank) →
        actionSetsOrEmpty s' page' bank' = actionSetsOrEmpty s page' bank') ∧
      s'.bank_cycle_step = s.bank_cycle_step := by
  obtain ⟨banks, hbanks⟩ := ensureBank_get_page s.bank_action_sets page bank
  have hsets := actionSetsOrEmpty_ensureBank s page bank page bank
  have hstyle1 : (BankController.get
      { s with bank_action_sets := ensureBank s.bank_action_sets page bank } page bank).style =
      some "step" := hstyle
  have hfresh : appendedKey ns ∉ (actionSetsOrEmpty s page bank).map (fun e => e.1) := by
    rw [← mem_objectKeys]
    exact (appendedKey_fresh _ ns hnum).1
  unfold bank_set_append
  simp only [hstyle1, if_true, hsets, hnum]
  refine ⟨_, rfl, ?_, ?_, rfl⟩
  · have h := actionSetsOrEmpty_putSets
      { s with bank_action_sets := ensureBank s.bank_action_sets page bank } banks page bank
      ((actionSetsOrEmpty s page bank).set (appendedKey ns) []) hbanks
    simp only [emitSetsList, State.emit] at h ⊢
    rw [← JsObject.set_of_not_mem _ _ _ hfresh]
    exact h
  · intro page' bank' hne
    have h := actionSetsOrEmpty_putSets_other s (ensureBank s.bank_action_sets page bank) banks
      page bank page' bank' ((actionSetsOrEmpty s page bank).set (appendedKey ns) []) hbanks hne
    rw [actionSetsOrEmpty_ensureBank] at h
    simp only [emitSetsList, State.emit] at h ⊢
    exact h

/-- C16: for a step-style button (whose set ids are within the model of
numbers and, as numbers, of magnitude below `2^53`, where `max + 1` is exact)
`bank_set_append` adds exactly one set, empty and behind the existing ones,
which are unchanged; its id is `"0"` when no set id is numeric and otherwise
the largest numeric set id plus one (of magnitude at most `2^53`), an id the
button does not have yet; the sets of the other buttons are unchanged.  For a
button of any other style the sets of every button are unchanged. -/
theorem bank_set_append_new_set (s : State) (page bank : String) :
    ((BankController.get s page bank).style = some "step" →
        ∀ ns, numbersOfKeys (objectKeys (actionSetsOrEmpty s page bank)) = some ns →
        (∀ n ∈ ns, n.natAbs < 2 ^ 53) →
        ∃ s', bank_set_append s page bank = some s' ∧
          actionSetsOrEmpty s' page bank =
            actionSetsOrEmpty s page bank ++ [(appendedKey ns, [])] ∧
          appendedKey ns ∉ (actionSetsOrEmpty s page bank).map (fun e => e.1) ∧
          (∀ n, n ∈ ns ↔ ∃ k ∈ (actionSetsOrEmpty s page bank).map (fun e => e.1),
            stringToNumber k = some (JsNumber.int n)) ∧
          (ns = [] → appendedKey ns = "0") ∧
          (∀ n rest, ns = n :: rest →
            appendedKey ns = intToString (mathMax n rest + 1) ∧ mathMax n rest ∈ ns ∧
              (∀ m ∈ ns, m ≤ mathMax n rest) ∧ (mathMax n rest + 1).natAbs ≤ 2 ^ 53) ∧
          (∀ page' bank', (page', bank') ≠ (page, bank) →
            actionSetsOrEmpty s' page' bank' = actionSetsOrEmpty s page' bank')) ∧
      ((BankController.get s page bank).style ≠ some "step" →
        ∃ s', bank_set_append s page bank = some s' ∧
          ∀ page' bank', actionSetsOrEmpty s' page' bank' = actionSetsOrEmpty s page' bank') := by
  refine ⟨?_, ?_⟩
  · intro hstyle ns hnum hsafe
    obtain ⟨s', h1, h2, h3, -⟩ := bank_set_append_step s page bank ns hstyle hnum
    refine ⟨s', h1, h2, ?_, ?_, ?_, ?_, h3⟩
    · rw [← mem_objectKeys]
      exact (appendedKey_fresh _ ns hnum).1
    · intro n
      rw [mem_numbersOfKeys _ ns hnum n]
      constructor
      · rintro ⟨k, hk, hn⟩
        exact ⟨k, (mem_objectKeys _ _).mp hk, hn⟩
      · rintro ⟨k, hk, hn⟩
        exact ⟨k, (mem_objectKeys _ _).mpr hk, hn⟩
    · intro hnil
      rw [hnil]
      rfl
    · intro n rest hcons
      have hmax := hsafe (mathMax n rest) (by rw [hcons]; exact (mathMax_spec n rest).1)
      have hpow : (2 : Nat) ^ 53 = 9007199254740992 := by norm_num
      rw [hpow] at hmax ⊢
      rw [hcons]
      exact ⟨rfl, (mathMax_spec n rest).1, (mathMax_spec n rest).2, by omega⟩
  · intro hstyle
    have hstyle1 : ¬ (BankController.get
        { s with bank_action_sets := ensureBank s.bank_action_sets page bank } page bank).style =
        some "step" := hstyle
    unfold bank_set_append
    simp only [hstyle1, if_false]
    refine ⟨_, rfl, ?_⟩
    intro page' bank'
    exact actionSetsOrEmpty_ensureBank s page bank page' bank'

/-- Witness of C16: on the example button with sets `"0"`, `"1"`, `"2"` the new
set is `"3"`; the example press-style button keeps its sets. -/
theorem bank_set_append_new_set_witness :
    (∃ s', bank_set_append exThreeSteps "1" "2" = some s' ∧
        actionSetsOrEmpty s' "1" "2" =
          actionSetsOrEmpty exThreeSteps "1" "2" ++ [("3", [])]) ∧
      (∃ s', bank_set_append exPressButton "1" "2" = some s' ∧
        ∀ page' bank', actionSetsOrEmpty s' page' bank' =
          actionSetsOrEmpty exPressButton page' bank') :=
  ⟨by
      obtain ⟨s', h1, h2, -⟩ := (bank_set_append_new_set exThreeSteps "1" "2").1 (by decide)
        [0, 1, 2] (by decide) (by decide)
      exact ⟨s', h1, h2.trans (by decide)⟩,
    (bank_set_append_new_set exPressButton "1" "2").2 (by decide)⟩

/-- C17 fails as stated: on the example step button with the one set `"0"`,
appending gives the set `"1"`, removing `"1"` leaves `"0"`, and appending
again gives the id `"1"` a second time. -/
theorem bank_set_append_reuse_counterexample :
    (bank_set_append exOneStep "1" "2").map
        (fun s1 => objectKeys (actionSetsOrEmpty s1 "1" "2")) = some ["0", "1"] ∧
      ((bank_set_append exOneStep "1" "2").bind
        (fun s1 => bank_set_remove s1 "1" "2" "1")).map
        (fun s2 => objectKeys (actionSetsOrEmpty s2 "1" "2")) = some ["0"] ∧
      (((bank_set_append exOneStep "1" "2").bind
        (fun s1 => bank_set_remove s1 "1" "2" "1")).bind
        (fun s2 => bank_set_append s2 "1" "2")).map
        (fun s3 => objectKeys (actionSetsOrEmpty s3 "1" "2")) = some ["0", "1"] := by
  decide

/-- C17 as amended: for a step-style button (whose set ids are within the
model of numbers and, as numbers, of magnitude below `2^53`, where `max + 1`
is exact) the id given to a newly appended set is, as a number, above every
numeric id the button has at that moment (and of magnitude at most `2^53`),
and so it is never the id of a set the button still has; nothing keeps it from
being an id that was removed before. -/
theorem bank_set_append_above_existing (s : State) (page bank : String) (ns : List Int)
    (hstyle : (BankController.get s page bank).style = some "step")
    (hnum : numbersOfKeys (objectKeys (actionSetsOrEmpty s page bank)) = some ns)
    (hsafe : ∀ n ∈ ns, n.natAbs < 2 ^ 53) :
    ∃ s' id, bank_set_append s page bank = some s' ∧
      (actionSetsOrEmpty s' page bank).map (fun e => e.1) =
        (actionSetsOrEmpty s page bank).map (fun e => e.1) ++ [id] ∧
      id ∉ (actionSetsOrEmpty s page bank).map (fun e => e.1) ∧
      ∃ m, stringToNumber id = some (JsNumber.int m) ∧ m.natAbs ≤ 2 ^ 53 ∧
        ∀ k ∈ (actionSetsOrEmpty s page bank).map (fun e => e.1), ∀ n,
          stringToNumber k = some (JsNumber.int n) → n < m := by
  obtain ⟨s', h1, h2, -, -⟩ := bank_set_append_step s page bank ns hstyle hnum
  obtain ⟨hfresh, m, hm, hbound⟩ := appendedKey_fresh _ ns hnum
  have hsize : m.natAbs ≤ 2 ^ 53 := by
    have hpow : (2 : Nat) ^ 53 = 9007199254740992 := by norm_num
    cases ns with
    | nil =>
      have h0 : stringToNumber (appendedKey []) = some (JsNumber.int 0) := by decide
      rw [h0] at hm
      injection hm with hm1
      injection hm1 with hm2
      rw [← hm2]
      decide
    | cons n rest =>
      have hmax := hsafe (mathMax n rest) (mathMax_spec n rest).1
      have hkey : stringToNumber (appendedKey (n :: rest)) =
          some (JsNumber.int (mathMax n rest + 1)) := stringToNumber_intToString _
      rw [hkey] at hm
      injection hm with hm1
      injection hm1 with hm2
      rw [hpow] at hmax ⊢
      omega
  refine ⟨s', appendedKey ns, h1, ?_, ?_, m, hm, hsize, ?_⟩
  · rw [h2]
    simp
  · rw [← mem_objectKeys]
    exact hfresh
  · intro k hk n hn
    exact hbound k ((mem_objectKeys _ _).mpr hk) n hn

/-- Witness of the amended C17: on the example button with sets `"0"`, `"1"`,
`"2"` the appended id is above 0, 1 and 2. -/
theorem bank_set_append_above_existing_witness :
    ∃ s' id, bank_set_append exThreeSteps "1" "2" = some s' ∧
      (actionSetsOrEmpty s' "1" "2").map (fun e => e.1) =
        (actionSetsOrEmpty exThreeSteps "1" "2").map (fun e => e.1) ++ [id] ∧
      id ∉ (actionSetsOrEmpty exThreeSteps "1" "2").map (fun e => e.1) ∧
      ∃ m, stringToNumber id = some (JsNumber.int m) ∧ m.natAbs ≤ 2 ^ 53 ∧
        ∀ k ∈ (actionSetsOrEmpty exThreeSteps "1" "2").map (fun e => e.1), ∀ n,
          stringToNumber k = some (JsNumber.int n) → n < m :=
  bank_set_append_above_existing exThreeSteps "1" "2" [0, 1, 2] (by decide) (by decide)
    (by decide)

/-! ## The status cache -/

/-- A status that differs from the cached one is cached and the button is
redrawn. -/
theorem checkBankStatus_of_ne (s : State) (page bank : String) (st : Int)
    (hst : combinedStatus s (referencedInstances (actionSetsOrEmpty s page bank)) = st)
    (h : s.bank_status.get (page ++ "_" ++ bank) ≠ some st) :
    checkBankStatus s page bank =
      ({ s with bank_status := s.bank_status.set (page ++ "_" ++ bank) st }).emit
        (Event.graphics_invalidateBank page bank) := by
  subst hst
  unfold checkBankStatus
  simp only [h, ne_eq, not_false_eq_true, if_true]

/-- A status equal to the cached one leaves the state as it is. -/
theorem checkBankStatus_of_eq (s : State) (page bank : String)
    (h : s.bank_status.get (page ++ "_" ++ bank) =
      some (combinedStatus s (referencedInstances (actionSetsOrEmpty s page bank)))) :
    checkBankStatus s page bank = s := by
  unfold checkBankStatus
  simp only [h, ne_eq, not_true_eq_false, if_false]

/-- C21: `checkBankStatus` writes the computed status to the cache and makes
exactly one call, the redraw of the button, when the status differs from the
cached value (or nothing is cached yet); when it equals the cached value the
state is left as it is, so nothing is emitted; hence a second call right after
the first changes nothing and emits nothing. -/
theorem checkBankStatus_cache (s : State) (page bank : String) :
    (s.bank_status.get (page ++ "_" ++ bank) ≠
          some (combinedStatus s (referencedInstances (actionSetsOrEmpty s page bank))) →
        (checkBankStatus s page bank).bank_status =
          s.bank_status.set (page ++ "_" ++ bank)
            (combinedStatus s (referencedInstances (actionSetsOrEmpty s page bank))) ∧
        (checkBankStatus s page bank).events =
          s.events ++ [Event.graphics_invalidateBank page bank]) ∧
      (s.bank_status.get (page ++ "_" ++ bank) =
          some (combinedStatus s (referencedInstances (actionSetsOrEmpty s page bank))) →
        checkBankStatus s page bank = s) ∧
      checkBankStatus (checkBankStatus s page bank) page bank = checkBankStatus s page bank := by
  refine ⟨?_, checkBankStatus_of_eq s page bank, ?_⟩
  · intro h
    rw [checkBankStatus_of_ne s page bank _ rfl h]
    exact ⟨rfl, rfl⟩
  · by_cases h : s.bank_status.get (page ++ "_" ++ bank) =
        some (combinedStatus s (referencedInstances (actionSetsOrEmpty s page bank)))
    · rw [checkBankStatus_of_eq s page bank h, checkBankStatus_of_eq s page bank h]
    · rw [checkBankStatus_of_ne s page bank _ rfl h]
      apply checkBankStatus_of_eq
      exact JsObject.get_set_self _ _ _

/-- Witness of C21 on the example button (modules ok, warning, unknown): the
first check caches 1 and redraws once, a second check emits nothing, and after
the warning module has gone to error the next check caches 2 and redraws
once. -/
theorem checkBankStatus_cache_witness :
    (checkBankStatus exStatusButton "1" "2").events =
        exStatusButton.events ++ [Event.graphics_invalidateBank "1" "2"] ∧
      checkBankStatus (checkBankStatus exStatusButton "1" "2") "1" "2" =
        checkBankStatus exStatusButton "1" "2" ∧
      (checkBankStatus
          { checkBankStatus exStatusButton "1" "2" with
            instance_status := [("m1", 0), ("m2", 2)] } "1" "2").events =
        (checkBankStatus exStatusButton "1" "2").events ++
          [Event.graphics_invalidateBank "1" "2"] ∧
      (checkBankStatus
          { checkBankStatus exStatusButton "1" "2" with
            instance_status := [("m1", 0), ("m2", 2)] } "1" "2").bank_status =
        [("1_2", 2)] :=
  ⟨((checkBankStatus_cache exStatusButton "1" "2").1 (by decide)).2,
    (checkBankStatus_cache exStatusButton "1" "2").2.2,
    ((checkBankStatus_cache
      { checkBankStatus exStatusButton "1" "2" with
        instance_status := [("m1", 0), ("m2", 2)] } "1" "2").1 (by decide)).2,
    ((checkBankStatus_cache
      { checkBankStatus exStatusButton "1" "2" with
        instance_status := [("m1", 0), ("m2", 2)] } "1" "2").1 (by decide)).1.trans
      (by decide)⟩

/-! ## Page-navigation buttons -/

/-- C26: on a button of style `pageup`, `pagenum` or `pagedown`, `pressBank`
tells the trigger engine of the edge and then, on a press edge, emits exactly
the page signal of the style (`device_page_up`, `device_page_set` to page 1,
`device_page_down`) and, on a release edge, emits nothing; nothing else of the
state changes, so no action is dispatched or scheduled and the pushed
indicator is not updated. -/
theorem pressBank_page_navigation (s : State) (page bank : String) (direction : Bool)
    (deviceid : Option String) :
    ((BankController.get s page bank).style = some "pageup" →
        pressBank s page bank direction deviceid =
          some { s with events := s.events ++
            Event.triggers_onBankPress page bank direction deviceid ::
              (if direction then [Event.device_page_up deviceid] else []) }) ∧
      ((BankController.get s page bank).style = some "pagenum" →
        pressBank s page bank direction deviceid =
          some { s with events := s.events ++
            Event.triggers_onBankPress page bank direction deviceid ::
              (if direction then [Event.device_page_set deviceid 1] else []) }) ∧
      ((BankController.get s page bank).style = some "pagedown" →
        pressBank s page bank direction deviceid =
          some { s with events := s.events ++
            Event.triggers_onBankPress page bank direction deviceid ::
              (if direction then [Event.device_page_down deviceid] else []) }) := by
  refine ⟨?_, ?_, ?_⟩ <;> intro h <;> unfold pressBank pressBankSelect <;>
    cases direction <;> simp [h, State.emit]

/-- Witness of C26 on the example buttons: a press of the page-up button emits
the trigger notification and `device_page_up` only, a release of the
first-page button and of the page-down button emits the trigger notification
only. -/
theorem pressBank_page_navigation_witness :
    pressBank exPageButtons "1" "1" true (some "dev") =
        some { exPageButtons with events :=
          [Event.triggers_onBankPress "1" "1" true (some "dev"),
            Event.device_page_up (some "dev")] } ∧
      pressBank exPageButtons "1" "2" false (some "dev") =
        some { exPageButtons with events :=
          [Event.triggers_onBankPress "1" "2" false (some "dev")] } ∧
      pressBank exPageButtons "1" "3" false (some "dev") =
        some { exPageButtons with events :=
          [Event.triggers_onBankPress "1" "3" false (some "dev")] } :=
  ⟨(pressBank_page_navigation exPageButtons "1" "1" true (some "dev")).1 (by decide),
    (pressBank_page_navigation exPageButtons "1" "2" false (some "dev")).2.1 (by decide),
    (pressBank_page_navigation exPageButtons "1" "3" false (some "dev")).2.2 (by decide)⟩

/-! ## The cursor after a removal -/

theorem findIndexFrom_not_mem (id : String) (xs : List String) (i : Nat) (h : id ∉ xs) :
    findIndexFrom (fun k => decide (k = id)) xs i = -1 := by
  induction xs generalizing i with
  | nil => rfl
  | cons x rest ih =>
    simp only [List.mem_cons, not_or] at h
    have hx : ¬ x = id := fun e => h.1 e.symm
    simp only [findIndexFrom, hx, decide_False, Bool.false_eq_true, if_false]
    exact ih (i + 1) h.2

theorem exists_first_split (x : String) (l : List String) (h : x ∈ l) :
    ∃ pre post, l = pre ++ x :: post ∧ x ∉ pre := by
  induction l with
  | nil => simp at h
  | cons y rest ih =>
    by_cases hy : y = x
    · exact ⟨[], rest, by simp [hy], by simp⟩
    · have hrest : x ∈ rest := by
        rcases List.mem_cons.mp h with h | h
        · exact absurd h.symm hy
        · exact h
      obtain ⟨pre, post, hsplit, hpre⟩ := ih hrest
      refine ⟨y :: pre, post, by simp [hsplit], ?_⟩
      simp only [List.mem_cons, not_or]
      exact ⟨fun e => hy e.symm, hpre⟩

/-- C30: on a step button with at least two sets, `bank_set_remove` returns
and always writes the cursor, whatever it was before: to the id that follows
the given id in the key list read before the removal, to the first id when
the given id was the last, and to the first id when the given id is not in
the list; the new cursor is an id of the old list. -/
theorem bank_set_remove_overwrites_cursor (s : State)
    (banks : JsObject (JsObject (List Action))) (sets : JsObject (List Action))
    (cursors : JsObject (Option String)) (page bank id : String)
    (hstyle : (BankController.get s page bank).style = some "step")
    (hpage : s.bank_action_sets.get page = some banks) (hbank : banks.get bank = some sets)
    (hlen : 2 ≤ sets.length) (hcursors : s.bank_cycle_step.get page = some cursors) :
    ∃ s', bank_set_remove s page bank id = some s' ∧
      (id ∈ objectKeys sets → ∃ pre post, objectKeys sets = pre ++ id :: post ∧ id ∉ pre ∧
        cursorOf s' page bank = (post ++ pre).head?) ∧
      (id ∉ objectKeys sets → cursorOf s' page bank = (objectKeys sets).head?) ∧
      ∃ next, cursorOf s' page bank = some next ∧ next ∈ objectKeys sets := by
  have hklen : 2 ≤ (objectKeys sets).length := by
    rw [objectKeys_length]
    exact hlen
  have hcases : (∃ pre post, objectKeys sets = pre ++ id :: post ∧ id ∉ pre) ∨
      id ∉ objectKeys sets := by
    by_cases hmem : id ∈ objectKeys sets
    · exact Or.inl (exists_first_split id _ hmem)
    · exact Or.inr hmem
  rcases hcases with ⟨pre, post, hsplit, hpre⟩ | hnot
  · have hlength : (objectKeys sets).length = pre.length + 1 + post.length := by
      rw [hsplit]
      simp
      omega
    have hindex : findIndexFrom (fun k => decide (k = id)) (objectKeys sets) 0 =
        (pre.length : Int) := by
      rw [hsplit, findIndexFrom_append id pre post 0 hpre]
      simp
    have hnew : (if findIndexFrom (fun k => decide (k = id)) (objectKeys sets) 0 + 1 ≥
          ((objectKeys sets).length : Int) then (0 : Int)
        else findIndexFrom (fun k => decide (k = id)) (objectKeys sets) 0 + 1) =
        if post = [] then (0 : Int) else (pre.length : Int) + 1 := by
      rw [hindex, hlength]
      cases post with
      | nil => simp
      | cons y ys =>
        simp only [List.length_cons, reduceCtorEq, if_false]
        rw [if_neg]
        push_cast
        omega
    have hmove : (if findIndexFrom (fun k => decide (k = id)) (objectKeys sets) 0 + 1 ≥
          ((objectKeys sets).length : Int) then (0 : Int)
        else findIndexFrom (fun k => decide (k = id)) (objectKeys sets) 0 + 1) ≠
        findIndexFrom (fun k => decide (k = id)) (objectKeys sets) 0 := by
      rw [hnew, hindex]
      cases post with
      | nil =>
        simp only [List.length_nil] at hlength
        simp only [if_true]
        omega
      | cons y ys =>
        simp only [reduceCtorEq, if_false]
        omega
    obtain ⟨s', hs', _, hcur'⟩ := bank_set_remove_many s banks sets cursors page bank id
      hstyle hpage hbank (by omega) hcursors hmove
    have hhead : arrayGet (objectKeys sets)
        (if post = [] then (0 : Int) else (pre.length : Int) + 1) = (post ++ pre).head? := by
      rw [hsplit]
      cases post with
      | nil =>
        cases pre with
        | nil => simp at hlength; omega
        | cons x xs => simp [arrayGet]
      | cons y ys =>
        simp only [reduceCtorEq, if_false, arrayGet]
        have h0 : (0 : Int) ≤ (pre.length : Int) + 1 := by omega
        have htn : ((pre.length : Int) + 1).toNat = pre.length + 1 := by omega
        rw [if_pos h0, htn, List.getElem?_append_right (by omega)]
        simp
    have hcur : cursorOf s' page bank = (post ++ pre).head? := by
      rw [hcur', hnew, hhead]
    obtain ⟨next, hnext⟩ : ∃ next, (post ++ pre).head? = some next := by
      cases post with
      | nil =>
        cases pre with
        | nil => simp at hlength; omega
        | cons x xs => exact ⟨x, rfl⟩
      | cons y ys => exact ⟨y, rfl⟩
    have hnextmem : next ∈ post ++ pre := List.mem_of_mem_head? hnext
    have hnextkeys : next ∈ objectKeys sets := by
      rw [hsplit]
      rcases List.mem_append.mp hnextmem with h | h
      · exact List.mem_append_right _ (List.mem_cons_of_mem _ h)
      · exact List.mem_append_left _ h
    refine ⟨s', hs', fun _ => ⟨pre, post, hsplit, hpre, hcur⟩, ?_, next, hcur.trans hnext,
      hnextkeys⟩
    intro hnot
    rw [hsplit] at hnot
    exact absurd (List.mem_append_right _ (List.mem_cons_self _ _)) hnot
  · have hindex := findIndexFrom_not_mem id (objectKeys sets) 0 hnot
    have hnew : (if findIndexFrom (fun k => decide (k = id)) (objectKeys sets) 0 + 1 ≥
          ((objectKeys sets).length : Int) then (0 : Int)
        else findIndexFrom (fun k => decide (k = id)) (objectKeys sets) 0 + 1) = 0 := by
      rw [hindex]
      simp
    have hmove : (if findIndexFrom (fun k => decide (k = id)) (objectKeys sets) 0 + 1 ≥
          ((objectKeys sets).length : Int) then (0 : Int)
        else findIndexFrom (fun k => decide (k = id)) (objectKeys sets) 0 + 1) ≠
        findIndexFrom (fun k => decide (k = id)) (objectKeys sets) 0 := by
      rw [hnew, hindex]
      decide
    obtain ⟨s', hs', _, hcur'⟩ := bank_set_remove_many s banks sets cursors page bank id
      hstyle hpage hbank (by omega) hcursors hmove
    have hcur : cursorOf s' page bank = (objectKeys sets).head? := by
      rw [hcur', hnew]
      cases hk : objectKeys sets with
      | nil => rfl
      | cons x xs => simp [arrayGet]
    obtain ⟨next, hnext⟩ : ∃ next, (objectKeys sets).head? = some next := by
      cases hk : objectKeys sets with
      | nil => rw [hk] at hklen; simp at hklen
      | cons x xs => exact ⟨x, rfl⟩
    exact ⟨s', hs', fun h => absurd h hnot, fun _ => hcur, next, hcur.trans hnext,
      List.mem_of_mem_head? hnext⟩

/-- Witness of C30: on the example button with sets `"0"`, `"1"`, `"2"` and the
cursor at `"1"`, removing set `"2"`, which the cursor does not reference, moves
the cursor to `"0"`. -/
theorem bank_set_remove_overwrites_cursor_witness :
    (∃ s', bank_set_remove exThreeSteps "1" "2" "2" = some s' ∧
      ("2" ∈ objectKeys [("0", [exInline "a0"]), ("1", [exInline "a1"]), ("2", [exInline "a2"])] →
        ∃ pre post,
          objectKeys [("0", [exInline "a0"]), ("1", [exInline "a1"]), ("2", [exInline "a2"])] =
            pre ++ "2" :: post ∧ "2" ∉ pre ∧ cursorOf s' "1" "2" = (post ++ pre).head?) ∧
      ("2" ∉ objectKeys [("0", [exInline "a0"]), ("1", [exInline "a1"]), ("2", [exInline "a2"])] →
        cursorOf s' "1" "2" =
          (objectKeys [("0", [exInline "a0"]), ("1", [exInline "a1"]),
            ("2", [exInline "a2"])]).head?) ∧
      ∃ next, cursorOf s' "1" "2" = some next ∧
        next ∈ objectKeys [("0", [exInline "a0"]), ("1", [exInline "a1"]),
          ("2", [exInline "a2"])]) ∧
      cursorOf exThreeSteps "1" "2" = some "1" ∧
      (bank_set_remove exThreeSteps "1" "2" "2").bind (fun s' => cursorOf s' "1" "2") =
        some "0" :=
  ⟨bank_set_remove_overwrites_cursor exThreeSteps
      [("2", [("0", [exInline "a0"]), ("1", [exInline "a1"]), ("2", [exInline "a2"])])]
      [("0", [exInline "a0"]), ("1", [exInline "a1"]), ("2", [exInline "a2"])]
      [("2", some "1")] "1" "2" "2"
      (by decide) (by decide) (by decide) (by decide) (by decide),
    by decide, by decide⟩

/-! ## Markers and timers -/

theorem MarkersTracked.of_same_bookkeeping (s s' : State) (h : MarkersTracked s)
    (h1 : s'.timers_running = s.timers_running)
    (h2 : s'.actions_running = s.actions_running) : MarkersTracked s' := by
  unfold MarkersTracked at *
  rw [h1, h2]
  exact h

/-- The second loop of `runMultipleActions` only appends entries of its own
group to `timers_running`, and reports `has_delayed` when it appended one. -/
theorem runActionsLoop_timers_running (table : JsObject JsNumber) (groupId : String)
    (run_source : Option RunSource) (actions : List Action) (s : State) (has_delayed : Bool)
    (h : WellFormed s) :
    ∃ extra : List (Nat × String),
      (runActionsLoop table groupId run_source actions s has_delayed).1.timers_running =
        s.timers_running ++ extra ∧
      (∀ e ∈ extra, e.2 = groupId) ∧
      ((runActionsLoop table groupId run_source actions s has_delayed).2 = true ↔
        has_delayed = true ∨ extra ≠ []) := by
  induction actions generalizing s has_delayed with
  | nil => exact ⟨[], by simp [runActionsLoop], by simp, by simp [runActionsLoop]⟩
  | cons a rest ih =>
    by_cases hpos : (delayOf table a).gtZero = true
    · have hwf := runActionsLoop_wellFormed table groupId run_source [a] s false h
      simp only [runActionsLoop, hpos, if_true] at hwf
      have hfresh : s.next_timer ∉ s.timers_running.map (fun e => e.1) := by
        intro hmem
        obtain ⟨e, he, hk⟩ := List.mem_map.mp hmem
        have := h.2.2.1 e he
        omega
      obtain ⟨extra, h1, h2, h3⟩ := ih _ true hwf
      refine ⟨(s.next_timer, groupId) :: extra, ?_, ?_, ?_⟩
      · simp only [runActionsLoop, hpos, if_true]
        rw [h1]
        show mapSet s.timers_running s.next_timer groupId ++ extra = _
        rw [mapSet_fresh _ _ _ hfresh]
        simp
      · intro e he
        rcases List.mem_cons.mp he with he | he
        · rw [he]
        · exact h2 e he
      · simp only [runActionsLoop, hpos, if_true]
        rw [h3]
        simp
    · have hwf : WellFormed (runAction s a run_source) := by
        rw [runAction_eq_emit]
        exact h
      obtain ⟨extra, h1, h2, h3⟩ := ih (runAction s a run_source) has_delayed hwf
      refine ⟨extra, ?_, h2, ?_⟩
      · simp only [runActionsLoop, hpos, Bool.false_eq_true, if_false]
        rw [h1, runAction_eq_emit]
        rfl
      · simp only [runActionsLoop, hpos, Bool.false_eq_true, if_false]
        exact h3

theorem runMultipleActions_markersTracked (s : State) (actions : List Action)
    (groupId : String) (relative_delay : Bool) (run_source : Option RunSource)
    (hwf : WellFormed s) (h : MarkersTracked s) :
    MarkersTracked (runMultipleActions s actions groupId relative_delay run_source) := by
  obtain ⟨extra, h1, h2, h3⟩ := runActionsLoop_timers_running
    (effective_delays actions relative_delay) groupId run_source actions s false hwf
  have hrun := (runActionsLoop_spec (effective_delays actions relative_delay) groupId
    run_source actions s false).2.2.2.2.1
  intro g
  unfold runMultipleActions
  simp only
  split
  · rename_i hdel
    have hne : extra ≠ [] := by
      rcases h3.mp hdel with h' | h'
      · simp at h'
      · exact h'
    have hgoal : g ∈ setAdd s.actions_running groupId ↔
        ∃ e ∈ s.timers_running ++ extra, e.2 = g := by
      rw [mem_setAdd_iff, h g]
      constructor
      · rintro (⟨e, he, hg⟩ | hg)
        · exact ⟨e, List.mem_append_left _ he, hg⟩
        · obtain ⟨e, he⟩ := List.exists_mem_of_ne_nil extra hne
          exact ⟨e, List.mem_append_right _ he, by rw [h2 e he, hg]⟩
      · rintro ⟨e, he, hg⟩
        rcases List.mem_append.mp he with he | he
        · exact Or.inl ⟨e, he, hg⟩
        · exact Or.inr (by rw [← hg, h2 e he])
    cases run_source
    · simp only [hrun, h1]
      exact hgoal
    · simp only [State.emit, hrun, h1]
      exact hgoal
  · rename_i hdel
    have hnil : extra = [] := by
      by_contra hne
      exact hdel (h3.mpr (Or.inr hne))
    rw [hrun, h1, hnil, List.append_nil]
    exact h g

theorem fireTimer_markersTracked (s : State) (timer : Nat) (hwf : WellFormed s)
    (h : MarkersTracked s) : MarkersTracked (fireTimer s timer) := by
  unfold fireTimer
  split
  · exact h
  · rename_i t hfind
    have htimer : t.timer = timer := by
      simpa using List.find?_some hfind
    have htracked : (t.timer, t.groupId) ∈ s.timers_running :=
      hwf.2.1 t (List.mem_of_find?_eq_some hfind)
    have hother : ∀ g, g ≠ t.groupId →
        ((∃ e ∈ mapDelete s.timers_running t.timer, e.2 = g) ↔
          ∃ e ∈ s.timers_running, e.2 = g) := by
      intro g hg
      constructor
      · rintro ⟨e, he, heg⟩
        exact ⟨e, List.mem_of_mem_filter he, heg⟩
      · rintro ⟨e, he, heg⟩
        refine ⟨e, ?_, heg⟩
        simp only [mapDelete, List.mem_filter, decide_eq_true_eq]
        refine ⟨he, ?_⟩
        intro hk
        have heq : e = (t.timer, t.groupId) :=
          List.inj_on_of_nodup_map hwf.1 he htracked hk
        rw [heq] at heg
        exact hg heg.symm
    intro g
    unfold timerCallback
    simp only [runAction_eq_emit]
    split
    · rename_i hnone
      have hno : ¬ ∃ e ∈ mapDelete s.timers_running t.timer, e.2 = t.groupId := by
        rintro ⟨e, he, heg⟩
        simp only [State.emit, clearTimeout, Option.isNone_iff_eq_none,
          List.find?_eq_none, List.mem_map, decide_eq_true_eq] at hnone
        exact hnone e.2 ⟨e, he, rfl⟩ heg
      have hgoal : g ∈ setDelete s.actions_running t.groupId ↔
          ∃ e ∈ mapDelete s.timers_running t.timer, e.2 = g := by
        by_cases hg : g = t.groupId
        · subst hg
          constructor
          · intro hmem
            exact absurd hmem (not_mem_setDelete _ _)
          · intro hex
            exact absurd hex hno
        · rw [hother g hg, ← h g]
          simp only [setDelete, List.mem_filter, decide_eq_true_eq]
          exact ⟨fun x => x.1, fun x => ⟨x, hg⟩⟩
      cases t.run_source <;> exact hgoal
    · rename_i hsome
      have hyes : ∃ e ∈ mapDelete s.timers_running t.timer, e.2 = t.groupId := by
        simp only [State.emit, clearTimeout, Option.isNone_iff_eq_none,
          List.find?_eq_none, List.mem_map, decide_eq_true_eq, not_forall] at hsome
        obtain ⟨v, ⟨e, he, hev⟩, hv⟩ := hsome
        exact ⟨e, he, by rw [hev]; exact not_not.mp hv⟩
      show g ∈ s.actions_running ↔ ∃ e ∈ mapDelete s.timers_running t.timer, e.2 = g
      by_cases hg : g = t.groupId
      · subst hg
        exact ⟨fun _ => hyes, fun _ => (h _).mpr ⟨_, htracked, rfl⟩⟩
      · rw [hother g hg]
        exact h g

theorem abortBank_markersTracked (s : State) (page bank : String) (skip_up : Bool)
    (hwf : WellFormed s) (h : MarkersTracked s) :
    MarkersTracked (abortBank s page bank skip_up) := by
  have hfold := abortBank_forEach (page ++ "_" ++ bank)
    { s with actions_running := setDelete s.actions_running (page ++ "_" ++ bank) }
    hwf.1 hwf.2.1
  have hgoal : MarkersTracked
      (List.foldl (abortBankVisit (page ++ "_" ++ bank))
        { s with actions_running := setDelete s.actions_running (page ++ "_" ++ bank) }
        s.timers_running) := by
    rw [hfold]
    intro g
    simp only [setDelete, List.mem_filter, decide_eq_true_eq, ne_eq, decide_not,
      Bool.not_eq_true', decide_eq_false_iff_not]
    rw [h g]
    constructor
    · rintro ⟨⟨e, he, heg⟩, hg⟩
      exact ⟨e, ⟨he, by rw [heg]; exact hg⟩, heg⟩
    · rintro ⟨e, ⟨he, hb⟩, heg⟩
      exact ⟨⟨e, he, heg⟩, by rw [← heg]; exact hb⟩
  unfold abortBank
  cases skip_up
  · exact hgoal
  · exact hgoal

theorem abortAll_markersTracked (s : State) : MarkersTracked (abortAll s) := by
  unfold abortAll
  rw [clearTimeout_foldl, emit_foldl]
  intro g
  simp

theorem pressBankRun_markersTracked (s : State) (bank_config : BankConfig) (page bank : String)
    (deviceid : Option String) (action_set_id : Option String) (hwf : WellFormed s)
    (h : MarkersTracked s) :
    MarkersTracked (pressBankRun s bank_config page bank deviceid action_set_id) := by
  unfold pressBankRun
  split
  · exact h
  · split
    · exact h
    · split
      · exact h
      · split
        · exact h
        · split
          · exact h
          · exact runMultipleActions_markersTracked _ _ _ _ _ hwf h

theorem pressBank_markersTracked (s s' : State) (page bank : String) (direction : Bool)
    (deviceid : Option String) (hpress : pressBank s page bank direction deviceid = some s')
    (hwf : WellFormed s) (h : MarkersTracked s) : MarkersTracked s' := by
  unfold pressBank at hpress
  simp only at hpress
  split at hpress
  · simp at hpress
  · rename_i s1 id hsel
    obtain ⟨h1, h2, h3, h4⟩ := pressBankSelect_timers _ _ _ _ _ _ _ hsel
    have hwf1 : WellFormed s1 := WellFormed.of_same_timers s s1 hwf h1 h2 h3 h4
    have hm1 : MarkersTracked s1 := MarkersTracked.of_same_bookkeeping s s1 h h1 h4
    split at hpress
    · simp only [Option.some.injEq] at hpress
      rw [← hpress]
      cases direction <;> exact hm1
    · split at hpress
      · simp only [Option.some.injEq] at hpress
        rw [← hpress]
        cases direction <;> exact hm1
      · split at hpress
        · simp only [Option.some.injEq] at hpress
          rw [← hpress]
          cases direction <;> exact hm1
        · simp only [Option.some.injEq] at hpress
          rw [← hpress]
          exact pressBankRun_markersTracked _ _ _ _ _ _ hwf1 hm1

/-- C29: in every state the engine reaches from a state without timers and
markers by running action sets, seeing timers fire, `abortBank`, `abortAll`
(and button presses), each to completion, a group key is in `actions_running`
if and only if at least one entry of `timers_running` is registered under
that key. -/
theorem actions_running_iff_timer (s : State) (h : Reachable s) (g : String) :
    g ∈ s.actions_running ↔ ∃ e ∈ s.timers_running, e.2 = g := by
  have hall : MarkersTracked s := by
    induction h with
    | start s htimers hpending hrunning =>
      intro k
      rw [htimers, hrunning]
      simp
    | run s actions groupId relative_delay run_source hr ih =>
      exact runMultipleActions_markersTracked _ _ _ _ _ (Reachable.wellFormed s hr) ih
    | fire s timer hr ih => exact fireTimer_markersTracked _ _ (Reachable.wellFormed s hr) ih
    | abortOne s page bank skip_up hr ih =>
      exact abortBank_markersTracked _ _ _ _ (Reachable.wellFormed s hr) ih
    | abortEvery s _ _ => exact abortAll_markersTracked _
    | press s s' page bank direction deviceid hr hpress ih =>
      exact pressBank_markersTracked _ _ _ _ _ _ hpress (Reachable.wellFormed s hr) ih
  exact hall g

/-- Witness of C29: after two delayed runs (A:100 and B:50 for button `1_2`,
A:100 for button `1_3`) and the firing of both timers of `1_2`, the key `1_2`
is neither marked nor registered, and the key `1_3` is both. -/
theorem actions_running_iff_timer_witness :
    ("1_2" ∈ (fireTimer (fireTimer exRunning 0) 1).actions_running ↔
        ∃ e ∈ (fireTimer (fireTimer exRunning 0) 1).timers_running, e.2 = "1_2") ∧
      (fireTimer (fireTimer exRunning 0) 1).actions_running = ["1_3"] ∧
      (fireTimer (fireTimer exRunning 0) 1).timers_running = [(2, "1_3")] ∧
      (fireTimer exRunning 0).actions_running = ["1_2", "1_3"] ∧
      (fireTimer exRunning 0).timers_running = [(1, "1_2"), (2, "1_3")] :=
  ⟨actions_running_iff_timer (fireTimer (fireTimer exRunning 0) 1)
      (Reachable.fire _ _ (Reachable.fire _ _ (Reachable.run _ _ _ _ _
        (Reachable.run _ _ _ _ _ (Reachable.start { children := ["m"] } rfl rfl rfl)))))
      "1_2",
    by decide, by decide, by decide, by decide⟩

/-! ## Reordering the actions of a set -/

/-- What `spliceMove` does to a list for two positions of the list. -/
theorem spliceMove_spec (action_set : List Action) (old_index new_index : Nat) (a : Action)
    (hold : action_set[old_index]? = some a) (hnew : new_index < action_set.length) :
    ∃ moved, spliceMove action_set old_index new_index = some moved ∧
      moved.length = action_set.length ∧ moved.Perm action_set ∧
      moved[new_index]? = some a ∧
      moved.eraseIdx new_index = action_set.eraseIdx old_index := by
  have holdlt : old_index < action_set.length := by
    rcases Nat.lt_or_ge old_index action_set.length with h | h
    · exact h
    · rw [List.getElem?_eq_none h] at hold
      simp at hold
  have hlen : (action_set.eraseIdx old_index).length + 1 = action_set.length := by
    rw [List.length_eraseIdx_of_lt holdlt]
    omega
  have htake : ((action_set.eraseIdx old_index).take new_index).length = new_index := by
    rw [List.length_take]
    omega
  refine ⟨(action_set.eraseIdx old_index).take new_index ++
    a :: (action_set.eraseIdx old_index).drop new_index, ?_, ?_, ?_, ?_, ?_⟩
  · unfold spliceMove
    rw [hold]
  · rw [List.length_append, List.length_cons, htake, List.length_drop]
    omega
  · refine List.perm_middle.trans ?_
    rw [List.take_append_drop, List.eraseIdx_eq_take_drop_succ]
    refine List.perm_middle.symm.trans ?_
    have hsplit : action_set.take old_index ++ a :: action_set.drop (old_index + 1) =
        action_set := by
      have hget : action_set[old_index] = a := by
        rw [List.getElem?_eq_getElem holdlt] at hold
        exact Option.some.inj hold
      rw [← hget, List.getElem_cons_drop, List.take_append_drop]
    rw [hsplit]
  · rw [List.getElem?_append_right (by omega), htake]
    simp
  · rw [List.eraseIdx_append_of_length_le (by omega), htake]
    simp

/-- C28: for an action list and two positions `old_index` and `new_index` of
it, the reorder handler returns, saves, and leaves the set with a list of the
same length and the same actions (a permutation, so the same ids), in which
the action that was at `old_index` is at `new_index`, and from which taking
that action out gives the old list without it: the other actions keep their
order. -/
theorem reorder_moves_action (s : State) (banks : JsObject (JsObject (List Action)))
    (sets : JsObject (List Action)) (action_set : List Action) (page bank set : String)
    (old_index new_index : Nat)
    (hpage : s.bank_action_sets.get page = some banks) (hbank : banks.get bank = some sets)
    (hset : sets.get set = some action_set)
    (hold : old_index < action_set.length) (hnew : new_index < action_set.length) :
    ∃ moved s', bank_update_action_option_order s page bank set old_index new_index = some s' ∧
      actionsAt s'.bank_action_sets page bank set = some moved ∧
      s'.events = s.events ++ [Event.db_setKey_bank_action_sets s'.bank_action_sets] ∧
      moved.length = action_set.length ∧ moved.Perm action_set ∧
      (moved.map (fun a => a.id)).Perm (action_set.map (fun a => a.id)) ∧
      moved[new_index]? = action_set[old_index]? ∧
      moved.eraseIdx new_index = action_set.eraseIdx old_index := by
  obtain ⟨moved, hm, hlen, hperm, hat, hrest⟩ := spliceMove_spec action_set old_index new_index
    action_set[old_index] (List.getElem?_eq_getElem hold) hnew
  have hrun : bank_update_action_option_order s page bank set old_index new_index =
      some (doSave
        { s with bank_action_sets := putSets s.bank_action_sets page bank (sets.set set moved) }) := by
    unfold bank_update_action_option_order
    simp only [hpage, hbank, hset, hm]
  refine ⟨moved, _, hrun, ?_, ?_, hlen, hperm, hperm.map _, ?_, hrest⟩
  · simp only [doSave, State.emit, putSets, hpage]
    exact actionsAt_set_self _ _ _ _ _ _ _
  · rfl
  · rw [hat, List.getElem?_eq_getElem hold]

/-- Witness of C28: moving the first of the actions `a`, `b`, `c` to the last
position gives `b`, `c`, `a`. -/
theorem reorder_moves_action_witness :
    (∃ moved s', bank_update_action_option_order exThreeActions "1" "2" "down" 0 2 = some s' ∧
      actionsAt s'.bank_action_sets "1" "2" "down" = some moved ∧
      s'.events = exThreeActions.events ++
        [Event.db_setKey_bank_action_sets s'.bank_action_sets] ∧
      moved.length = [exInline "a", exInline "b", exInline "c"].length ∧
      moved.Perm [exInline "a", exInline "b", exInline "c"] ∧
      (moved.map (fun a => a.id)).Perm
        ([exInline "a", exInline "b", exInline "c"].map (fun a => a.id)) ∧
      moved[2]? = [exInline "a", exInline "b", exInline "c"][0]? ∧
      moved.eraseIdx 2 = [exInline "a", exInline "b", exInline "c"].eraseIdx 0) ∧
      (bank_update_action_option_order exThreeActions "1" "2" "down" 0 2).bind
          (fun s' => actionsAt s'.bank_action_sets "1" "2" "down") =
        some [exInline "b", exInline "c", exInline "a"] :=
  ⟨reorder_moves_action exThreeActions
      [("2", [("down", [exInline "a", exInline "b", exInline "c"]), ("up", [])])]
      [("down", [exInline "a", exInline "b", exInline "c"]), ("up", [])]
      [exInline "a", exInline "b", exInline "c"] "1" "2" "down" 0 2
      (by decide) (by decide) (by decide) (by decide) (by decide),
    by decide⟩

/-! ## Swapping two step sets -/

theorem JsObject.set_set {α : Type} (o : JsObject α) (k : String) (v w : α) :
    (o.set k v).set k w = o.set k w := by
  induction o with
  | nil => simp [JsObject.set]
  | cons e rest ih =>
    obtain ⟨k', v'⟩ := e
    by_cases h : k' = k
    · simp [JsObject.set, h]
    · simp [JsObject.set, h, ih]

theorem JsObject.set_of_get {α : Type} (o : JsObject α) (k : String) (v : α)
    (h : o.get k = some v) : o.set k v = o := by
  induction o with
  | nil => simp [JsObject.get] at h
  | cons e rest ih =>
    obtain ⟨k', v'⟩ := e
    by_cases hk : k' = k
    · subst hk
      simp only [JsObject.get, if_true, Option.some.injEq] at h
      simp [JsObject.set, h]
    · simp only [JsObject.get, hk, if_false] at h
      simp [JsObject.set, hk, ih h]

theorem JsObject.set_comm {α : Type} (o : JsObject α) (a b : String) (x y : α)
    (hab : a ≠ b) (ha : a ∈ o.map (fun e => e.1)) :
    (o.set a x).set b y = (o.set b y).set a x := by
  induction o with
  | nil => simp at ha
  | cons e rest ih =>
    obtain ⟨k, v⟩ := e
    by_cases hka : k = a
    · subst hka
      simp [JsObject.set, hab]
    · by_cases hkb : k = b
      · subst hkb
        simp [JsObject.set, hka]
      · have hrest : a ∈ rest.map (fun e => e.1) := by
          simp only [List.map_cons, List.mem_cons] at ha
          rcases ha with h | h
          · exact absurd h.symm hka
          · exact h
        simp [JsObject.set, hka, hkb, ih hrest]

theorem JsObject.keys_set_of_mem {α : Type} (o : JsObject α) (k : String) (v : α)
    (h : k ∈ o.map (fun e => e.1)) : (o.set k v).map (fun e => e.1) = o.map (fun e => e.1) := by
  induction o with
  | nil => simp at h
  | cons e rest ih =>
    obtain ⟨k', v'⟩ := e
    by_cases hk : k' = k
    · simp [JsObject.set, hk]
    · have hrest : k ∈ rest.map (fun e => e.1) := by
        simp only [List.map_cons, List.mem_cons] at h
        rcases h with h | h
        · exact absurd h.symm hk
        · exact h
      simp [JsObject.set, hk, ih hrest]

/-- Exchanging the values of two keys of a dictionary twice gives the
dictionary back. -/
theorem JsObject.swap_swap {α : Type} (o : JsObject α) (a b : String) (x y : α)
    (ha : o.get a = some x) (hb : o.get b = some y) :
    (((o.set a y).set b x).set a x).set b y = o := by
  by_cases hab : a = b
  · subst hab
    have hxy : x = y := by
      rw [ha] at hb
      exact Option.some.inj hb
    subst hxy
    rw [JsObject.set_set, JsObject.set_set, JsObject.set_set, JsObject.set_of_get o a x ha]
  · have hmem : a ∈ (o.set a y).map (fun e => e.1) :=
      JsObject.mem_keys_of_get _ a y (JsObject.get_set_self o a y)
    rw [← JsObject.set_comm (o.set a y) a b x x hab hmem, JsObject.set_set, JsObject.set_set,
      JsObject.set_of_get o a x ha, JsObject.set_of_get o b y hb]

/-- The swap on a step button on which both sets exist. -/
theorem bank_set_swap_step (s : State) (banks : JsObject (JsObject (List Action)))
    (sets : JsObject (List Action)) (page bank id1 id2 : String) (set1 set2 : List Action)
    (hstyle : (BankController.get s page bank).style = some "step")
    (hpage : s.bank_action_sets.get page = some banks) (hbank : banks.get bank = some sets)
    (h1 : sets.get id1 = some set1) (h2 : sets.get id2 = some set2) :
    (bank_set_swap s page bank id1 id2).bank_action_sets =
        s.bank_action_sets.set page (banks.set bank ((sets.set id1 set2).set id2 set1)) ∧
      (bank_set_swap s page bank id1 id2).config = s.config ∧
      (bank_set_swap s page bank id1 id2).events =
        s.events ++ [Event.io_bank_action_sets_reload page bank [id1, id2]] := by
  have hens := ensureBank_of_exists s.bank_action_sets banks sets page bank hpage hbank
  have hsets := actionSetsOrEmpty_of_exists s banks sets page bank hpage hbank
  have heta : ({ s with bank_action_sets := s.bank_action_sets } : State) = s := rfl
  unfold bank_set_swap
  simp only [hens, heta, hsets, h1, h2, hstyle, if_true, putSets, hpage, State.emit]
  simp

/-- The swap on a button that is not a step button, or on which one of the
sets is missing. -/
theorem bank_set_swap_noop (s : State) (banks : JsObject (JsObject (List Action)))
    (sets : JsObject (List Action)) (page bank id1 id2 : String)
    (hpage : s.bank_action_sets.get page = some banks) (hbank : banks.get bank = some sets)
    (h : (BankController.get s page bank).style ≠ some "step" ∨ sets.get id1 = none ∨
      sets.get id2 = none) :
    bank_set_swap s page bank id1 id2 =
      s.emit (Event.io_bank_action_sets_reload page bank [id1, id2]) := by
  have hens := ensureBank_of_exists s.bank_action_sets banks sets page bank hpage hbank
  have hsets := actionSetsOrEmpty_of_exists s banks sets page bank hpage hbank
  have heta : ({ s with bank_action_sets := s.bank_action_sets } : State) = s := rfl
  unfold bank_set_swap
  simp only [hens, heta, hsets]
  rcases h with h | h | h
  · cases sets.get id1 <;> cases sets.get id2 <;> simp [h]
  · simp [h]
  · cases sets.get id1 <;> simp [h]

/-- C24: on a step button on which both ids exist, `bank_set_swap` leaves set
`id1` with the list `id2` held and set `id2` with the list `id1` held, keeps
the ids of the button and every other action list of the map, and a second
swap gives the original map back; on a button of another style, or when one
of the ids is missing and is not the name of a member of `Object.prototype`
(so that the guard of the function reads `undefined` for it), the map is
unchanged. -/
theorem bank_set_swap_exchanges (s : State) (banks : JsObject (JsObject (List Action)))
    (sets : JsObject (List Action)) (page bank id1 id2 : String)
    (hpage : s.bank_action_sets.get page = some banks) (hbank : banks.get bank = some sets) :
    ((BankController.get s page bank).style = some "step" →
        ∀ set1 set2, sets.get id1 = some set1 → sets.get id2 = some set2 →
          actionsAt (bank_set_swap s page bank id1 id2).bank_action_sets page bank id1 =
              some set2 ∧
            actionsAt (bank_set_swap s page bank id1 id2).bank_action_sets page bank id2 =
              some set1 ∧
            (actionSetsOrEmpty (bank_set_swap s page bank id1 id2) page bank).map (fun e => e.1) =
              sets.map (fun e => e.1) ∧
            (∀ page' bank' set', (page', bank', set') ≠ (page, bank, id1) →
              (page', bank', set') ≠ (page, bank, id2) →
              actionsAt (bank_set_swap s page bank id1 id2).bank_action_sets page' bank' set' =
                actionsAt s.bank_action_sets page' bank' set') ∧
            (bank_set_swap (bank_set_swap s page bank id1 id2) page bank id1 id2).bank_action_sets =
              s.bank_action_sets) ∧
      ((BankController.get s page bank).style ≠ some "step" ∨
          (sets.get id1 = none ∧ id1 ∉ objectPrototypeKeys) ∨
          (sets.get id2 = none ∧ id2 ∉ objectPrototypeKeys) →
        (bank_set_swap s page bank id1 id2).bank_action_sets = s.bank_action_sets) := by
  constructor
  · intro hstyle set1 set2 h1 h2
    obtain ⟨hm, hconfig, -⟩ := bank_set_swap_step s banks sets page bank id1 id2 set1 set2
      hstyle hpage hbank h1 h2
    have hk1 : id1 ∈ sets.map (fun e => e.1) := JsObject.mem_keys_of_get sets id1 set1 h1
    have hk2 : id2 ∈ sets.map (fun e => e.1) := JsObject.mem_keys_of_get sets id2 set2 h2
    have hg2 : ((sets.set id1 set2).set id2 set1).get id2 = some set1 :=
      JsObject.get_set_self _ _ _
    have hg1 : ((sets.set id1 set2).set id2 set1).get id1 = some set2 := by
      by_cases hab : id1 = id2
      · subst hab
        rw [h1] at h2
        rw [JsObject.get_set_self, h2]
      · rw [JsObject.get_set_other _ _ _ _ (fun h => hab h.symm), JsObject.get_set_self]
    have hpage' : (bank_set_swap s page bank id1 id2).bank_action_sets.get page =
        some (banks.set bank ((sets.set id1 set2).set id2 set1)) := by
      rw [hm, JsObject.get_set_self]
    have hbank' : (banks.set bank ((sets.set id1 set2).set id2 set1)).get bank =
        some ((sets.set id1 set2).set id2 set1) := JsObject.get_set_self _ _ _
    refine ⟨?_, ?_, ?_, ?_, ?_⟩
    · unfold actionsAt
      rw [hpage']
      simp only [hbank', hg1]
    · unfold actionsAt
      rw [hpage']
      simp only [hbank', hg2]
    · rw [actionSetsOrEmpty_of_exists _ _ _ page bank hpage' hbank',
        JsObject.keys_set_of_mem _ _ _ (by rw [JsObject.keys_set_of_mem _ _ _ hk1]; exact hk2),
        JsObject.keys_set_of_mem _ _ _ hk1]
    · intro page' bank' set' hne1 hne2
      rw [hm]
      unfold actionsAt
      by_cases hp : page' = page
      · subst hp
        rw [JsObject.get_set_self, hpage]
        by_cases hb : bank' = bank
        · subst hb
          have hs1 : id1 ≠ set' := fun h => hne1 (by rw [h])
          have hs2 : id2 ≠ set' := fun h => hne2 (by rw [h])
          simp only [JsObject.get_set_self, hbank]
          rw [JsObject.get_set_other _ _ _ _ hs2, JsObject.get_set_other _ _ _ _ hs1]
        · simp only [JsObject.get_set_other _ _ _ _ (fun h => hb h.symm)]
      · rw [JsObject.get_set_other _ _ _ _ (fun h => hp h.symm)]
    · have hstyle' : (BankController.get (bank_set_swap s page bank id1 id2) page bank).style =
          some "step" := by
        unfold BankController.get
        rw [hconfig]
        exact hstyle
      obtain ⟨hm', -, -⟩ := bank_set_swap_step (bank_set_swap s page bank id1 id2) _ _ page bank
        id1 id2 set2 set1 hstyle' hpage' hbank' hg1 hg2
      rw [hm', hm, JsObject.set_set, JsObject.set_set, JsObject.swap_swap sets id1 id2 set1 set2 h1 h2,
        JsObject.set_of_get banks bank sets hbank, JsObject.set_of_get _ page banks hpage]
  · intro h
    have h' : (BankController.get s page bank).style ≠ some "step" ∨ sets.get id1 = none ∨
        sets.get id2 = none := by
      rcases h with h | h | h
      · exact Or.inl h
      · exact Or.inr (Or.inl h.1)
      · exact Or.inr (Or.inr h.1)
    rw [bank_set_swap_noop s banks sets page bank id1 id2 hpage hbank h']
    rfl

/-- Witness of C24: on the example step button with sets `"0"`, `"1"`, `"2"`,
swapping `"0"` and `"2"` exchanges their lists and a second swap restores the
map; swapping with the missing id `"7"` changes nothing. -/
theorem bank_set_swap_exchanges_witness :
    (actionsAt (bank_set_swap exThreeSteps "1" "2" "0" "2").bank_action_sets "1" "2" "0" =
          some [exInline "a2"] ∧
        actionsAt (bank_set_swap exThreeSteps "1" "2" "0" "2").bank_action_sets "1" "2" "2" =
          some [exInline "a0"] ∧
        (actionSetsOrEmpty (bank_set_swap exThreeSteps "1" "2" "0" "2") "1" "2").map
            (fun e => e.1) =
          [("0", [exInline "a0"]), ("1", [exInline "a1"]), ("2", [exInline "a2"])].map
            (fun e => e.1) ∧
        (∀ page' bank' set', (page', bank', set') ≠ ("1", "2", "0") →
          (page', bank', set') ≠ ("1", "2", "2") →
          actionsAt (bank_set_swap exThreeSteps "1" "2" "0" "2").bank_action_sets page' bank'
              set' =
            actionsAt exThreeSteps.bank_action_sets page' bank' set') ∧
        (bank_set_swap (bank_set_swap exThreeSteps "1" "2" "0" "2") "1" "2" "0"
            "2").bank_action_sets =
          exThreeSteps.bank_action_sets) ∧
      (bank_set_swap exThreeSteps "1" "2" "0" "7").bank_action_sets =
        exThreeSteps.bank_action_sets :=
  ⟨(bank_set_swap_exchanges exThreeSteps
      [("2", [("0", [exInline "a0"]), ("1", [exInline "a1"]), ("2", [exInline "a2"])])]
      [("0", [exInline "a0"]), ("1", [exInline "a1"]), ("2", [exInline "a2"])] "1" "2" "0" "2"
      (by decide) (by decide)).1 (by decide) [exInline "a0"] [exInline "a2"] (by decide)
      (by decide),
    (bank_set_swap_exchanges exThreeSteps
      [("2", [("0", [exInline "a0"]), ("1", [exInline "a1"]), ("2", [exInline "a2"])])]
      [("0", [exInline "a0"]), ("1", [exInline "a1"]), ("2", [exInline "a2"])] "1" "2" "0" "7"
      (by decide) (by decide)).2 (Or.inr (Or.inr ⟨by decide, by decide⟩))⟩

/-! ## Saving after an edit -/

/-- C22 at its failing input, the example step buttons: `bank_set_append`, `bank_set_remove` and
`bank_set_swap` change the action-set map and return without `doSave`, the
calls they make are only the notifications of the step logic and of the user
interface; the handler of `bank_action_add` on the same button does write the
changed map to the database. -/
theorem set_operations_do_not_save :
    ((bank_set_append exOneStep "1" "2").map (fun s' => s'.bank_action_sets) =
          some [("1", [("2", [("0", []), ("1", [])])])] ∧
        (bank_set_append exOneStep "1" "2").map (fun s' => s'.events) =
          some [Event.io_bank_action_sets_list "1" "2" ["0", "1"]]) ∧
      ((bank_set_remove exThreeSteps "1" "2" "2").map (fun s' => s'.bank_action_sets) =
          some [("1", [("2", [("0", [exInline "a0"]), ("1", [exInline "a1"])])])] ∧
        (bank_set_remove exThreeSteps "1" "2" "2").map (fun s' => s'.events) =
          some [Event.system_bank_action_sets_step "1" "2" 0,
            Event.io_bank_action_sets_step "1" "2" (some "0"),
            Event.graphics_bank_invalidate "1" (some "2"),
            Event.io_bank_action_sets_list "1" "2" ["0", "1"]]) ∧
      ((bank_set_swap exThreeSteps "1" "2" "0" "2").bank_action_sets =
          [("1", [("2", [("0", [exInline "a2"]), ("1", [exInline "a1"]),
            ("2", [exInline "a0"])])])] ∧
        (bank_set_swap exThreeSteps "1" "2" "0" "2").events =
          [Event.io_bank_action_sets_reload "1" "2" ["0", "2"]]) ∧
      (bank_action_add exOneStep "1" "2" "0" "n1" "m" "go" false).map (fun s' => s'.events) =
        some [Event.db_setKey_bank_action_sets [("1", [("2", [("0", [exAdded])])])],
          Event.graphics_invalidateBank "1" "2"] := by
  decide

/-! ## The cursors after construction -/

/-- A loop that writes the same value under a list of keys leaves that value
under each of them. -/
theorem foldl_set_get {α : Type} (l : List Nat) (f : Nat → String) (v : α) (o : JsObject α)
    (k : String) (h : o.get k = some v ∨ ∃ i ∈ l, f i = k) :
    (l.foldl (fun o i => o.set (f i) v) o).get k = some v := by
  induction l generalizing o with
  | nil =>
    rcases h with h | ⟨i, hi, _⟩
    · exact h
    · simp at hi
  | cons j rest ih =>
    rw [List.foldl_cons]
    apply ih
    by_cases hj : f j = k
    · left
      rw [hj]
      exact JsObject.get_set_self o k v
    · rcases h with h | ⟨i, hi, hik⟩
      · left
        rw [JsObject.get_set_other o (f j) k v hj]
        exact h
      · rcases List.mem_cons.mp hi with hij | hi'
        · subst hij
          exact absurd hik hj
        · exact Or.inr ⟨i, hi', hik⟩

/-- The loops of the constructor: every key from 1 to `n` gets the value. -/
theorem range_set_get {α : Type} (n : Nat) (v : α) (k : Nat) (hk : 1 ≤ k ∧ k ≤ n) :
    JsObject.get
      ((List.range n).foldl (fun o (i : Nat) => JsObject.set o (intToString ((i : Int) + 1)) v) [])
      (intToString (k : Int)) = some v := by
  apply foldl_set_get (List.range n) (fun i => intToString ((i : Int) + 1))
  right
  refine ⟨k - 1, List.mem_range.mpr (by omega), ?_⟩
  have hcast : ((k - 1 : Nat) : Int) + 1 = (k : Int) := by omega
  simp only [hcast]

/-- C23 as amended: the constructor takes the action sets as they were
persisted and sets the cursor of every button of the pages 1 to 99 (banks 1 to
`MAX_BUTTONS`) to `"0"`, whatever sets were persisted for the button. -/
theorem constructor_cursor_zero (persisted : JsObject (JsObject (JsObject (List Action))))
    (MAX_BUTTONS page bank : Nat) (hpage : 1 ≤ page ∧ page ≤ 99)
    (hbank : 1 ≤ bank ∧ bank ≤ MAX_BUTTONS) :
    cursorOf (BankAction.constructor persisted MAX_BUTTONS) (intToString (page : Int))
        (intToString (bank : Int)) = some "0" ∧
      (BankAction.constructor persisted MAX_BUTTONS).bank_action_sets = persisted := by
  have hfield : (BankAction.constructor persisted MAX_BUTTONS).bank_cycle_step =
      constructorPages MAX_BUTTONS := by
    simp only [BankAction.constructor]
  have hp : (constructorPages MAX_BUTTONS).get (intToString (page : Int)) =
      some (constructorBanks MAX_BUTTONS) := by
    unfold constructorPages
    exact range_set_get 99 (constructorBanks MAX_BUTTONS) page hpage
  have hb : (constructorBanks MAX_BUTTONS).get (intToString (bank : Int)) = some (some "0") := by
    unfold constructorBanks
    exact range_set_get MAX_BUTTONS (some "0") bank hbank
  refine ⟨?_, rfl⟩
  unfold cursorOf
  rw [hfield, hp]
  simp only [hb]
  rfl

/-- Witness of C23 as amended: with the persisted sets `"1"` and `"2"`
of button 2 on page 1 and 32 buttons a page, the cursor of that button is
`"0"` after construction. -/
theorem constructor_cursor_zero_witness :
    cursorOf (BankAction.constructor exStaleCursor.bank_action_sets 32)
        (intToString ((1 : Nat) : Int)) (intToString ((2 : Nat) : Int)) = some "0" ∧
      (BankAction.constructor exStaleCursor.bank_action_sets 32).bank_action_sets =
        exStaleCursor.bank_action_sets :=
  constructor_cursor_zero exStaleCursor.bank_action_sets 32 1 2 (by decide) (by decide)

/-- C23 fails as stated, on persisted sets with a gap: when only the sets `"1"` and `"2"`
of button 2 on page 1 were persisted, the cursor of the button after
construction is `"0"`, which is not an id of the button, while the first
existing id is `"1"`. -/
theorem constructor_cursor_counterexample :
    cursorOf (BankAction.constructor exStaleCursor.bank_action_sets 32) "1" "2" = some "0" ∧
      (objectKeys (actionSetsOrEmpty
        (BankAction.constructor exStaleCursor.bank_action_sets 32) "1" "2")).head? = some "1" ∧
      "0" ∉ objectKeys (actionSetsOrEmpty
        (BankAction.constructor exStaleCursor.bank_action_sets 32) "1" "2") := by
  decide

/-! ## Stepping by an amount: the arithmetic -/

theorem bitLength_le (fuel a k : Nat) (h : a < 2 ^ k) : bitLength fuel a ≤ k := by
  induction fuel generalizing a k with
  | zero => simp [bitLength]
  | succ f ih =>
    unfold bitLength
    split
    · omega
    · rename_i ha
      cases k with
      | zero =>
        simp at h
        exact absurd h ha
      | succ k' =>
        have hhalf : a / 2 < 2 ^ k' := by
          rw [Nat.pow_succ] at h
          omega
        have := ih (a / 2) k' hhalf
        omega

/-- An integer of magnitude below `2^53` is a double. -/
theorem roundToDouble_of_lt (z : Int) (h : z.natAbs < 2 ^ 53) : roundToDouble z = z := by
  unfold roundToDouble
  simp only
  rw [if_pos (bitLength_le _ _ 53 h)]

/-- Within the range of exact integers the loop ends, and it ends at the
non-negative number of the same residue that is closest to where it began. -/
theorem whileNegative_spec (n : Nat) (hn1 : 1 ≤ n) (hn2 : n < 2 ^ 53) (fuel : Nat) (x : Int)
    (hx : -(2 ^ 53 : Int) < x) (hfuel : (-x).toNat + 1 ≤ fuel) :
    ∃ r, whileNegative n fuel x = some r ∧ 0 ≤ r ∧ r % (n : Int) = x % (n : Int) ∧
      (x < 0 → r < (n : Int)) ∧ (0 ≤ x → r = x) := by
  have hpow : (2 : Nat) ^ 53 = 9007199254740992 := by norm_num
  have hpowi : (2 : Int) ^ 53 = 9007199254740992 := by norm_num
  rw [hpow] at hn2
  rw [hpowi] at hx
  induction fuel generalizing x with
  | zero => omega
  | succ f ih =>
    unfold whileNegative
    by_cases hneg : x < 0
    · rw [if_pos hneg]
      have hround : roundToDouble (x + (n : Int)) = x + (n : Int) := by
        apply roundToDouble_of_lt
        rw [hpow]
        omega
      rw [hround]
      obtain ⟨r, hr, h0, hmod, hlt, heq⟩ := ih (x + (n : Int)) (by omega) (by omega)
      refine ⟨r, hr, h0, ?_, ?_, ?_⟩
      · rw [hmod, Int.add_emod_self]
      · intro _
        by_cases hsum : x + (n : Int) < 0
        · exact hlt hsum
        · rw [heq (by omega)]
          omega
      · intro h
        omega
    · rw [if_neg hneg]
      exact ⟨x, rfl, by omega, rfl, fun h => absurd h hneg, fun _ => rfl⟩

theorem findIndexFrom_nonneg {α : Type} (p : α → Bool) (xs : List α) (i : Nat) :
    findIndexFrom p xs i = -1 ∨ (i : Int) ≤ findIndexFrom p xs i := by
  induction xs generalizing i with
  | nil => exact Or.inl rfl
  | cons x rest ih =>
    unfold findIndexFrom
    split
    · exact Or.inr (le_refl _)
    · rcases ih (i + 1) with h | h
      · exact Or.inl h
      · right
        push_cast at h
        omega

theorem currentStep_nonneg (all_steps : List String) (cursor : String) :
    0 ≤ currentStep all_steps cursor := by
  unfold currentStep
  simp only
  split
  · exact le_refl _
  · rcases findIndexFrom_nonneg (fun k => decide (k = cursor)) all_steps 0 with h | h
    · rename_i hne
      exact absurd h hne
    · simpa using h

theorem JsObject.get_of_mem_keys {α : Type} (o : JsObject α) (k : String)
    (h : k ∈ o.map (fun e => e.1)) : ∃ v, o.get k = some v := by
  induction o with
  | nil => simp at h
  | cons e rest ih =>
    obtain ⟨k', v'⟩ := e
    by_cases hk : k' = k
    · exact ⟨v', by simp [JsObject.get, hk]⟩
    · have hrest : k ∈ rest.map (fun e => e.1) := by
        simp only [List.map_cons, List.mem_cons] at h
        rcases h with h | h
        · exact absurd h.symm hk
        · exact h
      obtain ⟨v, hv⟩ := ih hrest
      exact ⟨v, by simp [JsObject.get, hk, hv]⟩

/-- On a step button `bank_set_next_step` moves the cursor to a set that
exists. -/
theorem bank_set_next_step_found (s : State) (banks : JsObject (JsObject (List Action)))
    (sets : JsObject (List Action)) (cursors : JsObject (Option String))
    (page bank key : String)
    (hstyle : (BankController.get s page bank).style = some "step")
    (hpage : s.bank_action_sets.get page = some banks) (hbank : banks.get bank = some sets)
    (hcursors : s.bank_cycle_step.get page = some cursors) (hkey : key ∈ objectKeys sets) :
    ∃ s', bank_set_next_step s page bank (some key) = some s' ∧
      cursorOf s' page bank = some key ∧ s'.bank_action_sets = s.bank_action_sets := by
  obtain ⟨v, hv⟩ := JsObject.get_of_mem_keys sets key ((mem_objectKeys sets key).mp hkey)
  have hens := ensureBank_of_exists s.bank_action_sets banks sets page bank hpage hbank
  have hsets := actionSetsOrEmpty_of_exists s banks sets page bank hpage hbank
  have heta : ({ s with bank_action_sets := s.bank_action_sets } : State) = s := rfl
  have hchange := bank_set_step_change_of_exists
    { s with bank_cycle_step := s.bank_cycle_step.set page (cursors.set bank (some key)) }
    banks sets page bank (some key) hpage hbank
  unfold bank_set_next_step
  simp only [hens, heta, hsets, Option.getD_some, hv, hstyle, if_true, hcursors, hchange]
  refine ⟨_, rfl, ?_, rfl⟩
  unfold cursorOf
  simp [State.emit, JsObject.get_set_self]

/-- C27 as amended, within the range of exact integers: on a step button with `n >= 1`
sets whose cursor is a non-empty string, for a non-zero integer `amount` with
`|c + amount| < 2^53`, where `c` is the position of the cursor in the key list
(0 when it is not in the list), `onBankStepDelta` returns, once the fuel covers
the rounds of its loop, and the cursor is then the key at index
`(c + amount) mod n`, the non-negative remainder. -/
theorem onBankStepDelta_wraps (s : State) (banks : JsObject (JsObject (List Action)))
    (sets : JsObject (List Action)) (cursors : JsObject (Option String))
    (page bank cursor : String) (amount : Int)
    (hstyle : (BankController.get s page bank).style = some "step")
    (hpage : s.bank_action_sets.get page = some banks) (hbank : banks.get bank = some sets)
    (hlen : 1 ≤ sets.length) (hsize : sets.length < 2 ^ 53)
    (hcursors : s.bank_cycle_step.get page = some cursors)
    (hcursor : cursors.get bank = some (some cursor)) (htruthy : cursor ≠ "")
    (hamount : amount ≠ 0)
    (hsafe : (currentStep (objectKeys sets) cursor + amount).natAbs < 2 ^ 53) :
    ∃ s' key,
      (∀ fuel, amount.natAbs + 1 ≤ fuel → onBankStepDelta fuel s page bank amount = some s') ∧
      (objectKeys sets)[((currentStep (objectKeys sets) cursor + amount) %
        (sets.length : Int)).toNat]? = some key ∧
      cursorOf s' page bank = some key := by
  have hklen : (objectKeys sets).length = sets.length := objectKeys_length sets
  have hc := currentStep_nonneg (objectKeys sets) cursor
  have hnpos : (0 : Int) < (sets.length : Int) := by omega
  have hidx0 : 0 ≤ (currentStep (objectKeys sets) cursor + amount) % (sets.length : Int) :=
    Int.emod_nonneg _ (by omega)
  have hidx1 : (currentStep (objectKeys sets) cursor + amount) % (sets.length : Int) <
      (sets.length : Int) := Int.emod_lt_of_pos _ hnpos
  have hlt : ((currentStep (objectKeys sets) cursor + amount) % (sets.length : Int)).toNat <
      (objectKeys sets).length := by
    rw [hklen]
    omega
  obtain ⟨s', hstep, hcur, -⟩ := bank_set_next_step_found s banks sets cursors page bank
    ((objectKeys sets)[((currentStep (objectKeys sets) cursor + amount) %
      (sets.length : Int)).toNat]) hstyle hpage hbank hcursors (List.getElem_mem _)
  refine ⟨s', _, ?_, List.getElem?_eq_getElem hlt, hcur⟩
  intro fuel hfuel
  have hpowi : (2 : Int) ^ 53 = 9007199254740992 := by norm_num
  have hpow : (2 : Nat) ^ 53 = 9007199254740992 := by norm_num
  obtain ⟨r, hr, h0, hmod, -, -⟩ := whileNegative_spec sets.length hlen hsize fuel
    (currentStep (objectKeys sets) cursor + amount)
    (by rw [hpowi]; rw [hpow] at hsafe; omega) (by omega)
  have htmod : Int.tmod r (sets.length : Int) =
      (currentStep (objectKeys sets) cursor + amount) % (sets.length : Int) := by
    rw [Int.tmod_eq_emod h0 (by omega), hmod]
  unfold onBankStepDelta
  simp only [hpage, hcursors, hbank, hcursor, Option.join, Option.bind, id]
  rw [if_pos ⟨htruthy, hamount⟩]
  unfold onBankStepDeltaMove
  simp only [hklen, roundToDouble_of_lt _ hsafe, hr, htmod]
  rw [if_pos (by omega)]
  unfold arrayGet
  rw [if_pos hidx0, List.getElem?_eq_getElem hlt]
  exact hstep

/-- Witness of C27 as amended: on the example button
with sets `"0"`, `"1"`, `"2"` and the cursor at `"1"`, the amount `-5` moves the
cursor to `"2"`, the key at index `(1 - 5) mod 3 = 2`. -/
theorem onBankStepDelta_wraps_witness :
    (∃ s' key,
      (∀ fuel, (-5 : Int).natAbs + 1 ≤ fuel →
        onBankStepDelta fuel exThreeSteps "1" "2" (-5) = some s') ∧
      (objectKeys [("0", [exInline "a0"]), ("1", [exInline "a1"]), ("2", [exInline "a2"])])[
        ((currentStep
          (objectKeys [("0", [exInline "a0"]), ("1", [exInline "a1"]), ("2", [exInline "a2"])])
          "1" + -5) %
          (([("0", [exInline "a0"]), ("1", [exInline "a1"]),
            ("2", [exInline "a2"])] : JsObject (List Action)).length : Int)).toNat]? = some key ∧
      cursorOf s' "1" "2" = some key) ∧
      (onBankStepDelta 6 exThreeSteps "1" "2" (-5)).bind (fun s' => cursorOf s' "1" "2") =
        some "2" :=
  ⟨onBankStepDelta_wraps exThreeSteps
      [("2", [("0", [exInline "a0"]), ("1", [exInline "a1"]), ("2", [exInline "a2"])])]
      [("0", [exInline "a0"]), ("1", [exInline "a1"]), ("2", [exInline "a2"])]
      [("2", some "1")] "1" "2" "1" (-5)
      (by decide) (by decide) (by decide) (by decide) (by decide) (by decide) (by decide)
      (by decide) (by decide) (by decide),
    by decide⟩

/-- A loop that starts below zero at a double which adding the length rounds
back to itself never ends. -/
theorem whileNegative_stuck (length fuel : Nat) (x : Int) (hneg : x < 0)
    (hround : roundToDouble (x + (length : Int)) = x) : whileNegative length fuel x = none := by
  induction fuel with
  | zero => rfl
  | succ f ih =>
    unfold whileNegative
    rw [if_pos hneg, hround]
    exact ih

/-- On the example button with three sets the amount `-2^60` keeps the loop of
`onBankStepDelta` running whatever the fuel: `-2^60 + 3` rounds to `-2^60`. -/
theorem onBankStepDelta_never_returns (fuel : Nat) :
    onBankStepDelta fuel exThreeSteps "1" "2" (-(2 ^ 60)) = none := by
  have hloop : whileNegative 3 fuel (-1152921504606846976) = none :=
    whileNegative_stuck 3 fuel (-1152921504606846976) (by decide) (by decide)
  have hstart : roundToDouble (-1152921504606846975) = -1152921504606846976 := by decide
  have hkeys : objectKeys
      [("0", [exInline "a0"]), ("1", [exInline "a1"]), ("2", [exInline "a2"])] =
      ["0", "1", "2"] := by decide
  have hcurrent : currentStep ["0", "1", "2"] "1" = 1 := by decide
  simp [onBankStepDelta, onBankStepDeltaMove, exThreeSteps, JsObject.get, hkeys, hcurrent,
    hstart, hloop]

/-- C27 fails as stated beyond the range of exact integers, on the example button with
sets `"0"`, `"1"`, `"2"` and the cursor at `"1"`: for the amount `2^60` the sum
`1 + 2^60` is rounded to `2^60`, so the cursor goes to `"1"`, the key at index
`2^60 mod 3 = 1`, and not to `"2"`, the key at index `(1 + 2^60) mod 3 = 2`;
for the amount `-2^60` the loop has not ended after 8 rounds (and never
does). -/
theorem onBankStepDelta_counterexample :
    (onBankStepDelta 8 exThreeSteps "1" "2" (2 ^ 60)).map (fun s' => cursorOf s' "1" "2") =
        some (some "1") ∧
      arrayGet (objectKeys (actionSetsOrEmpty exThreeSteps "1" "2")) ((1 + 2 ^ 60) % 3) =
        some "2" ∧
      currentStep (objectKeys (actionSetsOrEmpty exThreeSteps "1" "2")) "1" = 1 ∧
      roundToDouble (1 + 2 ^ 60) = 2 ^ 60 ∧
      roundToDouble (-(2 ^ 60) + 3) = -(2 ^ 60) ∧
      onBankStepDelta 8 exThreeSteps "1" "2" (-(2 ^ 60)) = none := by
  decide

/-! ## The key space of a style -/

theorem buttonSets_of_putSets (s s' : State) (banks : JsObject (JsObject (List Action)))
    (page bank : String) (v : JsObject (List Action))
    (hpage : s.bank_action_sets.get page = some banks)
    (h : s'.bank_action_sets = putSets s.bank_action_sets page bank v) :
    ButtonSets s' page bank v := by
  refine ⟨banks.set bank v, ?_, JsObject.get_set_self _ _ _⟩
  rw [h]
  unfold putSets
  rw [hpage]
  exact JsObject.get_set_self _ _ _

theorem buttonSets_of_eq (s s' : State) (page bank : String) (sets : JsObject (List Action))
    (h : s'.bank_action_sets = s.bank_action_sets) (hb : ButtonSets s page bank sets) :
    ButtonSets s' page bank sets := by
  unfold ButtonSets at *
  rw [h]
  exact hb

theorem style_of_config (s s' : State) (page bank : String) (h : s'.config = s.config) :
    BankController.get s' page bank = BankController.get s page bank := by
  unfold BankController.get
  rw [h]

theorem bank_set_step_change_frame (s s' : State) (page bank : String) (value : Option String)
    (h : bank_set_step_change s page bank value = some s') :
    s'.bank_action_sets = s.bank_action_sets ∧ s'.config = s.config ∧
      ∃ sets, ButtonSets s page bank sets := by
  unfold bank_set_step_change at h
  split at h
  · simp at h
  · rename_i banks hpage
    split at h
    · simp at h
    · rename_i sets hbank
      simp only [Option.some.injEq] at h
      subst h
      exact ⟨rfl, rfl, sets, banks, hpage, hbank⟩

theorem bank_set_remove_cursor_config (s s' : State) (page bank id : String)
    (oldKeys : List String) (h : bank_set_remove_cursor s page bank id oldKeys = some s') :
    s'.config = s.config := by
  unfold bank_set_remove_cursor at h
  simp only at h
  generalize (if findIndexFrom (fun k => decide (k = id)) oldKeys 0 + 1 ≥ (oldKeys.length : Int)
    then (0 : Int) else findIndexFrom (fun k => decide (k = id)) oldKeys 0 + 1) = newIndex at h
  by_cases hne : newIndex ≠ findIndexFrom (fun k => decide (k = id)) oldKeys 0
  · rw [if_pos hne] at h
    split at h
    · simp at h
    · split at h
      · simp at h
      · rename_i s2 hchange
        simp only [Option.some.injEq] at h
        subst h
        exact (bank_set_step_change_frame _ _ _ _ _ hchange).2.1
  · rw [if_neg hne] at h
    simp only [Option.some.injEq] at h
    subst h
    rfl

theorem checkBankStatus_config (s : State) (page bank : String) :
    (checkBankStatus s page bank).config = s.config ∧
      (checkBankStatus s page bank).bank_action_sets = s.bank_action_sets := by
  unfold checkBankStatus
  simp only
  split <;> exact ⟨rfl, rfl⟩

theorem answerActions_frame (s s' : State) (page bank set : String) (answer : Bool)
    (h : answerActions s page bank set answer = some s') :
    s'.config = s.config ∧ s'.bank_action_sets = s.bank_action_sets := by
  unfold answerActions at h
  split at h
  · split at h
    · simp at h
    · split at h
      · simp at h
      · simp only [Option.some.injEq] at h
        subst h
        exact ⟨rfl, rfl⟩
  · simp only [Option.some.injEq] at h
    subst h
    exact ⟨rfl, rfl⟩

theorem keySpace_of_same_keys (style : Option String) (sets sets' : JsObject (List Action))
    (hkeys : sets'.map (fun e => e.1) = sets.map (fun e => e.1)) (h : KeySpace style sets) :
    KeySpace style sets' := by
  have hlen : sets'.length = sets.length := by
    have := congrArg List.length hkeys
    simpa using this
  unfold KeySpace at *
  rw [hkeys, hlen]
  exact h

theorem keySpace_setup (style : Option String) : KeySpace style (setupSets style) := by
  unfold KeySpace setupSets
  constructor
  · intro h
    subst h
    decide
  · intro h
    subst h
    refine ⟨by decide, by decide, ?_⟩
    intro k hk
    have hk0 : k = "0" := by simpa using hk
    exact ⟨0, by rw [hk0]; decide⟩

theorem keySpace_append (style : Option String) (sets : JsObject (List Action)) (ns : List Int)
    (hstyle : style = some "step") (hnum : numbersOfKeys (objectKeys sets) = some ns)
    (h : KeySpace style sets) : KeySpace style (sets.set (appendedKey ns) []) := by
  obtain ⟨hlen, hnodup, hnumeric⟩ := h.2 hstyle
  have hfresh : appendedKey ns ∉ sets.map (fun e => e.1) := by
    rw [← mem_objectKeys]
    exact (appendedKey_fresh _ ns hnum).1
  have hnonneg : ∀ m ∈ ns, (0 : Int) ≤ m := by
    intro m hm
    obtain ⟨k, hk, hkm⟩ := (mem_numbersOfKeys _ ns hnum m).mp hm
    obtain ⟨n, hn⟩ := hnumeric k ((mem_objectKeys sets k).mp hk)
    rw [hn, stringToNumber_intToString] at hkm
    have hnm : (n : Int) = m := by
      injection hkm with h1
      injection h1
    omega
  have hnew : ∃ n : Nat, appendedKey ns = intToString (n : Int) := by
    cases ns with
    | nil => exact ⟨0, by decide⟩
    | cons n rest =>
      have hmax := hnonneg _ (mathMax_spec n rest).1
      refine ⟨(mathMax n rest + 1).toNat, ?_⟩
      have hcast : (((mathMax n rest + 1).toNat : Nat) : Int) = mathMax n rest + 1 := by omega
      rw [hcast]
      rfl
  rw [JsObject.set_of_not_mem _ _ _ hfresh]
  refine ⟨fun hp => ?_, fun _ => ⟨?_, ?_, ?_⟩⟩
  · rw [hstyle] at hp
    exact absurd hp (by decide)
  · simp
  · rw [List.map_append]
    exact List.Nodup.append hnodup (by simp) (by simpa using hfresh)
  · intro k hk
    rw [List.map_append, List.mem_append] at hk
    rcases hk with hk | hk
    · exact hnumeric k hk
    · have hk' : k = appendedKey ns := by simpa using hk
      rw [hk']
      exact hnew

theorem keySpace_delete (style : Option String) (sets : JsObject (List Action)) (id : String)
    (hstyle : style = some "step") (hmany : 1 < sets.length) (h : KeySpace style sets) :
    KeySpace style (sets.delete id) := by
  obtain ⟨-, hnodup, hnumeric⟩ := h.2 hstyle
  refine ⟨fun hp => ?_, fun _ => ⟨?_, ?_, ?_⟩⟩
  · rw [hstyle] at hp
    exact absurd hp (by decide)
  · have := JsObject.length_delete sets id hnodup
    omega
  · exact hnodup.sublist ((List.filter_sublist _).map _)
  · intro k hk
    exact hnumeric k ((JsObject.mem_keys_delete sets id k).mp hk).1

theorem bank_set_append_frame (s s' : State) (banks : JsObject (JsObject (List Action)))
    (sets : JsObject (List Action)) (page bank : String)
    (hpage : s.bank_action_sets.get page = some banks) (hbank : banks.get bank = some sets)
    (h : bank_set_append s page bank = some s') :
    s'.config = s.config ∧ ∃ sets', ButtonSets s' page bank sets' ∧
      (((BankController.get s page bank).style = some "step" ∧
          ∃ ns, numbersOfKeys (objectKeys sets) = some ns ∧
            sets' = sets.set (appendedKey ns) []) ∨
        sets' = sets) := by
  have hens := ensureBank_of_exists s.bank_action_sets banks sets page bank hpage hbank
  have hsets := actionSetsOrEmpty_of_exists s banks sets page bank hpage hbank
  have heta : ({ s with bank_action_sets := s.bank_action_sets } : State) = s := rfl
  unfold bank_set_append at h
  simp only [hens, heta, hsets] at h
  split at h
  · rename_i hstyle
    split at h
    · simp at h
    · rename_i ns hnum
      simp only [Option.some.injEq] at h
      subst h
      exact ⟨rfl, _, buttonSets_of_putSets s _ banks page bank _ hpage rfl,
        Or.inl ⟨hstyle, ns, hnum, rfl⟩⟩
  · simp only [Option.some.injEq] at h
    subst h
    exact ⟨rfl, sets, ⟨banks, hpage, hbank⟩, Or.inr rfl⟩

theorem bank_set_remove_frame (s s' : State) (banks : JsObject (JsObject (List Action)))
    (sets : JsObject (List Action)) (page bank id : String)
    (hpage : s.bank_action_sets.get page = some banks) (hbank : banks.get bank = some sets)
    (h : bank_set_remove s page bank id = some s') :
    s'.config = s.config ∧ ∃ sets', ButtonSets s' page bank sets' ∧
      (((BankController.get s page bank).style = some "step" ∧ 1 < sets.length ∧
          sets' = sets.delete id) ∨
        sets' = sets) := by
  have hens := ensureBank_of_exists s.bank_action_sets banks sets page bank hpage hbank
  have hsets := actionSetsOrEmpty_of_exists s banks sets page bank hpage hbank
  have heta : ({ s with bank_action_sets := s.bank_action_sets } : State) = s := rfl
  unfold bank_set_remove at h
  simp only [hens, heta, hsets] at h
  split at h
  · rename_i hstyle
    split at h
    · rename_i hmany
      rw [objectKeys_length] at hmany
      split at h
      · simp at h
      · rename_i s2 hcursor
        simp only [Option.some.injEq] at h
        subst h
        have hs2 := bank_set_remove_cursor_sets _ _ _ _ _ _ hcursor
        have hc2 := bank_set_remove_cursor_config _ _ _ _ _ _ hcursor
        exact ⟨hc2, _, buttonSets_of_putSets s _ banks page bank _ hpage hs2,
          Or.inl ⟨hstyle, hmany, rfl⟩⟩
    · simp only [Option.some.injEq] at h
      subst h
      exact ⟨rfl, sets, ⟨banks, hpage, hbank⟩, Or.inr rfl⟩
  · simp only [Option.some.injEq] at h
    subst h
    exact ⟨rfl, sets, ⟨banks, hpage, hbank⟩, Or.inr rfl⟩

theorem buttonSets_of_set (s s' : State) (banks : JsObject (JsObject (List Action)))
    (sets : JsObject (List Action)) (page bank set : String) (v v' : List Action)
    (hpage : s.bank_action_sets.get page = some banks) (hset : sets.get set = some v)
    (h : s'.bank_action_sets = putSets s.bank_action_sets page bank (sets.set set v')) :
    ∃ sets', ButtonSets s' page bank sets' ∧
      sets'.map (fun e => e.1) = sets.map (fun e => e.1) :=
  ⟨_, buttonSets_of_putSets s s' banks page bank _ hpage h,
    JsObject.keys_set_of_mem _ _ _ (JsObject.mem_keys_of_get sets set v hset)⟩

theorem ite_emit_frame (c : Prop) [Decidable c] (s : State) (e : Event) :
    (if c then s.emit e else s).bank_action_sets = s.bank_action_sets ∧
      (if c then s.emit e else s).config = s.config := by
  split <;> exact ⟨rfl, rfl⟩

theorem bank_set_swap_frame (s : State) (banks : JsObject (JsObject (List Action)))
    (sets : JsObject (List Action)) (page bank id1 id2 : String)
    (hpage : s.bank_action_sets.get page = some banks) (hbank : banks.get bank = some sets) :
    (bank_set_swap s page bank id1 id2).config = s.config ∧
      ∃ sets', ButtonSets (bank_set_swap s page bank id1 id2) page bank sets' ∧
        sets'.map (fun e => e.1) = sets.map (fun e => e.1) := by
  by_cases hcond : (BankController.get s page bank).style ≠ some "step" ∨ sets.get id1 = none ∨
      sets.get id2 = none
  · rw [bank_set_swap_noop s banks sets page bank id1 id2 hpage hbank hcond]
    exact ⟨rfl, sets, ⟨banks, hpage, hbank⟩, rfl⟩
  · simp only [not_or, not_not] at hcond
    obtain ⟨hstyle, h1, h2⟩ := hcond
    obtain ⟨set1, h1⟩ := Option.ne_none_iff_exists'.mp h1
    obtain ⟨set2, h2⟩ := Option.ne_none_iff_exists'.mp h2
    obtain ⟨hm, hconfig, -⟩ := bank_set_swap_step s banks sets page bank id1 id2 set1 set2
      hstyle hpage hbank h1 h2
    have hk1 : id1 ∈ sets.map (fun e => e.1) := JsObject.mem_keys_of_get sets id1 set1 h1
    have hk2 : id2 ∈ sets.map (fun e => e.1) := JsObject.mem_keys_of_get sets id2 set2 h2
    refine ⟨hconfig, (sets.set id1 set2).set id2 set1,
      ⟨banks.set bank ((sets.set id1 set2).set id2 set1), ?_, JsObject.get_set_self _ _ _⟩, ?_⟩
    · rw [hm]
      exact JsObject.get_set_self _ _ _
    · rw [JsObject.keys_set_of_mem _ _ _ (by rw [JsObject.keys_set_of_mem _ _ _ hk1]; exact hk2),
        JsObject.keys_set_of_mem _ _ _ hk1]

theorem bank_action_add_frame (s s' : State) (banks : JsObject (JsObject (List Action)))
    (sets : JsObject (List Action)) (page bank set id instanceId action : String)
    (answer : Bool)
    (hpage : s.bank_action_sets.get page = some banks) (hbank : banks.get bank = some sets)
    (h : bank_action_add s page bank set id instanceId action answer = some s') :
    s'.config = s.config ∧ ∃ sets', ButtonSets s' page bank sets' ∧
      sets'.map (fun e => e.1) = sets.map (fun e => e.1) := by
  have hens := ensureBank_of_exists s.bank_action_sets banks sets page bank hpage hbank
  have hsets := actionSetsOrEmpty_of_exists s banks sets page bank hpage hbank
  have heta : ({ s with bank_action_sets := s.bank_action_sets } : State) = s := rfl
  unfold bank_action_add at h
  simp only [hens, heta, hsets] at h
  split at h
  · simp only [Option.some.injEq] at h
    subst h
    exact ⟨rfl, sets, ⟨banks, hpage, hbank⟩, rfl⟩
  · rename_i action_set hset
    split at h
    · simp at h
    · rename_i s4 hanswer
      simp only [Option.some.injEq] at h
      subst h
      obtain ⟨hc4, hm4⟩ := answerActions_frame _ _ _ _ _ _ hanswer
      refine ⟨?_, ?_⟩
      · rw [(checkBankStatus_config s4 page bank).1, hc4]
        unfold doSave State.emit
        split <;> rfl
      · apply buttonSets_of_set s _ banks sets page bank set action_set
          (action_set ++ [⟨id, instanceId, action, JsValue.undefined⟩]) hpage hset
        rw [(checkBankStatus_config s4 page bank).2, hm4]
        unfold doSave State.emit
        split <;> rfl

theorem deleteAction_frame (s : State) (banks : JsObject (JsObject (List Action)))
    (sets : JsObject (List Action)) (page bank set id : String)
    (hpage : s.bank_action_sets.get page = some banks) (hbank : banks.get bank = some sets) :
    (deleteAction s page bank set id sets).config = s.config ∧
      ∃ sets', ButtonSets (deleteAction s page bank set id sets) page bank sets' ∧
        sets'.map (fun e => e.1) = sets.map (fun e => e.1) := by
  unfold deleteAction
  split
  · exact ⟨rfl, sets, ⟨banks, hpage, hbank⟩, rfl⟩
  · rename_i action_set hset
    split
    · exact ⟨rfl, sets, ⟨banks, hpage, hbank⟩, rfl⟩
    · rename_i a _
      obtain ⟨hm, hc⟩ := ite_emit_frame (a.instanceId ∈ s.children) s (Event.actionDelete a)
      refine ⟨hc, ?_⟩
      apply buttonSets_of_set s _ banks sets page bank set action_set
        (action_set.eraseP (fun a => a.id = id)) hpage hset
      simp only [hm]

theorem bank_action_delete_frame (s s' : State) (banks : JsObject (JsObject (List Action)))
    (sets : JsObject (List Action)) (page bank set id : String) (answer : Bool)
    (hpage : s.bank_action_sets.get page = some banks) (hbank : banks.get bank = some sets)
    (h : bank_action_delete s page bank set id answer = some s') :
    s'.config = s.config ∧ ∃ sets', ButtonSets s' page bank sets' ∧
      sets'.map (fun e => e.1) = sets.map (fun e => e.1) := by
  unfold bank_action_delete at h
  simp only [hpage, hbank] at h
  split at h
  · simp at h
  · rename_i s2 hanswer
    simp only [Option.some.injEq] at h
    subst h
    obtain ⟨hc2, hm2⟩ := answerActions_frame _ _ _ _ _ _ hanswer
    obtain ⟨hc1, sets', hb1, hk1⟩ := deleteAction_frame s banks sets page bank set id hpage hbank
    refine ⟨?_, sets', ?_, hk1⟩
    · rw [(checkBankStatus_config s2 page bank).1, hc2]
      exact hc1
    · apply buttonSets_of_eq (deleteAction s page bank set id sets) _ page bank sets' _ hb1
      rw [(checkBankStatus_config s2 page bank).2, hm2]
      rfl

theorem reorder_frame (s s' : State) (banks : JsObject (JsObject (List Action)))
    (sets : JsObject (List Action)) (page bank set : String) (old_index new_index : Nat)
    (hpage : s.bank_action_sets.get page = some banks) (hbank : banks.get bank = some sets)
    (h : bank_update_action_option_order s page bank set old_index new_index = some s') :
    s'.config = s.config ∧ ∃ sets', ButtonSets s' page bank sets' ∧
      sets'.map (fun e => e.1) = sets.map (fun e => e.1) := by
  unfold bank_update_action_option_order at h
  simp only [hpage, hbank] at h
  split at h
  · simp only [Option.some.injEq] at h
    subst h
    exact ⟨rfl, sets, ⟨banks, hpage, hbank⟩, rfl⟩
  · rename_i action_set hset
    split at h
    · simp at h
    · rename_i moved _
      simp only [Option.some.injEq] at h
      subst h
      exact ⟨rfl, buttonSets_of_set s _ banks sets page bank set action_set _ hpage hset rfl⟩

theorem setupBank_frame (s s' : State) (page bank : String) (style : Option String)
    (h : setupBank s page bank style = some s') :
    s'.config = s.config ∧ ButtonSets s' page bank (setupSets style) := by
  unfold setupBank at h
  split at h
  · simp at h
  · rename_i cursors _
    simp only at h
    split at h
    · simp at h
    · rename_i s2 hchange
      simp only [Option.some.injEq] at h
      subst h
      obtain ⟨hm, hc, sets, banks, hpage, -⟩ := bank_set_step_change_frame _ _ _ _ _ hchange
      refine ⟨hc, ?_⟩
      exact buttonSets_of_putSets s2 _ banks page bank _ (by rw [hm]; exact hpage) rfl

/-- After `setupBank` and any calls of the store on the button, the style of
the button is the one it was set up with and its object of sets exists and
has the key space of the style. -/
theorem storeReachable_invariant (page bank : String) (style : Option String) (s : State)
    (h : StoreReachable page bank style s) :
    (BankController.get s page bank).style = style ∧
      ∃ sets, ButtonSets s page bank sets ∧ KeySpace style sets := by
  induction h with
  | setup s s' hstyle h =>
    obtain ⟨hc, hb⟩ := setupBank_frame s s' page bank style h
    exact ⟨by rw [style_of_config s s' page bank hc]; exact hstyle, _, hb, keySpace_setup style⟩
  | addSet s s' _ h ih =>
    obtain ⟨hstyle, sets, ⟨banks, hpage, hbank⟩, hkeys⟩ := ih
    obtain ⟨hc, sets', hb, hcase⟩ := bank_set_append_frame s s' banks sets page bank hpage hbank h
    refine ⟨by rw [style_of_config s s' page bank hc]; exact hstyle, sets', hb, ?_⟩
    rcases hcase with ⟨hstep, ns, hnum, hsets'⟩ | hsets'
    · rw [hsets']
      exact keySpace_append style sets ns (by rw [← hstyle]; exact hstep) hnum hkeys
    · rw [hsets']
      exact hkeys
  | removeSet s s' id _ h ih =>
    obtain ⟨hstyle, sets, ⟨banks, hpage, hbank⟩, hkeys⟩ := ih
    obtain ⟨hc, sets', hb, hcase⟩ := bank_set_remove_frame s s' banks sets page bank id hpage
      hbank h
    refine ⟨by rw [style_of_config s s' page bank hc]; exact hstyle, sets', hb, ?_⟩
    rcases hcase with ⟨hstep, hmany, hsets'⟩ | hsets'
    · rw [hsets']
      exact keySpace_delete style sets id (by rw [← hstyle]; exact hstep) hmany hkeys
    · rw [hsets']
      exact hkeys
  | swapSets s id1 id2 _ _ _ ih =>
    obtain ⟨hstyle, sets, ⟨banks, hpage, hbank⟩, hkeys⟩ := ih
    obtain ⟨hc, sets', hb, hsame⟩ := bank_set_swap_frame s banks sets page bank id1 id2 hpage
      hbank
    exact ⟨by rw [style_of_config s _ page bank hc]; exact hstyle, sets', hb,
      keySpace_of_same_keys style sets sets' hsame hkeys⟩
  | addAction s s' set id instanceId action answer _ _ h ih =>
    obtain ⟨hstyle, sets, ⟨banks, hpage, hbank⟩, hkeys⟩ := ih
    obtain ⟨hc, sets', hb, hsame⟩ := bank_action_add_frame s s' banks sets page bank set id
      instanceId action answer hpage hbank h
    exact ⟨by rw [style_of_config s s' page bank hc]; exact hstyle, sets', hb,
      keySpace_of_same_keys style sets sets' hsame hkeys⟩
  | deleteAction s s' set id answer _ _ h ih =>
    obtain ⟨hstyle, sets, ⟨banks, hpage, hbank⟩, hkeys⟩ := ih
    obtain ⟨hc, sets', hb, hsame⟩ := bank_action_delete_frame s s' banks sets page bank set id
      answer hpage hbank h
    exact ⟨by rw [style_of_config s s' page bank hc]; exact hstyle, sets', hb,
      keySpace_of_same_keys style sets sets' hsame hkeys⟩
  | reorderActions s s' set old_index new_index _ _ h ih =>
    obtain ⟨hstyle, sets, ⟨banks, hpage, hbank⟩, hkeys⟩ := ih
    obtain ⟨hc, sets', hb, hsame⟩ := reorder_frame s s' banks sets page bank set old_index
      new_index hpage hbank h
    exact ⟨by rw [style_of_config s s' page bank hc]; exact hstyle, sets', hb,
      keySpace_of_same_keys style sets sets' hsame hkeys⟩

/-- C25: after `setupBank(page, bank, style)`, made for the style stored for
the button, and any sequence of returning calls that append, remove or swap
sets or add, delete or reorder actions on that button, in which the set ids
handed to the swap and to the three action handlers are not names of members
of `Object.prototype`, the sets of the button have the key space of the
style: on a press button `Object.keys` gives exactly `down` and `up`; on a
step button there is at least one set and every set id is the decimal numeral
of a natural number (and the ids are distinct). -/
theorem setupBank_key_space (page bank : String) (style : Option String) (s : State)
    (h : StoreReachable page bank style s) :
    KeySpace style (actionSetsOrEmpty s page bank) ∧
      (style = some "press" → objectKeys (actionSetsOrEmpty s page bank) = ["down", "up"]) ∧
      (style = some "step" → 1 ≤ (objectKeys (actionSetsOrEmpty s page bank)).length ∧
        ∀ k ∈ objectKeys (actionSetsOrEmpty s page bank), ∃ n : Nat,
          k = intToString (n : Int) ∧ stringToNumber k = some (JsNumber.int n)) := by
  obtain ⟨-, sets, ⟨banks, hpage, hbank⟩, hkeys⟩ := storeReachable_invariant page bank style s h
  rw [actionSetsOrEmpty_of_exists s banks sets page bank hpage hbank]
  refine ⟨hkeys, ?_, ?_⟩
  · intro hpress
    have hk := hkeys.1 hpress
    unfold objectKeys
    simp only [hk]
    decide
  · intro hstep
    obtain ⟨hlen, -, hnumeric⟩ := hkeys.2 hstep
    refine ⟨by rw [objectKeys_length]; exact hlen, ?_⟩
    intro k hk
    obtain ⟨n, hn⟩ := hnumeric k ((mem_objectKeys sets k).mp hk)
    exact ⟨n, hn, by rw [hn, stringToNumber_intToString]⟩

/-- Witness of C25: the example step button after `setupBank`, one appended
set and a swap of the two sets has the sets `"0"` and `"1"`. -/
theorem setupBank_key_space_witness :
    (KeySpace (some "step")
        (actionSetsOrEmpty (bank_set_swap exAfterAppend "1" "2" "0" "1") "1" "2") ∧
      ((some "step" : Option String) = some "press" →
        objectKeys (actionSetsOrEmpty (bank_set_swap exAfterAppend "1" "2" "0" "1") "1" "2") =
          ["down", "up"]) ∧
      ((some "step" : Option String) = some "step" →
        1 ≤ (objectKeys
          (actionSetsOrEmpty (bank_set_swap exAfterAppend "1" "2" "0" "1") "1" "2")).length ∧
        ∀ k ∈ objectKeys
            (actionSetsOrEmpty (bank_set_swap exAfterAppend "1" "2" "0" "1") "1" "2"),
          ∃ n : Nat, k = intToString (n : Int) ∧ stringToNumber k = some (JsNumber.int n))) ∧
      objectKeys (actionSetsOrEmpty (bank_set_swap exAfterAppend "1" "2" "0" "1") "1" "2") =
        ["0", "1"] :=
  ⟨setupBank_key_space "1" "2" (some "step") (bank_set_swap exAfterAppend "1" "2" "0" "1")
      (StoreReachable.swapSets exAfterAppend "0" "1" (by decide) (by decide)
        (StoreReachable.addSet exAfterSetup exAfterAppend
          (StoreReachable.setup exOneStep exAfterSetup (by decide) (by decide)) (by decide))),
    by decide⟩

end Companion
